import Mathlib

/-!
# A verification model of the `js-tracker` EsprimaParser interpreter

This file gives a shallow embedding, in Lean 4, of the tree-walking
JavaScript-AST interpreter implemented in `src/lib/EsprimaParser/index.js`
of the `js-tracker` repository, together with theorems settling a list of
claims about that interpreter.

Modelling conventions:

* The interpreter is stateful and may diverge (JS `while` loops), so every
  evaluator takes a fuel argument (`Nat`) and returns
  `Option (Res α × St)`:
  `none` models running out of fuel (i.e. nontermination is never
  observed); `some (.ok v, st)` models normal completion and
  `some (.thr e, st)` models a JavaScript exception propagating, with the
  interpreter state at the moment the result is observed.
* JS numbers are modelled as `Int` (the claims under study never involve
  float-specific behaviour); the binary/unary/update operator tables are
  external collaborators in the source, and are modelled here for the
  operators the example programs use.
* Objects are mutable, so values carry heap references (`Value.obj r`)
  and the state carries an association-list heap.  Interpreter-produced
  functions are heap-allocated `FunctionAgentData` records referenced by
  `Value.func r`.
* The supporting structures `FlowState`, `ClosureStack`, `Collection` and
  `Callee` are required from `./structures/` in the source but their
  files are not part of the sources provided; they are modelled from the
  spec (sections 2 and 3), as indicated in their doc comments.
* External collaborators (the checker dispatcher, the escodegen code
  generator, the host classes used for `instanceof` checks) are passed to
  the interpreter as an explicit `Ext` record of functions, matching the
  spec's description of them as external collaborators.
-/

namespace JsTracker

/-- JavaScript runtime values, as the interpreter manipulates them.
Primitives are immediate; objects and interpreter-produced functions are
references into the state's heap / function table. -/
inductive Value where
  | undef
  | null
  | bool (b : Bool)
  | num (n : Int)
  | str (s : String)
  | obj (r : Nat)
  | func (r : Nat)
deriving Repr, DecidableEq

/-- Outcome of an evaluator: normal completion or a thrown JS value
(JavaScript's exception mechanism; see `ThrowStatement`). -/
inductive Res (α : Type) where
  | ok (a : α)
  | thr (e : Value)
deriving Repr, DecidableEq

/-- Modelled from the spec: `structures/FlowState` (not under `src/`).
"The control-flow signal register. Holds a bitset of
{BREAK, CONTINUE, RETURN} and an optional label name." -/
structure FlowState where
  breakF : Bool
  continueF : Bool
  returnF : Bool
  label : Option String
deriving Repr, DecidableEq

def FlowState.init : FlowState := ⟨false, false, false, none⟩

def FlowState.setBreak (fs : FlowState) : FlowState := { fs with breakF := true }

def FlowState.unsetBreak (fs : FlowState) : FlowState := { fs with breakF := false }

def FlowState.setContinue (fs : FlowState) : FlowState := { fs with continueF := true }

def FlowState.unsetContinue (fs : FlowState) : FlowState := { fs with continueF := false }

def FlowState.setReturn (fs : FlowState) : FlowState := { fs with returnF := true }

def FlowState.unsetReturn (fs : FlowState) : FlowState := { fs with returnF := false }

def FlowState.setLabel (fs : FlowState) (l : Option String) : FlowState := { fs with label := l }

def FlowState.unsetLabel (fs : FlowState) : FlowState := { fs with label := none }

def FlowState.isNullLabel (fs : FlowState) : Bool := fs.label = none

def FlowState.isLabelMatched (fs : FlowState) (l : Option String) : Bool := fs.label = l

def FlowState.isReturnState (fs : FlowState) : Bool := fs.returnF

def FlowState.isBreakState (fs : FlowState) : Bool := fs.breakF

def FlowState.isContinueState (fs : FlowState) : Bool := fs.continueF

/-- Spec 4.3: "if FlowState has any of BREAK/CONTINUE/RETURN set, stop". -/
def FlowState.isEitherState (fs : FlowState) : Bool :=
  fs.breakF || fs.continueF || fs.returnF

/-- Association list update: overwrite the first binding of `k`, or append
a new binding.  Models writing a property of a JS object / frame. -/
def aset (k : String) (v : Value) : List (String × Value) → List (String × Value)
  | [] => [(k, v)]
  | (k0, v0) :: rest => if k0 = k then (k0, v) :: rest else (k0, v0) :: aset k v rest

/-- Association list lookup. -/
def aget (k : String) : List (String × Value) → Option Value
  | [] => none
  | (k0, v0) :: rest => if k0 = k then some v0 else aget k rest

/-- Association list delete (models the `delete` operator on an object). -/
def adel (k : String) : List (String × Value) → List (String × Value)
  | [] => []
  | (k0, v0) :: rest => if k0 = k then rest else (k0, v0) :: adel k rest

/-- Modelled from the spec: a frame of `structures/ClosureStack` (not
under `src/`).  The outermost frame of the stack built by
`new ClosureStack(context)` is backed by the host context object itself
(which is why the constructor defines `context.this = context`); frames
pushed by `createClosure` are ordinary name-to-value maps. -/
inductive Frame where
  | ctxf (r : Nat)
  | localf (bindings : List (String × Value))
deriving Repr, DecidableEq

/-- Modelled from the spec: `structures/ClosureStack` (not under `src/`).
"A stack of frames mapping identifier → value; supports lexical lookup,
definition, update, and cloning for capture."  The head of the list is
the innermost frame. -/
abbrev ClosureStack := List Frame

/-- Modelled from the spec: `structures/Callee` (not under `src/`).
"A value wrapper marking a callable reference"; `arguments` is attached
after the argument list has been evaluated. -/
structure CalleeData where
  method : Value
  args : List Value
deriving Repr, DecidableEq

/-- The callee part of a `{caller, callee}` reference: either a plain
property key / variable name (as a `Value`), or a `Callee` wrapper. -/
inductive RefCallee where
  | raw (v : Value)
  | callee (c : CalleeData)
deriving Repr, DecidableEq

/-- `getExpInfo` result: call-site metadata attached to references for
assignments and calls.  The `loc` field of the source (external position
data of the AST node) is not modelled; `code` comes from the external
code generator. -/
structure Info where
  code : String
  scriptUrl : Option String
deriving Repr, DecidableEq

/-- A `{caller, callee, info?}` reference (spec section 3).
`caller = Value.undef` means an identifier reference. -/
structure Ref where
  caller : Value
  calleeR : RefCallee
  info : Option Info
deriving Repr, DecidableEq

/-- A checker status: `{type, target?}` (spec section 6). -/
structure CStatus where
  type : String
  target : Option Value
deriving Repr, DecidableEq

/-- Modelled from the spec: one entry of `structures/Collection` (not
under `src/`): "append-only store mapping host DOM elements to recorded
{type, info} records". -/
structure CollEntry where
  element : Value
  type : String
  info : Option Info
deriving Repr, DecidableEq

/-- The ESTree AST subset dispatched on by the interpreter
(`parseNode` routes on `node.type`; every constructor below is one of the
evaluator methods of the class).  Absent children (`null` in ESTree) are
`Option`s.  The `regex` variant of `Literal` (which constructs a host
`RegExp`) is not modelled. -/
inductive Node where
  | Program (body : List Node)
  | ExpressionStatement (expression : Node)
  | BlockStatement (body : List Node)
  | EmptyStatement
  | ReturnStatement (argument : Option Node)
  | LabeledStatement (label : Node) (body : Node)
  | BreakStatement (label : Option Node)
  | ContinueStatement (label : Option Node)
  | IfStatement (test : Node) (consequent : Node) (alternate : Option Node)
  | SwitchStatement (discriminant : Node) (cases : List Node)
  | SwitchCase (test : Option Node) (consequent : List Node)
  | ThrowStatement (argument : Node)
  | TryStatement (block : Node) (handler : Option Node) (finalizer : Option Node)
  | CatchClause (param : Node) (body : Node)
  | WhileStatement (test : Node) (body : Node)
  | DoWhileStatement (body : Node) (test : Node)
  | ForStatement (init : Option Node) (test : Option Node) (update : Option Node) (body : Node)
  | ForInStatement (left : Node) (right : Node) (body : Node)
  | FunctionDeclaration (id : Node) (params : List Node) (body : Node)
  | FunctionExpression (id : Option Node) (params : List Node) (body : Node)
  | VariableDeclaration (kind : String) (declarations : List Node)
  | VariableDeclarator (id : Node) (init : Option Node)
  | ThisExpression
  | ArrayExpression (elements : List (Option Node))
  | ObjectExpression (properties : List Node)
  | Property (key : Node) (value : Node) (computed : Bool)
  | UnaryExpression (operator : String) (argument : Node)
  | UpdateExpression (operator : String) (argument : Node) (pre : Bool)
  | BinaryExpression (operator : String) (left : Node) (right : Node)
  | AssignmentExpression (operator : String) (left : Node) (right : Node)
  | LogicalExpression (operator : String) (left : Node) (right : Node)
  | MemberExpression (object : Node) (property : Node) (computed : Bool)
  | ConditionalExpression (test : Node) (consequent : Node) (alternate : Node)
  | CallExpression (callee : Node) (arguments : List Node)
  | NewExpression (callee : Node) (arguments : List Node)
  | SequenceExpression (expressions : List Node)
  | Identifier (name : String)
  | Literal (value : Value)
deriving Repr

/-- `parseFunctionExpression` result: the data an interpreter-produced
function closes over (spec section 3, FunctionAgentData).
`params` and `hoistings` are the results of `getNameFromPattern`, which
can be `undefined` for unsupported patterns, hence `Option String`. -/
structure FunctionAgentData where
  body : Node
  params : List (Option String)
  hoistings : List (Option String)
  closureStack : ClosureStack
  scriptUrl : Option String
deriving Repr

/-- The interpreter's mutable state: the fields set up by the
`EsprimaParser` constructor (`context`, `scriptUrl`, `checkFlag`,
`collection`, `flowState`, `closureStack`) plus the heap that carries the
mutable host objects and the allocated function agents. -/
structure St where
  heap : List (Nat × List (String × Value))
  funcs : List (Nat × FunctionAgentData)
  nextRef : Nat
  ctxRef : Nat
  scriptUrl : Option String
  closureStack : ClosureStack
  flowState : FlowState
  checkFlag : Bool
  collection : List CollEntry
deriving Repr

/-- External collaborators (spec section 6): the checker dispatcher, the
source regenerator (escodegen), and the host-class `instanceof` tests
(`CSSStyleDeclaration`, `DOMTokenList`, `Attr`, `jQuery`) provided by the
host context. -/
structure Ext where
  checker : Value → RefCallee → Option CStatus
  gen : Node → String
  styleOf : Value → Bool
  domTokenListOf : Value → Bool
  attrOf : Value → Bool
  attrOwner : Value → Value
  jqueryGet : Value → Option (List Value)

/-- Heap lookup of an object's property list. -/
def heapGet (h : List (Nat × List (String × Value))) (r : Nat) :
    Option (List (String × Value)) :=
  match h with
  | [] => none
  | (r0, o) :: rest => if r0 = r then some o else heapGet rest r

/-- Heap update of one object's property list (upsert: the context object
always exists in real executions; totalizing keeps the model executable). -/
def heapMod (h : List (Nat × List (String × Value))) (r : Nat)
    (f : List (String × Value) → List (String × Value)) :
    List (Nat × List (String × Value)) :=
  match h with
  | [] => [(r, f [])]
  | (r0, o) :: rest => if r0 = r then (r0, f o) :: rest else (r0, o) :: heapMod rest r f

/-- JS ToBoolean on modelled values (numbers are `Int`, so there is no
`NaN`). -/
def truthy : Value → Bool
  | .undef => false
  | .null => false
  | .bool b => b
  | .num n => n ≠ 0
  | .str s => s ≠ ""
  | .obj _ => true
  | .func _ => true

/-- JS ToString as used for property keys (object stringification is not
needed by any modelled program and is collapsed to a token). -/
def toPropKey : Value → String
  | .undef => "undefined"
  | .null => "null"
  | .bool b => if b then "true" else "false"
  | .num n => toString n
  | .str s => s
  | .obj _ => "[object Object]"
  | .func _ => "function"

/-- JS strict equality on modelled values (references compare by
identity, which is what the flat comparison of heap indices gives). -/
def jsStrictEq (a b : Value) : Bool := a = b

/-- Property read `caller[key]`: throws `TypeError` on `null`/`undefined`
(as the host does), reads the heap for objects, and yields `undefined`
for other primitives (boxed-primitive properties are not modelled). -/
def getProp (st : St) (v : Value) (key : String) : Res Value :=
  match v with
  | .undef => .thr (.str "TypeError")
  | .null => .thr (.str "TypeError")
  | .obj r =>
    match heapGet st.heap r with
    | some o => .ok ((aget key o).getD .undef)
    | none => .ok .undef
  | _ => .ok (.undef)

/-- Property write `caller[key] = v`: throws on `null`/`undefined`,
writes the heap for objects, and is a silent no-op on other primitives
(sloppy-mode JS). -/
def setProp (st : St) (target : Value) (key : String) (v : Value) : Res St :=
  match target with
  | .undef => .thr (.str "TypeError")
  | .null => .thr (.str "TypeError")
  | .obj r => .ok { st with heap := heapMod st.heap r (aset key v) }
  | _ => .ok st

/-- Property delete `delete target[key]` (sloppy mode: returns `true`). -/
def delProp (st : St) (target : Value) (key : String) : Res (Value × St) :=
  match target with
  | .obj r => .ok (.bool true, { st with heap := heapMod st.heap r (adel key) })
  | _ => .ok (.bool true, st)

/-- Allocate a fresh object with the given properties; returns its value. -/
def allocObj (st : St) (props : List (String × Value)) : Value × St :=
  (.obj st.nextRef,
   { st with heap := (st.nextRef, props) :: st.heap, nextRef := st.nextRef + 1 })

/-- Allocate a fresh function agent; returns its value. -/
def allocFunc (st : St) (d : FunctionAgentData) : Value × St :=
  (.func st.nextRef,
   { st with funcs := (st.nextRef, d) :: st.funcs, nextRef := st.nextRef + 1 })

/-- Function-agent table lookup. -/
def funcGet (fs : List (Nat × FunctionAgentData)) (r : Nat) : Option FunctionAgentData :=
  match fs with
  | [] => none
  | (r0, d) :: rest => if r0 = r then some d else funcGet rest r

/-- Lookup of `n` in one frame (the context frame reads the context
object's properties from the heap). -/
def frameGet (st : St) (fr : Frame) (n : String) : Option Value :=
  match fr with
  | .localf b => aget n b
  | .ctxf r =>
    match heapGet st.heap r with
    | some o => aget n o
    | none => none

/-- Modelled from the spec: `ClosureStack.get` — "`get(name)` walks
outward"; a name bound nowhere reads as the host's `undefined`
(`context[name]` on the base frame). -/
def csGetAux (st : St) (n : String) : ClosureStack → Value
  | [] => .undef
  | fr :: rest =>
    match frameGet st fr n with
    | some v => v
    | none => csGetAux st n rest

def csGet (st : St) (n : String) : Value := csGetAux st n st.closureStack

/-- Modelled from the spec: `ClosureStack.set` — "`set(name, v)` defines
on the innermost frame".  A name of `none` (`getNameFromPattern` returned
`undefined` for an unsupported pattern) is a no-op.  Writing the context
frame writes the context object. -/
def csSet (st : St) (name : Option String) (v : Value) : St :=
  match name with
  | none => st
  | some n =>
    match st.closureStack with
    | [] => st
    | .ctxf r :: _ => { st with heap := heapMod st.heap r (aset n v) }
    | .localf b :: rest => { st with closureStack := .localf (aset n v b) :: rest }

/-- Walks outward looking for a frame that defines `n`, writing there if
found; returns whether a defining frame was found. -/
def csUpdateFrames (st : St) (n : String) (v : Value) :
    ClosureStack → Bool × ClosureStack × St
  | [] => (false, [], st)
  | fr :: rest =>
    match frameGet st fr n with
    | some _ =>
      match fr with
      | .localf b => (true, .localf (aset n v b) :: rest, st)
      | .ctxf r => (true, .ctxf r :: rest, { st with heap := heapMod st.heap r (aset n v) })
    | none =>
      let res := csUpdateFrames st n v rest
      (res.1, fr :: res.2.1, res.2.2)

/-- Writes `n` in the outermost frame (the fallback of `update`). -/
def csSetOutermost (st : St) (n : String) (v : Value) :
    ClosureStack → ClosureStack × St
  | [] => ([], st)
  | [fr] =>
    match fr with
    | .localf b => ([.localf (aset n v b)], st)
    | .ctxf r => ([.ctxf r], { st with heap := heapMod st.heap r (aset n v) })
  | fr :: rest =>
    let res := csSetOutermost st n v rest
    (fr :: res.1, res.2)

/-- Modelled from the spec: `ClosureStack.update` — "`update(name, v)`
walks outward until a frame defines `name` and writes there (falling back
to the outermost if none do)". -/
def csUpdate (st : St) (name : Option String) (v : Value) : St :=
  match name with
  | none => st
  | some n =>
    let res := csUpdateFrames st n v st.closureStack
    if res.1 then { res.2.2 with closureStack := res.2.1 }
    else
      let res2 := csSetOutermost st n v st.closureStack
      { res2.2 with closureStack := res2.1 }

/-- Modelled from the spec: `ClosureStack.createClosure` — "new frames
pushed on function entry". -/
def csCreateClosure (st : St) : St :=
  { st with closureStack := .localf [] :: st.closureStack }

/-- `setVariables` (source): defines on the innermost frame. -/
def setVariables (st : St) (name : Option String) (v : Value) : St := csSet st name v

/-- `updateVariables` (source): delegates to `ClosureStack.update`. -/
def updateVariables (st : St) (name : Option String) (v : Value) : St := csUpdate st name v

/-- `getNameFromPattern` (source): identifier patterns only; everything
else is `undefined`. -/
def getNameFromPattern : Node → Option String
  | .Identifier n => some n
  | _ => none

/-- Names of the declarators of a `VariableDeclaration`. -/
def declaratorNames : List Node → List (Option String)
  | [] => []
  | d :: rest =>
    (match d with
     | .VariableDeclarator id _ => getNameFromPattern id
     | _ => none) :: declaratorNames rest

/-- `getNameFromVariableDeclaration` (source). -/
def getNameFromVariableDeclaration : Node → List (Option String)
  | .VariableDeclaration _ decls => declaratorNames decls
  | _ => []

/-- `filterSubStatements` (source): the children the hoisting pre-pass
recurses into.  The source builds the lists with `[].concat(...)`, which
keeps `null` children as `null` elements that `searchHoistings` then
skips; the model drops them directly. -/
def filterSubStatements : Node → List Node
  | .BlockStatement body => body
  | .IfStatement _ c a => [c] ++ a.toList
  | .SwitchStatement _ cases =>
    cases.foldl
      (fun pre cur =>
        pre ++ (match cur with
                | .SwitchCase _ cons => cons
                | _ => []))
      []
  | .TryStatement b h f =>
    [b] ++
    (match h with
     | some (.CatchClause _ hb) => [hb]
     | _ => []) ++ f.toList
  | .ForStatement i _ _ b => i.toList ++ [b]
  | .ForInStatement l _ b => [l, b]
  | .WhileStatement _ b => [b]
  | .DoWhileStatement b _ => [b]
  | _ => []

/-- `isLoopStateNeededToUnset` (source). -/
def isLoopStateNeededToUnset (fs : FlowState) (label : Option String) : Bool :=
  fs.isNullLabel || fs.isLabelMatched label

/-- `handleLoopBreakState` (source): consumes a matching (or unlabelled)
break, and tells the loop to terminate either way. -/
def handleLoopBreakState (fs : FlowState) (label : Option String) : Bool × FlowState :=
  if isLoopStateNeededToUnset fs label then (true, fs.unsetBreak.unsetLabel)
  else (true, fs)

/-- `handleLoopContinueState` (source): consumes a matching (or
unlabelled) continue and keeps iterating; a continue for a different
label terminates this loop. -/
def handleLoopContinueState (fs : FlowState) (label : Option String) : Bool × FlowState :=
  if isLoopStateNeededToUnset fs label then (false, fs.unsetContinue.unsetLabel)
  else (true, fs)

/-- `isLoopNeededToBreak` (source): the shared loop state machine
(`loopShouldBreak` of the spec, section 4.6). -/
def isLoopNeededToBreak (fs : FlowState) (label : Option String) : Bool × FlowState :=
  if fs.isReturnState then (true, fs)
  else if fs.isBreakState then handleLoopBreakState fs label
  else if fs.isContinueState then handleLoopContinueState fs label
  else (false, fs)

/-- `isStatementLabelNeededToUnset` (source). -/
def isStatementLabelNeededToUnset (fs : FlowState) (label : Option String) : Bool :=
  !fs.isNullLabel && fs.isLabelMatched label

/-- `handleStatementLabelState` (source): the dispatcher's post-hook that
consumes a targeted break after a labelled statement (never touches
RETURN). -/
def handleStatementLabelState (fs : FlowState) (label : Option String) : FlowState :=
  if isStatementLabelNeededToUnset fs label then fs.unsetBreak.unsetLabel
  else fs

/-- An environment pair, as captured by `getEnvironment` (source). -/
structure Environment where
  scriptUrl : Option String
  closureStack : ClosureStack
deriving Repr

/-- `getEnvironment(this)` (source).  `closureStack.getClone()` produces
an independent equal-content copy; with the stack modelled as a pure
value, the clone is the value itself. -/
def getEnvironment (st : St) : Environment := ⟨st.scriptUrl, st.closureStack⟩

/-- `getEnvironment(functionAgentData)` (source). -/
def getAgentEnvironment (d : FunctionAgentData) : Environment := ⟨d.scriptUrl, d.closureStack⟩

/-- `setEnvironment` (source). -/
def setEnvironment (st : St) (env : Environment) : St :=
  { st with scriptUrl := env.scriptUrl, closureStack := env.closureStack }

/-- The `{this, arguments}` pair the host passes to the wrapper function
(`wrapWithFunction` in the source). -/
structure BuiltInArgs where
  thisV : Value
  argumentsV : Value
deriving Repr, DecidableEq

/-- `setBuiltInArguments` (source): binds `"this"` to
`builtInArguments.this || this.context` (JS `||`: the receiver whenever
it is truthy, the interpreter's context otherwise) and `"arguments"` to
the host-provided arguments object. -/
def setBuiltInArguments (st : St) (b : BuiltInArgs) : St :=
  let st1 := setVariables st (some "this") (if truthy b.thisV then b.thisV else .obj st.ctxRef)
  setVariables st1 (some "arguments") b.argumentsV

/-- `setCalledArguments` (source): binds formals positionally; missing
arguments are `undefined`, extras are ignored. -/
def setCalledArguments (st : St) (params : List (Option String)) (vals : List Value) : St :=
  match params, vals with
  | [], _ => st
  | p :: ps, [] => setCalledArguments (setVariables st p .undef) ps []
  | p :: ps, v :: vs => setCalledArguments (setVariables st p v) ps vs

/-- `setHoistings` (source): installs every hoisted name as `undefined`. -/
def setHoistings (st : St) : List (Option String) → St
  | [] => st
  | h :: rest => setHoistings (setVariables st h .undef) rest

/-- `getTargetObject` (source): resolve the element the collection entry
should be attributed to. -/
def getTargetObject (ext : Ext) (st : St) (caller : Value) (status : CStatus) : Value :=
  match status.target with
  | some t => t
  | none =>
    if ext.styleOf caller || ext.domTokenListOf caller then
      match caller with
      | .obj r =>
        match heapGet st.heap r with
        | some o => (aget "parent" o).getD .undef
        | none => .undef
      | _ => .undef
    else if ext.attrOf caller then ext.attrOwner caller
    else caller

/-- `getTargetElements` (source): jQuery sets are unwrapped with
`.get()`; anything else becomes a one-element sequence. -/
def getTargetElements (ext : Ext) (st : St) (caller : Value) (status : CStatus) : List Value :=
  let object := getTargetObject ext st caller status
  match ext.jqueryGet object with
  | some l => l
  | none => [object]

/-- `addInfoToCollection` (source): append one `{element, type, info}`
record per target element. -/
def addInfoToCollection (ext : Ext) (st : St) (exp : Ref) (status : CStatus) : St :=
  let elements := getTargetElements ext st exp.caller status
  { st with
    collection := st.collection ++ elements.map (fun e => ⟨e, status.type, exp.info⟩) }

/-- `setCheckFlag` + `tryToSetCheckFlag` (source): when the flag is off
and the reference has a truthy caller, consult the external checker; a
positive status sets `checkFlag` and records a collection entry.
Returns whether this site set the flag. -/
def setCheckFlag (ext : Ext) (st : St) (exp : Ref) : Bool × St :=
  if !st.checkFlag && truthy exp.caller then
    match ext.checker exp.caller exp.calleeR with
    | some status => (true, addInfoToCollection ext { st with checkFlag := true } exp status)
    | none => (false, st)
  else (false, st)

/-- `resetCheckFlag` (source). -/
def resetCheckFlag (st : St) (success : Bool) : St :=
  if success then { st with checkFlag := false } else st

/-- `handleAssign` (source): identifier references update the closure
stack; member references write `caller[callee]` (which throws on a
`null`/`undefined` caller). -/
def handleAssign (st : St) (exp : Ref) (v : Value) : Res St :=
  if exp.caller = .undef then
    match exp.calleeR with
    | .raw (.str s) => .ok (updateVariables st (some s) v)
    | _ => .ok st
  else
    match exp.calleeR with
    | .raw k => setProp st exp.caller (toPropKey k) v
    | .callee c => setProp st exp.caller (toPropKey c.method) v

/-- The `'='` entry installed by `initAssignmentOperators` (source):
`setCheckFlag`, then `handleAssign`, then `resetCheckFlag`, with no
try/finally — when the assignment throws, `resetCheckFlag` is skipped. -/
def assignmentOperatorEq (ext : Ext) (st : St) (exp : Ref) (v : Value) : Res Value × St :=
  let sr := setCheckFlag ext st exp
  match handleAssign sr.2 exp v with
  | .thr e => (.thr e, sr.2)
  | .ok st2 => (.ok v, resetCheckFlag st2 sr.1)

/-- The `{value?, error?}` record accumulated by `TryStatement`
(source). -/
structure ExcResult where
  value : Option Value
  error : Option Value
deriving Repr, DecidableEq

/-- `Object.assign(result, src)`: fields present in `src` overwrite. -/
def excAssign (dst src : ExcResult) : ExcResult :=
  { value := match src.value with
             | some v => some v
             | none => dst.value,
    error := match src.error with
             | some e => some e
             | none => dst.error }

/-- `getExceptionBlockResult` (source): a RETURN observed after a
try-related block is cleared and its value remembered. -/
def getExceptionBlockResult (fs : FlowState) (v : Value) : ExcResult × FlowState :=
  if fs.isReturnState then ({ value := some v, error := none }, fs.unsetReturn)
  else ({ value := none, error := none }, fs)

/-- `handleExceptionResult` (source): a remembered value re-sets RETURN
and is returned; otherwise a remembered error is re-raised; otherwise
`undefined`. -/
def handleExceptionResult (st : St) (result : ExcResult) : Res Value × St :=
  match result.value with
  | some v => (.ok v, { st with flowState := st.flowState.setReturn })
  | none =>
    match result.error with
    | some e => (.thr e, st)
    | none => (.ok .undef, st)

/-- `setCatchError` (source). -/
def setCatchError (st : St) (param : Node) (error : Value) : St :=
  setVariables st (getNameFromPattern param) error

/-- `getExpInfo` (source): `loc` (external AST position data) is not
modelled; `code` comes from the external code generator. -/
def getExpInfo (ext : Ext) (st : St) (node : Node) : Info :=
  ⟨ext.gen node, st.scriptUrl⟩

/-- `getPatternExp` (source). -/
def getPatternExp (node : Node) : Ref :=
  ⟨.undef,
   .raw (match getNameFromPattern node with
         | some s => .str s
         | none => .undef),
   none⟩

/-- JS ToNumber on the values the modelled operator tables handle. -/
def toNumber : Value → Int
  | .num n => n
  | .bool b => if b then 1 else 0
  | .null => 0
  | _ => 0

/-- JS ToString for the `+` operator's string case. -/
def toJsString : Value → String
  | .str s => s
  | .num n => toString n
  | .bool b => if b then "true" else "false"
  | .null => "null"
  | .undef => "undefined"
  | .obj _ => "[object Object]"
  | .func _ => "function"

/-- The external `binaryOperators` table (spec section 6: supplied as a
map of string → pure function), modelled for the operators the programs
in this file use. -/
def binaryOperators (op : String) (l r : Value) : Value :=
  if op = "+" then
    match l, r with
    | .str _, _ => .str (toJsString l ++ toJsString r)
    | _, .str _ => .str (toJsString l ++ toJsString r)
    | _, _ => .num (toNumber l + toNumber r)
  else if op = "-" then .num (toNumber l - toNumber r)
  else if op = "*" then .num (toNumber l * toNumber r)
  else if op = "===" then .bool (jsStrictEq l r)
  else if op = "!==" then .bool (!jsStrictEq l r)
  else if op = "<" then .bool (toNumber l < toNumber r)
  else if op = "<=" then .bool (toNumber l ≤ toNumber r)
  else if op = ">" then .bool (toNumber r < toNumber l)
  else if op = ">=" then .bool (toNumber r ≤ toNumber l)
  else (.undef)

/-- The external `updateOperators` table (`++`/`--`). -/
def updateOperators (op : String) (v : Value) : Value :=
  if op = "++" then .num (toNumber v + 1)
  else if op = "--" then .num (toNumber v - 1)
  else (.undef)

/-- The external `unaryOperators` table (without `delete`, which
`initUnaryOperators` installs in the interpreter itself because it needs
closure state). -/
def unaryOperators (op : String) (v : Value) : Value :=
  if op = "!" then .bool (!truthy v)
  else if op = "-" then .num (-toNumber v)
  else if op = "+" then .num (toNumber v)
  else if op = "typeof" then
    .str (match v with
          | .undef => "undefined"
          | .null => "object"
          | .bool _ => "boolean"
          | .num _ => "number"
          | .str _ => "string"
          | .obj _ => "object"
          | .func _ => "function")
  else if op = "void" then .undef
  else (.undef)

/-- The `delete` entry installed by `initUnaryOperators` (source): an
identifier reference deletes on the context object, a member reference
deletes on its caller. -/
def deleteOperator (st : St) (exp : Ref) : Res (Value × St) :=
  let target := if exp.caller = .undef then Value.obj st.ctxRef else exp.caller
  match exp.calleeR with
  | .raw k => delProp st target (toPropKey k)
  | .callee c => delProp st target (toPropKey c.method)

/-- The `EsprimaParser` constructor (source, lines 21-49): defines
`context.this = context` on the shared host context and initializes
`scriptUrl`, `checkFlag`, the collection, the flow state and the closure
stack (whose base frame is the context). -/
def mkInitState (ctxProps : List (String × Value)) : St :=
  { heap := [(0, aset "this" (.obj 0) ctxProps)],
    funcs := [],
    nextRef := 1,
    ctxRef := 0,
    scriptUrl := none,
    closureStack := [.ctxf 0],
    flowState := FlowState.init,
    checkFlag := false,
    collection := [] }


/-- An evaluator outcome: `none` is out of fuel; otherwise the result (or
thrown value) together with the state at the moment it is observed. -/
abbrev Out (α : Type) := Option (Res α × St)

/-- Sequencing on `Out`: thrown values and fuel exhaustion propagate. -/
def bindO {α β : Type} (m : Out α) (f : α → St → Out β) : Out β :=
  match m with
  | none => none
  | some (.thr e, st) => some (.thr e, st)
  | some (.ok a, st) => f a st

/-- `setFlowStateLabel` (source). -/
def setFlowStateLabel (fs : FlowState) (labelNode : Option Node) : FlowState :=
  match labelNode with
  | some l => fs.setLabel (getNameFromPattern l)
  | none => fs

/-- `hasNoParent` (source): an object with no own `parent` property. -/
def hasNoParent (st : St) (v : Value) : Bool :=
  match v with
  | .obj r =>
    match heapGet st.heap r with
    | some o => aget "parent" o = none
    | none => true
  | _ => false

/-- `isStyleOrDOMTokenList` (source): `instanceof` against the host
context's classes, provided externally. -/
def isStyleOrDOMTokenList (ext : Ext) (v : Value) : Bool :=
  ext.styleOf v || ext.domTokenListOf v

/-- `isValidStyleOrDOMTokenList` (source). -/
def isValidStyleOrDOMTokenList (ext : Ext) (st : St) (v : Value) : Bool :=
  hasNoParent st v && isStyleOrDOMTokenList ext v

/-- The host's `arguments` exotic object for a call, as observed through
the wrapper of `wrapWithFunction`: index properties plus `length`. -/
def allocArgumentsObj (st : St) (args : List Value) : Value × St :=
  allocObj st (args.enum.map (fun p => (toString p.1, p.2)) ++ [("length", .num args.length)])

/-- Host `for-in` key enumeration over a value (the host's insertion
order, modelled by the heap association list's order). -/
def objKeys (st : St) (v : Value) : List String :=
  match v with
  | .obj r => ((heapGet st.heap r).getD []).map Prod.fst
  | _ => []

/-- `transAssignmentToBinary`'s operator rewrite: the trailing `=` of a
compound assignment operator is stripped (`+=` to `+`, `=` to the empty
string). -/
def stripAssign (op : String) : String :=
  if op.data.getLast? = some '=' then String.mk op.data.dropLast else op

/- The bundle of all evaluator functions at one fuel level.  The
interpreter is the fuel-indexed tower `evals`: level `fuel + 1` is one
syntactic layer of every evaluator, with every call (recursive or not)
resolved at level `fuel`; level `0` answers `none` (out of fuel)
everywhere.  This encoding keeps every evaluator executable by plain
kernel reduction. -/
structure EvalFns where
  searchHoistings : List Node → Option (List (Option String))
  parseHoisting : Node → Option (List (Option String))
  searchSubHoistings : Node → Option (List (Option String))
  parseNode : Option Node → Option String → St → Out Value
  dispatchNode : Node → Option String → St → Out Value
  handleHoisting : List Node → St → Option St
  parseStatements : List Node → St → Out Value
  parseHoistingStatements : List Node → St → Out (List Node)
  parseNonHoistingStatements : List Node → St → Out Value
  evalWhileStatement : Node → Node → Option String → St → Out Value
  evalWhileAux : Node → Node → Option String → Value → St → Out Value
  evalDoWhileStatement : Node → Node → Option String → St → Out Value
  evalForStatement : Option Node → Option Node → Option Node → Node → Option String → St → Out Value
  evalForAux : Option Node → Option Node → Node → Option String → Value → St → Out Value
  evalForInStatement : Node → Node → Node → Option String → St → Out Value
  evalForInAux : Option String → Node → Option String → List String → Value → St → Out Value
  parseIterator : Node → St → Out (Option String)
  parseSwitchCases : List Node → Value → St → Out Value
  isCaseMatched : Option Node → Value → St → Out Bool
  evalTryStatement : Node → Option Node → Option Node → St → Out Value
  handleExceptionBlock : Option Node → St → Out ExcResult
  handleCatchClause : Option Node → Value → St → Option (ExcResult × St)
  parseCatchClause : Node → Value → St → Out ExcResult
  parseFunctionExpression : List Node → Node → St → Option (FunctionAgentData × St)
  createFunctionAgent : List Node → Node → St → Option (Value × St)
  parseFunctionAgentData : FunctionAgentData → BuiltInArgs → List Value → St → Out Value
  applyFunc : Value → Value → List Value → St → Out Value
  constructFunc : Value → List Value → St → Out Value
  evalCallExpression : Node → List Node → Node → St → Out Value
  parseCallee : Node → St → Out (Value × Value)
  parseArguments : List Node → St → Out (List Value)
  parseCallExp : Ref → St → Out Value
  executeExp : Ref → St → Out Value
  executeCall : Value → CalleeData → St → Out Value
  parseMemberExp : Ref → St → Out Value
  getMemberExp : Node → Node → Bool → St → Out Ref
  getPropertyKey : Node → Bool → St → Out Value
  getRefExp : Node → St → Out Ref
  evalBinaryExpression : Node → St → Out Value
  evalAssignmentExpression : Node → St → Out Value
  getAssignValue : String → Node → Node → St → Out Value
  evalDeclarators : String → List Node → St → Out Value
  evalElements : List (Option Node) → St → Out (List (Option Value))
  evalProperties : List Node → List (String × Value) → St → Out (List (String × Value))
  evalSequenceExpression : List Node → St → Out Value

/-- Fuel level `0`: every evaluator is out of fuel. -/
def evalsZero : EvalFns where
  searchHoistings := fun _ => none
  parseHoisting := fun _ => none
  searchSubHoistings := fun _ => none
  parseNode := fun _ _ _ => none
  dispatchNode := fun _ _ _ => none
  handleHoisting := fun _ _ => none
  parseStatements := fun _ _ => none
  parseHoistingStatements := fun _ _ => none
  parseNonHoistingStatements := fun _ _ => none
  evalWhileStatement := fun _ _ _ _ => none
  evalWhileAux := fun _ _ _ _ _ => none
  evalDoWhileStatement := fun _ _ _ _ => none
  evalForStatement := fun _ _ _ _ _ _ => none
  evalForAux := fun _ _ _ _ _ _ => none
  evalForInStatement := fun _ _ _ _ _ => none
  evalForInAux := fun _ _ _ _ _ _ => none
  parseIterator := fun _ _ => none
  parseSwitchCases := fun _ _ _ => none
  isCaseMatched := fun _ _ _ => none
  evalTryStatement := fun _ _ _ _ => none
  handleExceptionBlock := fun _ _ => none
  handleCatchClause := fun _ _ _ => none
  parseCatchClause := fun _ _ _ => none
  parseFunctionExpression := fun _ _ _ => none
  createFunctionAgent := fun _ _ _ => none
  parseFunctionAgentData := fun _ _ _ _ => none
  applyFunc := fun _ _ _ _ => none
  constructFunc := fun _ _ _ => none
  evalCallExpression := fun _ _ _ _ => none
  parseCallee := fun _ _ => none
  parseArguments := fun _ _ => none
  parseCallExp := fun _ _ => none
  executeExp := fun _ _ => none
  executeCall := fun _ _ _ => none
  parseMemberExp := fun _ _ => none
  getMemberExp := fun _ _ _ _ => none
  getPropertyKey := fun _ _ _ => none
  getRefExp := fun _ _ => none
  evalBinaryExpression := fun _ _ => none
  evalAssignmentExpression := fun _ _ => none
  getAssignValue := fun _ _ _ _ => none
  evalDeclarators := fun _ _ _ => none
  evalElements := fun _ _ => none
  evalProperties := fun _ _ _ => none
  evalSequenceExpression := fun _ _ => none

/-- One fuel level of every evaluator.  Each field is the body of the
correspondingly named source method (see the per-function doc comments
on the wrappers below). -/
def evalsStep (ext : Ext) (ev : EvalFns) : EvalFns where
  searchHoistings := fun a =>
    match a with
    | [] => some []
    | s :: rest =>
    match ev.parseHoisting s with
    | none => none
    | some hs =>
      match ev.searchHoistings rest with
      | none => none
      | some hs2 => some (hs ++ hs2)
  parseHoisting := fun a =>
    match a with
    | s =>
    match s with
    | .FunctionDeclaration id _ _ => some [getNameFromPattern id]
    | .VariableDeclaration kind decls =>
      if kind = "var" then some (declaratorNames decls) else some []
    | _ => ev.searchSubHoistings s
  searchSubHoistings := fun a =>
    match a with
    | s => ev.searchHoistings (filterSubStatements s)




  parseNode := fun a b c =>
    match a, b, c with
    | none, _, st => some (.ok .undef, st)
    | some n, opts, st =>
    bindO (ev.dispatchNode n opts st) fun v st2 =>
      some (.ok v, { st2 with flowState := handleStatementLabelState st2.flowState opts })
  dispatchNode := fun a b c =>
    match a, b, c with
    | n, opts, st =>
    match n with
    | .Program body =>
      match ev.handleHoisting body st with
      | none => none
      | some st2 => bindO (ev.parseStatements body st2) fun _ st3 => some (.ok .undef, st3)
    | .ExpressionStatement e =>
      bindO (ev.parseNode (some e) none st) fun _ st2 => some (.ok .undef, st2)
    | .BlockStatement body => ev.parseStatements body st
    | .EmptyStatement => some (.ok .undef, st)
    | .ReturnStatement arg =>
      bindO (ev.parseNode arg none st) fun v st2 =>
        some (.ok v, { st2 with flowState := st2.flowState.setReturn })
    | .LabeledStatement lbl body =>
      ev.parseNode (some body) (getNameFromPattern lbl) st
    | .BreakStatement lbl =>
      some (.ok .undef, { st with flowState := setFlowStateLabel st.flowState.setBreak lbl })
    | .ContinueStatement lbl =>
      some (.ok .undef, { st with flowState := setFlowStateLabel st.flowState.setContinue lbl })
    | .IfStatement t c a =>
      bindO (ev.parseNode (some t) none st) fun tv st2 =>
        if truthy tv then ev.parseNode (some c) none st2
        else ev.parseNode a none st2
    | .SwitchStatement disc cases =>
      bindO (ev.parseNode (some disc) none st) fun dv st2 =>
        bindO (ev.parseSwitchCases cases dv st2) fun rv st3 =>
          some (.ok rv, { st3 with flowState := st3.flowState.unsetBreak })
    | .SwitchCase _ cons => ev.parseStatements cons st
    | .ThrowStatement argN =>
      bindO (ev.parseNode (some argN) none st) fun ev st2 => some (.thr ev, st2)
    | .TryStatement b h fin => ev.evalTryStatement b h fin st
    | .CatchClause _ _ => some (.thr (.str "TypeError"), st)
    | .WhileStatement t b => ev.evalWhileStatement t b opts st
    | .DoWhileStatement b t => ev.evalDoWhileStatement b t opts st
    | .ForStatement i t u b => ev.evalForStatement i t u b opts st
    | .ForInStatement l r b => ev.evalForInStatement l r b opts st
    | .FunctionDeclaration id params body =>
      match ev.createFunctionAgent params body st with
      | none => none
      | some (fv, st2) => some (.ok .undef, setVariables st2 (getNameFromPattern id) fv)
    | .FunctionExpression idOpt params body =>
      match ev.parseFunctionExpression params body st with
      | none => none
      | some (data, st1) =>
        match idOpt with
        | none =>
          let a := allocFunc st1 data
          some (.ok a.1, a.2)
        | some idn =>
          let fv := Value.func st1.nextRef
          let frame := match getNameFromPattern idn with
                       | some nm => Frame.localf [(nm, fv)]
                       | none => Frame.localf []
          let a := allocFunc st1 { data with closureStack := frame :: data.closureStack }
          some (.ok a.1, a.2)
    | .VariableDeclaration kind decls => ev.evalDeclarators kind decls st
    | .VariableDeclarator id init =>
      bindO (ev.parseNode init none st) fun v st2 =>
        some (.ok .undef, setVariables st2 (getNameFromPattern id) v)
    | .ThisExpression => some (.ok (csGet st "this"), st)
    | .ArrayExpression elems =>
      bindO (ev.evalElements elems st) fun vs st2 =>
        let props :=
          (vs.enum.filterMap (fun p => p.2.map (fun v => (toString p.1, v)))) ++
          [("length", .num vs.length)]
        let a := allocObj st2 props
        some (.ok a.1, a.2)
    | .ObjectExpression props =>
      bindO (ev.evalProperties props [] st) fun ps st2 =>
        let a := allocObj st2 ps
        some (.ok a.1, a.2)
    | .Property k v computed =>
      bindO (ev.getPropertyKey k computed st) fun kv st2 =>
        bindO (ev.parseNode (some v) none st2) fun vv st3 =>
          let a := allocObj st3 [("key", kv), ("value", vv)]
          some (.ok a.1, a.2)
    | .UnaryExpression op a =>
      if op = "delete" then
        bindO (ev.getRefExp a st) fun ref st2 =>
          match deleteOperator st2 ref with
          | .ok p => some (.ok p.1, p.2)
          | .thr e => some (.thr e, st2)
      else
        bindO (ev.parseNode (some a) none st) fun v st2 =>
          some (.ok (unaryOperators op v), st2)
    | .UpdateExpression op a pre =>
      bindO (ev.parseNode (some a) none st) fun origin st2 =>
        let update := updateOperators op origin
        bindO (ev.getRefExp a st2) fun exp st3 =>
          match assignmentOperatorEq ext st3 exp update with
          | (.thr e, st4) => some (.thr e, st4)
          | (.ok _, st4) => some (.ok (if pre then update else origin), st4)
    | .BinaryExpression _ _ _ => ev.evalBinaryExpression n st
    | .AssignmentExpression _ _ _ => ev.evalAssignmentExpression n st
    | .LogicalExpression op l r =>
      if op = "||" then
        bindO (ev.parseNode (some l) none st) fun lv st2 =>
          if truthy lv then some (.ok lv, st2) else ev.parseNode (some r) none st2
      else if op = "&&" then
        bindO (ev.parseNode (some l) none st) fun lv st2 =>
          if truthy lv then ev.parseNode (some r) none st2 else some (.ok lv, st2)
      else some (.thr (.str "TypeError"), st)
    | .MemberExpression o p c =>
      bindO (ev.getMemberExp o p c st) fun exp st2 => ev.parseMemberExp exp st2
    | .ConditionalExpression t c a =>
      bindO (ev.parseNode (some t) none st) fun tv st2 =>
        if truthy tv then ev.parseNode (some c) none st2
        else ev.parseNode (some a) none st2
    | .CallExpression callee args => ev.evalCallExpression callee args n st
    | .NewExpression callee args =>
      bindO (ev.parseNode (some callee) none st) fun cv st2 =>
        bindO (ev.parseArguments args st2) fun avs st3 =>
          ev.constructFunc cv avs st3
    | .SequenceExpression exprs => ev.evalSequenceExpression exprs st
    | .Identifier name =>
      if name = "null" then some (.ok .null, st)
      else if name = "undefined" then some (.ok .undef, st)
      else some (.ok (csGet st name), st)
    | .Literal v => some (.ok v, st)
  handleHoisting := fun a b =>
    match a, b with
    | stmts, st =>
    match ev.searchHoistings stmts with
    | none => none
    | some hs => some (setHoistings st hs)
  parseStatements := fun a b =>
    match a, b with
    | stmts, st =>
    bindO (ev.parseHoistingStatements stmts st) fun nonH st2 =>
      ev.parseNonHoistingStatements nonH st2
  parseHoistingStatements := fun a b =>
    match a, b with
    | [], st => some (.ok [], st)
    | s :: rest, st =>
    match s with
    | .FunctionDeclaration _ _ _ =>
      bindO (ev.parseNode (some s) none st) fun _ st2 =>
        ev.parseHoistingStatements rest st2
    | _ =>
      bindO (ev.parseHoistingStatements rest st) fun l st2 =>
        some (.ok (s :: l), st2)
  parseNonHoistingStatements := fun a b =>
    match a, b with
    | [], st => some (.ok .undef, st)
    | s :: rest, st =>
    bindO (ev.parseNode (some s) none st) fun v st2 =>
      if st2.flowState.isEitherState then some (.ok v, st2)
      else
        match rest with
        | [] => some (.ok v, st2)
        | _ => ev.parseNonHoistingStatements rest st2
  evalWhileStatement := fun a b c d =>
    match a, b, c, d with
    | t, b, label, st => ev.evalWhileAux t b label .undef st
  evalWhileAux := fun a b c d e =>
    match a, b, c, d, e with
    | t, b, label, acc, st =>
    bindO (ev.parseNode (some t) none st) fun tv st2 =>
      if truthy tv then
        bindO (ev.parseNode (some b) none st2) fun rv st3 =>
          let br := isLoopNeededToBreak st3.flowState label
          let st4 := { st3 with flowState := br.2 }
          if br.1 then some (.ok rv, st4)
          else ev.evalWhileAux t b label rv st4
      else some (.ok acc, st2)
  evalDoWhileStatement := fun a b c d =>
    match a, b, c, d with
    | b, t, label, st =>
    bindO (ev.parseNode (some b) none st) fun rv st2 =>
      let br := isLoopNeededToBreak st2.flowState label
      let st3 := { st2 with flowState := br.2 }
      if br.1 then some (.ok rv, st3)
      else ev.evalWhileStatement t b none st3
  evalForStatement := fun a b c d e g =>
    match a, b, c, d, e, g with
    | i, t, u, b, label, st =>
    bindO (ev.parseNode i none st) fun _ st2 =>
      ev.evalForAux t u b label .undef st2
  evalForAux := fun a b c d e g =>
    match a, b, c, d, e, g with
    | t, u, b, label, acc, st =>
    bindO (ev.parseNode t none st) fun tv st2 =>
      if truthy tv then
        bindO (ev.parseNode (some b) none st2) fun rv st3 =>
          let br := isLoopNeededToBreak st3.flowState label
          let st4 := { st3 with flowState := br.2 }
          if br.1 then some (.ok rv, st4)
          else
            bindO (ev.parseNode u none st4) fun _ st5 =>
              ev.evalForAux t u b label rv st5
      else some (.ok acc, st2)
  evalForInStatement := fun a b c d e =>
    match a, b, c, d, e with
    | l, r, b, label, st =>
    bindO (ev.parseIterator l st) fun iterName st2 =>
      bindO (ev.parseNode (some r) none st2) fun rv st3 =>
        ev.evalForInAux iterName b label (objKeys st3 rv) .undef st3
  evalForInAux := fun a b c d e g =>
    match a, b, c, d, e, g with
    | _, _, _, [], acc, st => some (.ok acc, st)
    | name, b, label, k :: rest, _acc, st =>
    let st2 := updateVariables st name (.str k)
    bindO (ev.parseNode (some b) none st2) fun rv st3 =>
      let br := isLoopNeededToBreak st3.flowState label
      let st4 := { st3 with flowState := br.2 }
      if br.1 then some (.ok rv, st4)
      else ev.evalForInAux name b label rest rv st4
  parseIterator := fun a b =>
    match a, b with
    | node, st =>
    match node with
    | .VariableDeclaration _ decls =>
      bindO (ev.parseNode (some node) none st) fun _ st2 =>
        some (.ok (List.headD (declaratorNames decls) none), st2)
    | _ => some (.ok (getNameFromPattern node), st)
  parseSwitchCases := fun a b c =>
    match a, b, c with
    | [], _, st => some (.ok .undef, st)
    | c :: rest, disc, st =>
    bindO (ev.isCaseMatched
            (match c with
             | .SwitchCase t _ => t
             | _ => none) disc st) fun m st2 =>
      if m then ev.parseStatements (c :: rest) st2
      else ev.parseSwitchCases rest disc st2
  isCaseMatched := fun a b c =>
    match a, b, c with
    | t, disc, st =>
    match t with
    | none => some (.ok true, st)
    | some te =>
      bindO (ev.parseNode (some te) none st) fun tv st2 =>
        some (.ok (jsStrictEq tv disc), st2)
  evalTryStatement := fun a b c d =>
    match a, b, c, d with
    | b, h, fin, st =>
    let afterBlockCatch : Option (ExcResult × St) :=
      match ev.handleExceptionBlock (some b) st with
      | none => none
      | some (.ok part, st1) => some (excAssign ⟨none, none⟩ part, st1)
      | some (.thr e, st1) =>
        match ev.handleCatchClause h e st1 with
        | none => none
        | some (part, st2) => some (excAssign ⟨none, none⟩ part, st2)
    match afterBlockCatch with
    | none => none
    | some (result, st3) =>
      match ev.handleExceptionBlock fin st3 with
      | none => none
      | some (.thr e2, st4) => some (.thr e2, st4)
      | some (.ok part2, st4) =>
        let fin := handleExceptionResult st4 (excAssign result part2)
        some (fin.1, fin.2)
  handleExceptionBlock := fun a b =>
    match a, b with
    | block, st =>
    bindO (ev.parseNode block none st) fun v st2 =>
      let r := getExceptionBlockResult st2.flowState v
      some (.ok r.1, { st2 with flowState := r.2 })
  handleCatchClause := fun a b c =>
    match a, b, c with
    | handler, e, st =>
    match handler with
    | some h =>
      match ev.parseCatchClause h e st with
      | none => none
      | some (.ok part, st2) => some (part, st2)
      | some (.thr e2, st2) => some (⟨none, some e2⟩, st2)
    | none => some (⟨none, some e⟩, st)
  parseCatchClause := fun a b c =>
    match a, b, c with
    | h, e, st =>
    match h with
    | .CatchClause param body =>
      ev.handleExceptionBlock (some body) (setCatchError st param e)
    | _ => some (.thr (.str "TypeError"), st)
  parseFunctionExpression := fun a b c =>
    match a, b, c with
    | params, body, st =>
    match ev.searchHoistings [body] with
    | none => none
    | some hs =>
      some ({ body := body,
              params := params.map getNameFromPattern,
              hoistings := hs,
              closureStack := (getEnvironment st).closureStack,
              scriptUrl := (getEnvironment st).scriptUrl }, st)
  createFunctionAgent := fun a b c =>
    match a, b, c with
    | params, body, st =>
    match ev.parseFunctionExpression params body st with
    | none => none
    | some (data, st1) => some (allocFunc st1 data)
  parseFunctionAgentData := fun a b c d =>
    match a, b, c, d with
    | data, builtIn, calledArgs, st =>
    let envGlobal := getEnvironment st
    let st1 := setEnvironment st (getAgentEnvironment data)
    let st2 := csCreateClosure st1
    let st3 := setHoistings st2 data.hoistings
    let st4 := setBuiltInArguments st3 builtIn
    let st5 := setCalledArguments st4 data.params calledArgs
    match ev.parseNode (some data.body) none st5 with
    | none => none
    | some (.thr e, st6) => some (.thr e, setEnvironment st6 envGlobal)
    | some (.ok result, st6) =>
      let st7 := setEnvironment st6 envGlobal
      some (.ok result, { st7 with flowState := st7.flowState.unsetReturn })
  applyFunc := fun a b c d =>
    match a, b, c, d with
    | m, receiver, args, st =>
    match m with
    | .func r =>
      match funcGet st.funcs r with
      | some data =>
        let a := allocArgumentsObj st args
        ev.parseFunctionAgentData data ⟨receiver, a.1⟩ args a.2
      | none => some (.thr (.str "TypeError"), st)
    | _ => some (.thr (.str "TypeError"), st)
  constructFunc := fun a b c =>
    match a, b, c with
    | cv, args, st =>
    match cv with
    | .func r =>
      match funcGet st.funcs r with
      | some data =>
        let no := allocObj st []
        let ao := allocArgumentsObj no.2 args
        bindO (ev.parseFunctionAgentData data ⟨no.1, ao.1⟩ args ao.2) fun rv st2 =>
          some (.ok (match rv with
                     | .obj r2 => .obj r2
                     | .func r2 => .func r2
                     | _ => no.1), st2)
      | none => some (.thr (.str "TypeError"), st)
    | _ => some (.thr (.str "TypeError"), st)
  evalCallExpression := fun a b c d =>
    match a, b, c, d with
    | calleeN, argNs, node, st =>
    bindO (ev.parseCallee calleeN st) fun pc st2 =>
      bindO (ev.parseArguments argNs st2) fun avs st3 =>
        ev.parseCallExp
          ⟨pc.1, .callee ⟨pc.2, avs⟩, some (getExpInfo ext st3 node)⟩ st3
  parseCallee := fun a b =>
    match a, b with
    | callee, st =>
    match callee with
    | .MemberExpression o p c =>
      bindO (ev.getMemberExp o p c st) fun ref st2 =>
        some (.ok (ref.caller,
                   match ref.calleeR with
                   | .raw k => k
                   | .callee c2 => c2.method), st2)
    | _ =>
      bindO (ev.parseNode (some callee) none st) fun v st2 =>
        some (.ok (.undef, v), st2)
  parseArguments := fun a b =>
    match a, b with
    | [], st => some (.ok [], st)
    | a :: rest, st =>
    bindO (ev.parseNode (some a) none st) fun v st2 =>
      bindO (ev.parseArguments rest st2) fun vs st3 =>
        some (.ok (v :: vs), st3)
  parseCallExp := fun a b =>
    match a, b with
    | exp, st =>
    let sres := setCheckFlag ext st exp
    match ev.executeExp exp sres.2 with
    | none => none
    | some (.thr e, st2) => some (.thr e, st2)
    | some (.ok v, st2) => some (.ok v, resetCheckFlag st2 sres.1)
  executeExp := fun a b =>
    match a, b with
    | exp, st =>
    match exp.calleeR with
    | .callee c => ev.executeCall exp.caller c st
    | .raw k =>
      match getProp st exp.caller (toPropKey k) with
      | .ok v => some (.ok v, st)
      | .thr e => some (.thr e, st)
  executeCall := fun a b c =>
    match a, b, c with
    | caller, c, st =>
    match (if caller = .undef then .ok c.method else getProp st caller (toPropKey c.method) :
           Res Value) with
    | .thr e => some (.thr e, st)
    | .ok m => ev.applyFunc m caller c.args st
  parseMemberExp := fun a b =>
    match a, b with
    | exp, st =>
    bindO (ev.executeExp exp st) fun result st2 =>
      if isValidStyleOrDOMTokenList ext st2 result then
        match setProp st2 result "parent" exp.caller with
        | .ok st3 => some (.ok result, st3)
        | .thr e => some (.thr e, st2)
      else some (.ok result, st2)
  getMemberExp := fun a b c d =>
    match a, b, c, d with
    | object, property, computed, st =>
    bindO (ev.parseNode (some object) none st) fun cv st2 =>
      bindO (ev.getPropertyKey property computed st2) fun kv st3 =>
        some (.ok ⟨cv, .raw kv, none⟩, st3)
  getPropertyKey := fun a b c =>
    match a, b, c with
    | k, computed, st =>
    if computed then ev.parseNode (some k) none st
    else
      some (.ok (match k with
                 | .Identifier nm => .str nm
                 | .Literal v => v
                 | _ => .undef), st)
  getRefExp := fun a b =>
    match a, b with
    | e, st =>
    match e with
    | .MemberExpression o p c => ev.getMemberExp o p c st
    | _ => some (.ok (getPatternExp e), st)
  evalBinaryExpression := fun a b =>
    match a, b with
    | n, st =>
    match n with
    | .BinaryExpression op l r =>
      bindO (ev.parseNode (some l) none st) fun lv st2 =>
        bindO (ev.parseNode (some r) none st2) fun rv st3 =>
          some (.ok (binaryOperators op lv rv), st3)
    | _ => some (.thr (.str "TypeError"), st)
  evalAssignmentExpression := fun a b =>
    match a, b with
    | n, st =>
    match n with
    | .AssignmentExpression op l r =>
      bindO (ev.getRefExp l st) fun exp st2 =>
        bindO (ev.getAssignValue op l r st2) fun v st3 =>
          let exp2 := { exp with info := some (getExpInfo ext st3 n) }
          match assignmentOperatorEq ext st3 exp2 v with
          | (.thr e, st4) => some (.thr e, st4)
          | (.ok rv, st4) => some (.ok rv, st4)
    | _ => some (.thr (.str "TypeError"), st)
  getAssignValue := fun a b c d =>
    match a, b, c, d with
    | op, l, r, st =>
    if stripAssign op ≠ "" then
      ev.evalBinaryExpression (.BinaryExpression (stripAssign op) l r) st
    else ev.parseNode (some r) none st
  evalDeclarators := fun a b c =>
    match a, b, c with
    | _, [], st => some (.ok .undef, st)
    | kind, d :: rest, st =>
    match d with
    | .VariableDeclarator id init =>
      if kind = "var" && init.isNone then ev.evalDeclarators kind rest st
      else
        bindO (ev.parseNode init none st) fun v st2 =>
          ev.evalDeclarators kind rest (setVariables st2 (getNameFromPattern id) v)
    | _ => some (.thr (.str "TypeError"), st)
  evalElements := fun a b =>
    match a, b with
    | [], st => some (.ok [], st)
    | e :: rest, st =>
    match e with
    | some n =>
      bindO (ev.parseNode (some n) none st) fun v st2 =>
        bindO (ev.evalElements rest st2) fun vs st3 =>
          some (.ok (some v :: vs), st3)
    | none =>
      bindO (ev.evalElements rest st) fun vs st2 =>
        some (.ok (none :: vs), st2)
  evalProperties := fun a b c =>
    match a, b, c with
    | [], acc, st => some (.ok acc, st)
    | p :: rest, acc, st =>
    bindO (ev.parseNode (some p) none st) fun pv st2 =>
      let kv : Value × Value :=
        match pv with
        | .obj r =>
          match heapGet st2.heap r with
          | some o => ((aget "key" o).getD .undef, (aget "value" o).getD .undef)
          | none => (.undef, .undef)
        | _ => (.undef, .undef)
      ev.evalProperties rest (aset (toPropKey kv.1) kv.2 acc) st2
  evalSequenceExpression := fun a b =>
    match a, b with
    | [], st => some (.ok .undef, st)
    | e :: rest, st =>
    bindO (ev.parseNode (some e) none st) fun v st2 =>
      match rest with
      | [] => some (.ok v, st2)
      | _ => ev.evalSequenceExpression rest st2


/-- The interpreter at a given fuel. -/
def evals (ext : Ext) : Nat → EvalFns
  | 0 => evalsZero
  | fuel + 1 => evalsStep ext (evals ext fuel)

def searchHoistings (ext : Ext) (fuel : Nat) : List Node → Option (List (Option String)) :=
  (evals ext fuel).searchHoistings

def parseHoisting (ext : Ext) (fuel : Nat) : Node → Option (List (Option String)) :=
  (evals ext fuel).parseHoisting

def searchSubHoistings (ext : Ext) (fuel : Nat) : Node → Option (List (Option String)) :=
  (evals ext fuel).searchSubHoistings

/-- `parseNode` (source): the dispatcher.  An absent node evaluates to
`undefined` with no dispatch; otherwise the node's evaluator runs and
then the labelled-statement post-hook
(`handleStatementLabelState(options.label)`). -/
def parseNode (ext : Ext) (fuel : Nat) : Option Node → Option String → St → Out Value :=
  (evals ext fuel).parseNode

/-- The `this[node.type](node, options)` dispatch of `parseNode`: one
case per evaluator method of the class.  Dispatching a kind the class
does not implement is the host's `TypeError`. -/
def dispatchNode (ext : Ext) (fuel : Nat) : Node → Option String → St → Out Value :=
  (evals ext fuel).dispatchNode

/-- `handleHoisting` (source): collect the hoisted names and install each
as `undefined`. -/
def handleHoisting (ext : Ext) (fuel : Nat) : List Node → St → Option St :=
  (evals ext fuel).handleHoisting

/-- `parseStatements` (source): the function-declaration pass, then the
ordinary statement loop. -/
def parseStatements (ext : Ext) (fuel : Nat) : List Node → St → Out Value :=
  (evals ext fuel).parseStatements

/-- `parseHoistingStatements` + `isHoistingStatement` (source): each
`FunctionDeclaration` is evaluated up-front; the other statements are
returned, in order, for the second pass. -/
def parseHoistingStatements (ext : Ext) (fuel : Nat) : List Node → St → Out (List Node) :=
  (evals ext fuel).parseHoistingStatements

/-- `parseNonHoistingStatements` (source): run statements in order,
stopping (and keeping the last produced value) as soon as the flow state
has any of BREAK/CONTINUE/RETURN set. -/
def parseNonHoistingStatements (ext : Ext) (fuel : Nat) : List Node → St → Out Value :=
  (evals ext fuel).parseNonHoistingStatements

/-- `WhileStatement` (source): iterate while the test is truthy,
remembering the last body value and consulting `isLoopNeededToBreak`
after each body evaluation. -/
def evalWhileStatement (ext : Ext) (fuel : Nat) : Node → Node → Option String → St → Out Value :=
  (evals ext fuel).evalWhileStatement

/-- The iteration of `WhileStatement`'s host `while` loop. -/
def evalWhileAux (ext : Ext) (fuel : Nat) : Node → Node → Option String → Value → St → Out Value :=
  (evals ext fuel).evalWhileAux

/-- `DoWhileStatement` (source): evaluate the body once, consult the loop
state machine with this statement's label; when iteration continues,
delegate to `WhileStatement` — with no options, hence no label. -/
def evalDoWhileStatement (ext : Ext) (fuel : Nat) : Node → Node → Option String → St → Out Value :=
  (evals ext fuel).evalDoWhileStatement

/-- `ForStatement` (source): evaluate `init` once, then the host `for`
loop; the absent test evaluates through `parseNode(null)` to `undefined`,
which the host loop condition coerces. -/
def evalForStatement (ext : Ext) (fuel : Nat) : Option Node → Option Node → Option Node → Node → Option String → St → Out Value :=
  (evals ext fuel).evalForStatement

/-- The iteration of `ForStatement`'s host `for` loop (`update` runs
after each non-breaking iteration). -/
def evalForAux (ext : Ext) (fuel : Nat) : Option Node → Option Node → Node → Option String → Value → St → Out Value :=
  (evals ext fuel).evalForAux

/-- `ForInStatement` (source). -/
def evalForInStatement (ext : Ext) (fuel : Nat) : Node → Node → Node → Option String → St → Out Value :=
  (evals ext fuel).evalForInStatement

/-- The iteration of `ForInStatement`'s host `for-in` loop. -/
def evalForInAux (ext : Ext) (fuel : Nat) : Option String → Node → Option String → List String → Value → St → Out Value :=
  (evals ext fuel).evalForInAux

/-- `parseIterator` (source): a `var` declaration at `left` is evaluated
and its first declared name used; otherwise the pattern's name. -/
def parseIterator (ext : Ext) (fuel : Nat) : Node → St → Out (Option String) :=
  (evals ext fuel).parseIterator

/-- `parseSwitchCases` (source): scan for the first matching case (a
`null` test is the default), then run the tail of the case list from the
matched index as one statement sequence. -/
def parseSwitchCases (ext : Ext) (fuel : Nat) : List Node → Value → St → Out Value :=
  (evals ext fuel).parseSwitchCases

/-- `isCaseMatched` (source). -/
def isCaseMatched (ext : Ext) (fuel : Nat) : Option Node → Value → St → Out Bool :=
  (evals ext fuel).isCaseMatched

/-- `TryStatement` (source): the host `try`/`catch`/`finally` around the
three `Object.assign(result, ...)` steps, then `handleExceptionResult`.
`handleCatchClause` never throws (it catches internally); a throwing
finalizer propagates directly, skipping `handleExceptionResult`. -/
def evalTryStatement (ext : Ext) (fuel : Nat) : Node → Option Node → Option Node → St → Out Value :=
  (evals ext fuel).evalTryStatement

/-- `handleExceptionBlock` (source). -/
def handleExceptionBlock (ext : Ext) (fuel : Nat) : Option Node → St → Out ExcResult :=
  (evals ext fuel).handleExceptionBlock

/-- `handleCatchClause` (source): runs the clause under its own
`try`/`catch`, so it never raises; an absent handler or a raising clause
remembers the error. -/
def handleCatchClause (ext : Ext) (fuel : Nat) : Option Node → Value → St → Option (ExcResult × St) :=
  (evals ext fuel).handleCatchClause

/-- `parseCatchClause` (source). -/
def parseCatchClause (ext : Ext) (fuel : Nat) : Node → Value → St → Out ExcResult :=
  (evals ext fuel).parseCatchClause

/-- `parseFunctionExpression` (source): capture the environment and the
function info (`body`, parameter names, hoisted names of the body). -/
def parseFunctionExpression (ext : Ext) (fuel : Nat) : List Node → Node → St → Option (FunctionAgentData × St) :=
  (evals ext fuel).parseFunctionExpression

/-- `createFunctionAgent` (source): build the agent data and wrap it into
a callable value (`wrapWithFunction` + the arity wrapper, whose
`length` simulation is not observable in the model). -/
def createFunctionAgent (ext : Ext) (fuel : Nat) : List Node → Node → St → Option (Value × St) :=
  (evals ext fuel).createFunctionAgent

/-- `parseFunctionAgentData` (source): the invocation protocol — capture
`envGlobal`, install the function's captured environment, push a fresh
frame, install hoistings, `this`/`arguments` and the formals, evaluate
the body with `envGlobal` restored in a `finally`, then clear RETURN. -/
def parseFunctionAgentData (ext : Ext) (fuel : Nat) : FunctionAgentData → BuiltInArgs → List Value → St → Out Value :=
  (evals ext fuel).parseFunctionAgentData

/-- The host-level application of a value (`calledMethod.apply(caller,
callee.arguments)`): interpreter-produced functions run the invocation
protocol; applying a non-function is the host's `TypeError`. -/
def applyFunc (ext : Ext) (fuel : Nat) : Value → Value → List Value → St → Out Value :=
  (evals ext fuel).applyFunc

/-- `NewExpression`'s host construction: a fresh object is the receiver;
the construction yields the body's result when it is an object (or
function), else the fresh object. -/
def constructFunc (ext : Ext) (fuel : Nat) : Value → List Value → St → Out Value :=
  (evals ext fuel).constructFunc

/-- `CallExpression` (source): `getCallExp` (callee reference + evaluated
arguments wrapped by `Callee`), attach `info`, and `parseCallExp`. -/
def evalCallExpression (ext : Ext) (fuel : Nat) : Node → List Node → Node → St → Out Value :=
  (evals ext fuel).evalCallExpression

/-- `parseCallee` + `getCalleeExp`/`getOtherExp` (source): member callees
keep their caller; anything else is evaluated as the method with an
`undefined` caller. -/
def parseCallee (ext : Ext) (fuel : Nat) : Node → St → Out (Value × Value) :=
  (evals ext fuel).parseCallee

/-- `parseArguments` (source). -/
def parseArguments (ext : Ext) (fuel : Nat) : List Node → St → Out (List Value) :=
  (evals ext fuel).parseArguments

/-- `parseCallExp` (source): `setCheckFlag`, `execute`, `resetCheckFlag`
— with no try/finally, so a throwing call skips `resetCheckFlag`. -/
def parseCallExp (ext : Ext) (fuel : Nat) : Ref → St → Out Value :=
  (evals ext fuel).parseCallExp

/-- `execute`/`executeExp` (source): a `Callee`-wrapped callee is a
method call, a raw callee a member read. -/
def executeExp (ext : Ext) (fuel : Nat) : Ref → St → Out Value :=
  (evals ext fuel).executeExp

/-- `executeCall` + `getCalledMethod` (source). -/
def executeCall (ext : Ext) (fuel : Nat) : Value → CalleeData → St → Out Value :=
  (evals ext fuel).executeCall

/-- `parseMemberExp` (source): execute the reference, then attach
`result.parent = caller` to parentless host style/token-list objects. -/
def parseMemberExp (ext : Ext) (fuel : Nat) : Ref → St → Out Value :=
  (evals ext fuel).parseMemberExp

/-- `getMemberExp` (source): evaluate the object, compute the property
key. -/
def getMemberExp (ext : Ext) (fuel : Nat) : Node → Node → Bool → St → Out Ref :=
  (evals ext fuel).getMemberExp

/-- `getPropertyKey` (source): computed keys are evaluated; otherwise
`key.name || key.value`. -/
def getPropertyKey (ext : Ext) (fuel : Nat) : Node → Bool → St → Out Value :=
  (evals ext fuel).getPropertyKey

/-- `getRefExp` (source). -/
def getRefExp (ext : Ext) (fuel : Nat) : Node → St → Out Ref :=
  (evals ext fuel).getRefExp

/-- `BinaryExpression` (source), named because `getAssignValue` invokes
it directly on the rewritten node (not through `parseNode`). -/
def evalBinaryExpression (ext : Ext) (fuel : Nat) : Node → St → Out Value :=
  (evals ext fuel).evalBinaryExpression

/-- `AssignmentExpression` (source): build the reference, compute the
value through `getAssignValue`, attach `info`, invoke the `'='`
assignment operator. -/
def evalAssignmentExpression (ext : Ext) (fuel : Nat) : Node → St → Out Value :=
  (evals ext fuel).evalAssignmentExpression

/-- `getAssignValue` + `transAssignmentToBinary` (source): a compound
operator re-evaluates the left side inside the rewritten binary
expression; plain `=` evaluates only the right side. -/
def getAssignValue (ext : Ext) (fuel : Nat) : String → Node → Node → St → Out Value :=
  (evals ext fuel).getAssignValue

/-- `VariableDeclaration` / `VariableDeclarator` /
`parseVariableDeclarator` (source): a `var` declarator with no
initializer was already hoisted and is skipped. -/
def evalDeclarators (ext : Ext) (fuel : Nat) : String → List Node → St → Out Value :=
  (evals ext fuel).evalDeclarators

/-- `ArrayExpression`'s element loop (holes are deleted again, leaving
absent indices). -/
def evalElements (ext : Ext) (fuel : Nat) : List (Option Node) → St → Out (List (Option Value)) :=
  (evals ext fuel).evalElements

/-- `ObjectExpression`'s property loop: each `Property` evaluates (via
`parseNode`) to a `{key, value}` record; `result[key] = value`. -/
def evalProperties (ext : Ext) (fuel : Nat) : List Node → List (String × Value) → St → Out (List (String × Value)) :=
  (evals ext fuel).evalProperties

/-- `SequenceExpression` (source): all expressions in order, last value. -/
def evalSequenceExpression (ext : Ext) (fuel : Nat) : List Node → St → Out Value :=
  (evals ext fuel).evalSequenceExpression

/-- `parseAst` (source): set the script URL, evaluate the root.  The
method returns nothing (`undefined`); the claims observe the state. -/
def parseAst (ext : Ext) (fuel : Nat) (root : Node) (scriptUrl : String) (st : St) : Out Value :=
  bindO (parseNode ext fuel (some root) none { st with scriptUrl := some scriptUrl })
    fun _ st2 => some (.ok .undef, st2)


/- `nbr n` ("no bare return"): `n` contains no `ReturnStatement` outside
the body of a function declaration/expression.  This is the syntactic
side condition under which a normally-completing evaluation cannot leave
the RETURN flag set. -/
mutual

def nbr : Node → Bool
  | .Program body => nbrList body
  | .ExpressionStatement e => nbr e
  | .BlockStatement body => nbrList body
  | .EmptyStatement => true
  | .ReturnStatement _ => false
  | .LabeledStatement _ b => nbr b
  | .BreakStatement _ => true
  | .ContinueStatement _ => true
  | .IfStatement t c a => nbr t && nbr c && nbrO a
  | .SwitchStatement d cases => nbr d && nbrList cases
  | .SwitchCase t cons => nbrO t && nbrList cons
  | .ThrowStatement e => nbr e
  | .TryStatement b h f => nbr b && nbrO h && nbrO f
  | .CatchClause _ b => nbr b
  | .WhileStatement t b => nbr t && nbr b
  | .DoWhileStatement b t => nbr b && nbr t
  | .ForStatement i t u b => nbrO i && nbrO t && nbrO u && nbr b
  | .ForInStatement l r b => nbr l && nbr r && nbr b
  | .FunctionDeclaration _ _ _ => true
  | .FunctionExpression _ _ _ => true
  | .VariableDeclaration _ decls => nbrList decls
  | .VariableDeclarator _ i => nbrO i
  | .ThisExpression => true
  | .ArrayExpression elems => nbrOList elems
  | .ObjectExpression props => nbrList props
  | .Property k v _ => nbr k && nbr v
  | .UnaryExpression _ a => nbr a
  | .UpdateExpression _ a _ => nbr a
  | .BinaryExpression _ l r => nbr l && nbr r
  | .AssignmentExpression _ l r => nbr l && nbr r
  | .LogicalExpression _ l r => nbr l && nbr r
  | .MemberExpression o p _ => nbr o && nbr p
  | .ConditionalExpression t c a => nbr t && nbr c && nbr a
  | .CallExpression c args => nbr c && nbrList args
  | .NewExpression c args => nbr c && nbrList args
  | .SequenceExpression es => nbrList es
  | .Identifier _ => true
  | .Literal _ => true

def nbrList : List Node → Bool
  | [] => true
  | n :: ns => nbr n && nbrList ns

def nbrO : Option Node → Bool
  | none => true
  | some n => nbr n

def nbrOList : List (Option Node) → Bool
  | [] => true
  | o :: os => nbrO o && nbrOList os

end

/- `wf n` ("well-placed returns"): every expression-position child is
`nbr` (and recursively `wf`), while statement-position children (program
and block bodies, branches, loop bodies, try blocks, case consequents,
function bodies) are recursively `wf` — there a `ReturnStatement` is
legitimate.  A syntactically valid ESTree program is `wf`. -/
mutual

def wf : Node → Bool
  | .Program body => wfList body
  | .ExpressionStatement e => nbr e && wf e
  | .BlockStatement body => wfList body
  | .EmptyStatement => true
  | .ReturnStatement a => wfEO a
  | .LabeledStatement _ b => wf b
  | .BreakStatement _ => true
  | .ContinueStatement _ => true
  | .IfStatement t c a => (nbr t && wf t) && wf c && wfO a
  | .SwitchStatement d cases => (nbr d && wf d) && wfList cases
  | .SwitchCase t cons => wfEO t && wfList cons
  | .ThrowStatement e => nbr e && wf e
  | .TryStatement b h f => wf b && wfO h && wfO f
  | .CatchClause _ b => wf b
  | .WhileStatement t b => (nbr t && wf t) && wf b
  | .DoWhileStatement b t => wf b && (nbr t && wf t)
  | .ForStatement i t u b => wfEO i && wfEO t && wfEO u && wf b
  | .ForInStatement l r b => (nbr l && wf l) && (nbr r && wf r) && wf b
  | .FunctionDeclaration _ _ body => wf body
  | .FunctionExpression _ _ body => wf body
  | .VariableDeclaration _ decls => wfList decls
  | .VariableDeclarator _ i => wfEO i
  | .ThisExpression => true
  | .ArrayExpression elems => wfElems elems
  | .ObjectExpression props => wfArgs props
  | .Property k v _ => (nbr k && wf k) && (nbr v && wf v)
  | .UnaryExpression _ a => nbr a && wf a
  | .UpdateExpression _ a _ => nbr a && wf a
  | .BinaryExpression _ l r => (nbr l && wf l) && (nbr r && wf r)
  | .AssignmentExpression _ l r => (nbr l && wf l) && (nbr r && wf r)
  | .LogicalExpression _ l r => (nbr l && wf l) && (nbr r && wf r)
  | .MemberExpression o p _ => (nbr o && wf o) && (nbr p && wf p)
  | .ConditionalExpression t c a => (nbr t && wf t) && (nbr c && wf c) && (nbr a && wf a)
  | .CallExpression c args => (nbr c && wf c) && wfArgs args
  | .NewExpression c args => (nbr c && wf c) && wfArgs args
  | .SequenceExpression es => wfArgs es
  | .Identifier _ => true
  | .Literal _ => true

def wfList : List Node → Bool
  | [] => true
  | n :: ns => wf n && wfList ns

def wfO : Option Node → Bool
  | none => true
  | some n => wf n

def wfEO : Option Node → Bool
  | none => true
  | some n => nbr n && wf n

def wfArgs : List Node → Bool
  | [] => true
  | a :: rest => (nbr a && wf a) && wfArgs rest

def wfElems : List (Option Node) → Bool
  | [] => true
  | o :: os => wfEO o && wfElems os

end

/-- The state invariant of the RETURN-containment proof: every function
agent stored in the state has a well-placed-returns body. -/
def WfSt (st : St) : Prop := ∀ r d, funcGet st.funcs r = some d → wf d.body = true

/-- The RETURN-containment invariant of one evaluator outcome, from a
state with the RETURN flag clear: the state invariant is preserved, a
thrown outcome leaves RETURN clear, and (under the no-bare-return side
condition) a normal outcome leaves RETURN clear too. -/
def PInv {α : Type} (out : Out α) (st : St) (wfP nbrP : Prop) : Prop :=
  st.flowState.returnF = false → WfSt st →
  ∀ r st2, out = some (r, st2) → wfP →
    WfSt st2 ∧
    ((∃ e, r = Res.thr e) → st2.flowState.returnF = false) ∧
    (nbrP → (∃ a, r = Res.ok a) → st2.flowState.returnF = false)

/-- `isHoistingStatement`'s test (source). -/
def isHoistingNode : Node → Bool
  | .FunctionDeclaration _ _ _ => true
  | _ => false

/-- The statements `parseHoistingStatements` keeps for the second pass. -/
def nonHoistingOf (stmts : List Node) : List Node :=
  stmts.filter (fun s => !isHoistingNode s)

/-- Lookup in the current (innermost) frame only — "defined in the
current frame" of the hoisting property. -/
def currentFrameGet (st : St) (n : String) : Option Value :=
  match st.closureStack with
  | [] => none
  | fr :: _ => frameGet st fr n

/-! ### Concrete collaborators and example programs used by the claims -/

/-- Host collaborators with a checker that never reports. -/
def extNoChecker : Ext :=
  { checker := fun _ _ => none, gen := fun _ => "", styleOf := fun _ => false,
    domTokenListOf := fun _ => false, attrOf := fun _ => false,
    attrOwner := fun _ => .undef, jqueryGet := fun _ => none }

/-- Host collaborators with a checker that reports a `mutation` status at
every call site. -/
def extChecker : Ext :=
  { extNoChecker with checker := fun _ _ => some { type := "mutation", target := none } }

/-- A fresh interpreter state over an initially empty host context. -/
def initialSt : St := mkInitState []

/-- `var <n> = <v>;` -/
def mkVarDecl (n : String) (v : Option Node) : Node :=
  .VariableDeclaration "var" [.VariableDeclarator (.Identifier n) v]

/-- `var o = { m: function () { throw 1 } }; try { o.m() } catch (e) {}`
— the checker-hooked call site throws after setting `checkFlag`. -/
def progCheckFlagStuck : Node := .Program [
  mkVarDecl "o" (some (.ObjectExpression [
    .Property (.Identifier "m")
      (.FunctionExpression none [] (.BlockStatement [.ThrowStatement (.Literal (.num 1))])) false])),
  .TryStatement
    (.BlockStatement [.ExpressionStatement
      (.CallExpression (.MemberExpression (.Identifier "o") (.Identifier "m") false) [])])
    (some (.CatchClause (.Identifier "e") (.BlockStatement [])))
    none]

/-- `var x = 0; for (;;) { x = 1; break }` — a `ForStatement` with an
absent test. -/
def progForAbsentTest : Node := .Program [
  mkVarDecl "x" (some (.Literal (.num 0))),
  .ForStatement none none none
    (.BlockStatement [
      .ExpressionStatement (.AssignmentExpression "=" (.Identifier "x") (.Literal (.num 1))),
      .BreakStatement none])]

/-- The body of the labelled do-while examples:
`{ i = i + 1; if (i === <k>) continue L; i = i + 10 }`. -/
def doWhileBody (k : Int) : Node :=
  .BlockStatement [
    .ExpressionStatement (.AssignmentExpression "=" (.Identifier "i")
      (.BinaryExpression "+" (.Identifier "i") (.Literal (.num 1)))),
    .IfStatement (.BinaryExpression "===" (.Identifier "i") (.Literal (.num k)))
      (.ContinueStatement (some (.Identifier "L"))) none,
    .ExpressionStatement (.AssignmentExpression "=" (.Identifier "i")
      (.BinaryExpression "+" (.Identifier "i") (.Literal (.num 10))))]

/-- `var i = 0; L: do <body k> while (i < 20)` — when `k = 12` the
`continue L` fires in the second (delegated) iteration; when `k = 1` it
fires in the first (mandatory) iteration. -/
def progDoWhileContinue (k : Int) (bound : Int) : Node := .Program [
  mkVarDecl "i" (some (.Literal (.num 0))),
  .LabeledStatement (.Identifier "L")
    (.DoWhileStatement (doWhileBody k)
      (.BinaryExpression "<" (.Identifier "i") (.Literal (.num bound))))]

/-- `var n = 0; var o = {x: 5}; (n = n + 1, o).x += 1` — the member
expression's object has an observable side effect. -/
def progCompoundMember : Node := .Program [
  mkVarDecl "n" (some (.Literal (.num 0))),
  mkVarDecl "o" (some (.ObjectExpression [.Property (.Identifier "x") (.Literal (.num 5)) false])),
  .ExpressionStatement (.AssignmentExpression "+="
    (.MemberExpression
      (.SequenceExpression [
        .AssignmentExpression "=" (.Identifier "n")
          (.BinaryExpression "+" (.Identifier "n") (.Literal (.num 1))),
        .Identifier "o"])
      (.Identifier "x") false)
    (.Literal (.num 1)))]

/-- A `Program` whose body is a bare `return 1;`. -/
def progTopLevelReturn : Node := .Program [.ReturnStatement (some (.Literal (.num 1)))]

/-- `var r = (function f(){ return (function (){ return 7 })() })()` —
the spec's nested-return scenario. -/
def progNestedFunctions : Node := .Program [
  mkVarDecl "r" (some (.CallExpression
    (.FunctionExpression (some (.Identifier "f")) []
      (.BlockStatement [.ReturnStatement (some
        (.CallExpression
          (.FunctionExpression none []
            (.BlockStatement [.ReturnStatement (some (.Literal (.num 7)))]))
          []))]))
    []))]

/-- `{ return 1 }` and `{ return 2 }` — try block and finalizer of the
overwrite scenario. -/
def blockReturn (k : Int) : Node :=
  .BlockStatement [.ReturnStatement (some (.Literal (.num k)))]

/-- A state whose innermost frame is a fresh local frame (as during any
function invocation, right after `createClosure`). -/
def framedSt : St := csCreateClosure initialSt

/-- A function agent whose body is `{ return 1 }`, capturing the initial
environment with a script URL of its own. -/
def agentReturnOne : FunctionAgentData :=
  { body := blockReturn 1, params := [], hoistings := [],
    closureStack := [.ctxf 0], scriptUrl := some "captured.js" }

/-- The conjunction of the RETURN-containment invariants of every fueled
evaluator at one fuel level; proved for all levels by induction on fuel. -/
structure MasterInv (ext : Ext) (fuel : Nat) : Prop where
  pn : ∀ n opts st, PInv (parseNode ext fuel n opts st) st (wfO n = true) (nbrO n = true)
  dn : ∀ n opts st, PInv (dispatchNode ext fuel n opts st) st (wf n = true) (nbr n = true)
  stmts : ∀ l st, PInv (parseStatements ext fuel l st) st (wfList l = true) (nbrList l = true)
  hstmts : ∀ l st, PInv (parseHoistingStatements ext fuel l st) st (wfList l = true) True
  hstmtsW : ∀ l st nonH st2,
    parseHoistingStatements ext fuel l st = some (.ok nonH, st2) →
      (wfList l = true → wfList nonH = true) ∧ (nbrList l = true → nbrList nonH = true)
  nhstmts : ∀ l st,
    PInv (parseNonHoistingStatements ext fuel l st) st (wfList l = true) (nbrList l = true)
  whileS : ∀ t b lbl st, PInv (evalWhileStatement ext fuel t b lbl st) st
    (nbr t = true ∧ wf t = true ∧ wf b = true) (nbr b = true)
  whileA : ∀ t b lbl acc st, PInv (evalWhileAux ext fuel t b lbl acc st) st
    (nbr t = true ∧ wf t = true ∧ wf b = true) (nbr b = true)
  doWhile : ∀ b t lbl st, PInv (evalDoWhileStatement ext fuel b t lbl st) st
    (wf b = true ∧ nbr t = true ∧ wf t = true) (nbr b = true)
  forS : ∀ i t u b lbl st, PInv (evalForStatement ext fuel i t u b lbl st) st
    (wfEO i = true ∧ wfEO t = true ∧ wfEO u = true ∧ wf b = true) (nbr b = true)
  forA : ∀ t u b lbl acc st, PInv (evalForAux ext fuel t u b lbl acc st) st
    (wfEO t = true ∧ wfEO u = true ∧ wf b = true) (nbr b = true)
  forIn : ∀ l r b lbl st, PInv (evalForInStatement ext fuel l r b lbl st) st
    (nbr l = true ∧ wf l = true ∧ nbr r = true ∧ wf r = true ∧ wf b = true) (nbr b = true)
  forInA : ∀ nm b lbl keys acc st, PInv (evalForInAux ext fuel nm b lbl keys acc st) st
    (wf b = true) (nbr b = true)
  iter : ∀ nd st, PInv (parseIterator ext fuel nd st) st (nbr nd = true ∧ wf nd = true) True
  swc : ∀ cs disc st,
    PInv (parseSwitchCases ext fuel cs disc st) st (wfList cs = true) (nbrList cs = true)
  icm : ∀ t disc st, PInv (isCaseMatched ext fuel t disc st) st (wfEO t = true) True
  tryS : ∀ b h fin st, PInv (evalTryStatement ext fuel b h fin st) st
    (wf b = true ∧ wfO h = true ∧ wfO fin = true)
    (nbr b = true ∧ nbrO h = true ∧ nbrO fin = true)
  heb : ∀ blk st, PInv (handleExceptionBlock ext fuel blk st) st (wfO blk = true) True
  hcc : ∀ h e st, st.flowState.returnF = false → WfSt st →
    ∀ part st2, handleCatchClause ext fuel h e st = some (part, st2) → wfO h = true →
      WfSt st2 ∧ st2.flowState.returnF = false ∧ (nbrO h = true → part.value = none)
  hebV : ∀ blk st, st.flowState.returnF = false → WfSt st →
    ∀ part st2, handleExceptionBlock ext fuel blk st = some (.ok part, st2) →
      wfO blk = true → nbrO blk = true → part.value = none
  pccV : ∀ h e st, st.flowState.returnF = false → WfSt st →
    ∀ part st2, parseCatchClause ext fuel h e st = some (.ok part, st2) →
      wf h = true → nbr h = true → part.value = none
  pcc : ∀ h e st, PInv (parseCatchClause ext fuel h e st) st (wf h = true) True
  pfad : ∀ d bi args st,
    PInv (parseFunctionAgentData ext fuel d bi args st) st (wf d.body = true) True
  applyF : ∀ m recv args st, PInv (applyFunc ext fuel m recv args st) st True True
  conF : ∀ cv args st, PInv (constructFunc ext fuel cv args st) st True True
  callE : ∀ c args nd st, PInv (evalCallExpression ext fuel c args nd st) st
    (nbr c = true ∧ wf c = true ∧ wfArgs args = true) True
  pcallee : ∀ c st, PInv (parseCallee ext fuel c st) st (nbr c = true ∧ wf c = true) True
  pargs : ∀ l st, PInv (parseArguments ext fuel l st) st (wfArgs l = true) True
  pce : ∀ exp st, PInv (parseCallExp ext fuel exp st) st True True
  exe : ∀ exp st, PInv (executeExp ext fuel exp st) st True True
  exc : ∀ cal c st, PInv (executeCall ext fuel cal c st) st True True
  pme : ∀ exp st, PInv (parseMemberExp ext fuel exp st) st True True
  gme : ∀ o p c st, PInv (getMemberExp ext fuel o p c st) st
    (nbr o = true ∧ wf o = true ∧ nbr p = true ∧ wf p = true) True
  gpk : ∀ k c st, PInv (getPropertyKey ext fuel k c st) st (nbr k = true ∧ wf k = true) True
  gre : ∀ e st, PInv (getRefExp ext fuel e st) st (wf e = true) True
  bine : ∀ n st, PInv (evalBinaryExpression ext fuel n st) st (wf n = true) True
  asge : ∀ n st, PInv (evalAssignmentExpression ext fuel n st) st (wf n = true) True
  gav : ∀ op l r st, PInv (getAssignValue ext fuel op l r st) st
    (nbr l = true ∧ wf l = true ∧ nbr r = true ∧ wf r = true) True
  decl : ∀ kind ds st, PInv (evalDeclarators ext fuel kind ds st) st (wfList ds = true) True
  elemsI : ∀ es st, PInv (evalElements ext fuel es st) st (wfElems es = true) True
  propsI : ∀ ps acc st, PInv (evalProperties ext fuel ps acc st) st (wfArgs ps = true) True
  seqE : ∀ es st, PInv (evalSequenceExpression ext fuel es st) st (wfArgs es = true) True

/-- `function f() {}; 0;` — a list with one function declaration and one
ordinary statement, for the hoisting witnesses. -/
def hoistWitnessStmts : List Node :=
  [.FunctionDeclaration (.Identifier "f") [] (.BlockStatement []),
   .ExpressionStatement (.Literal (.num 0))]

/-! ## Shared lemmas -/

theorem aget_aset_same (k : String) (v : Value) (l : List (String × Value)) :
    aget k (aset k v l) = some v := by
  induction l with
  | nil => simp [aset, aget]
  | cons hd tl ih =>
    obtain ⟨k0, v0⟩ := hd
    by_cases h : k0 = k
    · simp [aset, aget, h]
    · simp [aset, aget, h, ih]

theorem aget_aset_other (k k2 : String) (v : Value) (l : List (String × Value))
    (h : k2 ≠ k) : aget k (aset k2 v l) = aget k l := by
  induction l with
  | nil => simp [aset, aget, h]
  | cons hd tl ih =>
    obtain ⟨k0, v0⟩ := hd
    by_cases h0 : k0 = k2
    · subst h0
      simp [aset, aget, h, ih]
    · simp only [aset, if_neg h0]
      by_cases h1 : k0 = k
      · simp [aget, h1]
      · simp [aget, h1, ih]

theorem bindO_none {α β : Type} (f : α → St → Out β) : bindO none f = none := rfl

theorem bindO_thr {α β : Type} (e : Value) (st : St) (f : α → St → Out β) :
    bindO (some (.thr e, st)) f = some (.thr e, st) := rfl

theorem bindO_ok {α β : Type} (a : α) (st : St) (f : α → St → Out β) :
    bindO (some (.ok a, st)) f = f a st := rfl

/-- The dispatcher post-hook is the identity when no label is supplied
or pending. -/
theorem handleStatementLabelState_none (fs : FlowState) :
    handleStatementLabelState fs none = fs := by
  cases h : fs.label <;>
    simp [handleStatementLabelState, isStatementLabelNeededToUnset,
      FlowState.isNullLabel, FlowState.isLabelMatched, h]

/-- The dispatcher post-hook never touches RETURN. -/
theorem handleStatementLabelState_returnF (fs : FlowState) (l : Option String) :
    (handleStatementLabelState fs l).returnF = fs.returnF := by
  simp only [handleStatementLabelState]
  split <;> rfl

/-- The loop state machine never touches RETURN. -/
theorem isLoopNeededToBreak_returnF (fs : FlowState) (l : Option String) :
    (isLoopNeededToBreak fs l).2.returnF = fs.returnF := by
  simp only [isLoopNeededToBreak, handleLoopBreakState, handleLoopContinueState]
  split
  · rfl
  · split
    · split <;> rfl
    · split
      · split <;> rfl
      · rfl

/-- `SwitchStatement`'s final `unset(BREAK)` never touches RETURN. -/
theorem unsetBreak_returnF (fs : FlowState) : fs.unsetBreak.returnF = fs.returnF := rfl

theorem bindO_assoc {α β γ : Type} (m : Out α) (f : α → St → Out β) (g : β → St → Out γ) :
    bindO (bindO m f) g = bindO m (fun a s => bindO (f a s) g) := by
  cases m with
  | none => rfl
  | some p =>
    obtain ⟨res, st⟩ := p
    cases res <;> rfl

/-- The dispatcher post-hook with no label is invisible after a `bindO`. -/
theorem bindO_posthook (m : Out Value) :
    bindO m (fun v st2 =>
      some (.ok v, { st2 with flowState := handleStatementLabelState st2.flowState none })) = m := by
  cases m with
  | none => rfl
  | some p =>
    obtain ⟨res, st⟩ := p
    cases res with
    | thr e => rfl
    | ok v => simp [bindO, handleStatementLabelState_none]

/-! ## Unfolding equations of the fueled evaluators

One `rfl` lemma per defining arm, at successor fuel; these drive the
symbolic proofs below without expanding the whole evaluator bundle. -/

theorem searchHoistings_eq1 (ext : Ext) (fuel : Nat) :
    searchHoistings ext (fuel + 1) ([]) = some [] := rfl

theorem searchHoistings_eq2 (ext : Ext) (fuel : Nat) s rest :
    searchHoistings ext (fuel + 1) (s :: rest) =
    match parseHoisting ext fuel s with
    | none => none
    | some hs =>
      match searchHoistings ext fuel rest with
      | none => none
      | some hs2 => some (hs ++ hs2) := rfl

theorem parseHoisting_eq (ext : Ext) (fuel : Nat) s :
    parseHoisting ext (fuel + 1) (s) =
    match s with
    | .FunctionDeclaration id _ _ => some [getNameFromPattern id]
    | .VariableDeclaration kind decls =>
      if kind = "var" then some (declaratorNames decls) else some []
    | _ => searchSubHoistings ext fuel s := rfl

theorem searchSubHoistings_eq (ext : Ext) (fuel : Nat) s :
    searchSubHoistings ext (fuel + 1) (s) = searchHoistings ext fuel (filterSubStatements s) := rfl

theorem parseNode_eq1 (ext : Ext) (fuel : Nat) x1 st :
    parseNode ext (fuel + 1) (none) (x1) (st) = some (.ok .undef, st) := rfl

theorem parseNode_eq2 (ext : Ext) (fuel : Nat) n opts st :
    parseNode ext (fuel + 1) (some n) (opts) (st) =
    bindO (dispatchNode ext fuel n opts st) fun v st2 =>
      some (.ok v, { st2 with flowState := handleStatementLabelState st2.flowState opts }) := rfl

theorem dispatchNode_eq (ext : Ext) (fuel : Nat) n opts st :
    dispatchNode ext (fuel + 1) (n) (opts) (st) =
    match n with
    | .Program body =>
      match handleHoisting ext fuel body st with
      | none => none
      | some st2 => bindO (parseStatements ext fuel body st2) fun _ st3 => some (.ok .undef, st3)
    | .ExpressionStatement e =>
      bindO (parseNode ext fuel (some e) none st) fun _ st2 => some (.ok .undef, st2)
    | .BlockStatement body => parseStatements ext fuel body st
    | .EmptyStatement => some (.ok .undef, st)
    | .ReturnStatement arg =>
      bindO (parseNode ext fuel arg none st) fun v st2 =>
        some (.ok v, { st2 with flowState := st2.flowState.setReturn })
    | .LabeledStatement lbl body =>
      parseNode ext fuel (some body) (getNameFromPattern lbl) st
    | .BreakStatement lbl =>
      some (.ok .undef, { st with flowState := setFlowStateLabel st.flowState.setBreak lbl })
    | .ContinueStatement lbl =>
      some (.ok .undef, { st with flowState := setFlowStateLabel st.flowState.setContinue lbl })
    | .IfStatement t c a =>
      bindO (parseNode ext fuel (some t) none st) fun tv st2 =>
        if truthy tv then parseNode ext fuel (some c) none st2
        else parseNode ext fuel a none st2
    | .SwitchStatement disc cases =>
      bindO (parseNode ext fuel (some disc) none st) fun dv st2 =>
        bindO (parseSwitchCases ext fuel cases dv st2) fun rv st3 =>
          some (.ok rv, { st3 with flowState := st3.flowState.unsetBreak })
    | .SwitchCase _ cons => parseStatements ext fuel cons st
    | .ThrowStatement argN =>
      bindO (parseNode ext fuel (some argN) none st) fun ev st2 => some (.thr ev, st2)
    | .TryStatement b h fin => evalTryStatement ext fuel b h fin st
    | .CatchClause _ _ => some (.thr (.str "TypeError"), st)
    | .WhileStatement t b => evalWhileStatement ext fuel t b opts st
    | .DoWhileStatement b t => evalDoWhileStatement ext fuel b t opts st
    | .ForStatement i t u b => evalForStatement ext fuel i t u b opts st
    | .ForInStatement l r b => evalForInStatement ext fuel l r b opts st
    | .FunctionDeclaration id params body =>
      match createFunctionAgent ext fuel params body st with
      | none => none
      | some (fv, st2) => some (.ok .undef, setVariables st2 (getNameFromPattern id) fv)
    | .FunctionExpression idOpt params body =>
      match parseFunctionExpression ext fuel params body st with
      | none => none
      | some (data, st1) =>
        match idOpt with
        | none =>
          let a := allocFunc st1 data
          some (.ok a.1, a.2)
        | some idn =>
          let fv := Value.func st1.nextRef
          let frame := match getNameFromPattern idn with
                       | some nm => Frame.localf [(nm, fv)]
                       | none => Frame.localf []
          let a := allocFunc st1 { data with closureStack := frame :: data.closureStack }
          some (.ok a.1, a.2)
    | .VariableDeclaration kind decls => evalDeclarators ext fuel kind decls st
    | .VariableDeclarator id init =>
      bindO (parseNode ext fuel init none st) fun v st2 =>
        some (.ok .undef, setVariables st2 (getNameFromPattern id) v)
    | .ThisExpression => some (.ok (csGet st "this"), st)
    | .ArrayExpression elems =>
      bindO (evalElements ext fuel elems st) fun vs st2 =>
        let props :=
          (vs.enum.filterMap (fun p => p.2.map (fun v => (toString p.1, v)))) ++
          [("length", .num vs.length)]
        let a := allocObj st2 props
        some (.ok a.1, a.2)
    | .ObjectExpression props =>
      bindO (evalProperties ext fuel props [] st) fun ps st2 =>
        let a := allocObj st2 ps
        some (.ok a.1, a.2)
    | .Property k v computed =>
      bindO (getPropertyKey ext fuel k computed st) fun kv st2 =>
        bindO (parseNode ext fuel (some v) none st2) fun vv st3 =>
          let a := allocObj st3 [("key", kv), ("value", vv)]
          some (.ok a.1, a.2)
    | .UnaryExpression op a =>
      if op = "delete" then
        bindO (getRefExp ext fuel a st) fun ref st2 =>
          match deleteOperator st2 ref with
          | .ok p => some (.ok p.1, p.2)
          | .thr e => some (.thr e, st2)
      else
        bindO (parseNode ext fuel (some a) none st) fun v st2 =>
          some (.ok (unaryOperators op v), st2)
    | .UpdateExpression op a pre =>
      bindO (parseNode ext fuel (some a) none st) fun origin st2 =>
        let update := updateOperators op origin
        bindO (getRefExp ext fuel a st2) fun exp st3 =>
          match assignmentOperatorEq ext st3 exp update with
          | (.thr e, st4) => some (.thr e, st4)
          | (.ok _, st4) => some (.ok (if pre then update else origin), st4)
    | .BinaryExpression _ _ _ => evalBinaryExpression ext fuel n st
    | .AssignmentExpression _ _ _ => evalAssignmentExpression ext fuel n st
    | .LogicalExpression op l r =>
      if op = "||" then
        bindO (parseNode ext fuel (some l) none st) fun lv st2 =>
          if truthy lv then some (.ok lv, st2) else parseNode ext fuel (some r) none st2
      else if op = "&&" then
        bindO (parseNode ext fuel (some l) none st) fun lv st2 =>
          if truthy lv then parseNode ext fuel (some r) none st2 else some (.ok lv, st2)
      else some (.thr (.str "TypeError"), st)
    | .MemberExpression o p c =>
      bindO (getMemberExp ext fuel o p c st) fun exp st2 => parseMemberExp ext fuel exp st2
    | .ConditionalExpression t c a =>
      bindO (parseNode ext fuel (some t) none st) fun tv st2 =>
        if truthy tv then parseNode ext fuel (some c) none st2
        else parseNode ext fuel (some a) none st2
    | .CallExpression callee args => evalCallExpression ext fuel callee args n st
    | .NewExpression callee args =>
      bindO (parseNode ext fuel (some callee) none st) fun cv st2 =>
        bindO (parseArguments ext fuel args st2) fun avs st3 =>
          constructFunc ext fuel cv avs st3
    | .SequenceExpression exprs => evalSequenceExpression ext fuel exprs st
    | .Identifier name =>
      if name = "null" then some (.ok .null, st)
      else if name = "undefined" then some (.ok .undef, st)
      else some (.ok (csGet st name), st)
    | .Literal v => some (.ok v, st) := rfl

theorem handleHoisting_eq (ext : Ext) (fuel : Nat) stmts st :
    handleHoisting ext (fuel + 1) (stmts) (st) =
    match searchHoistings ext fuel stmts with
    | none => none
    | some hs => some (setHoistings st hs) := rfl

theorem parseStatements_eq (ext : Ext) (fuel : Nat) stmts st :
    parseStatements ext (fuel + 1) (stmts) (st) =
    bindO (parseHoistingStatements ext fuel stmts st) fun nonH st2 =>
      parseNonHoistingStatements ext fuel nonH st2 := rfl

theorem parseHoistingStatements_eq1 (ext : Ext) (fuel : Nat) st :
    parseHoistingStatements ext (fuel + 1) ([]) (st) = some (.ok [], st) := rfl

theorem parseHoistingStatements_eq2 (ext : Ext) (fuel : Nat) s rest st :
    parseHoistingStatements ext (fuel + 1) (s :: rest) (st) =
    match s with
    | .FunctionDeclaration _ _ _ =>
      bindO (parseNode ext fuel (some s) none st) fun _ st2 =>
        parseHoistingStatements ext fuel rest st2
    | _ =>
      bindO (parseHoistingStatements ext fuel rest st) fun l st2 =>
        some (.ok (s :: l), st2) := rfl

theorem parseNonHoistingStatements_eq1 (ext : Ext) (fuel : Nat) st :
    parseNonHoistingStatements ext (fuel + 1) ([]) (st) = some (.ok .undef, st) := rfl

theorem parseNonHoistingStatements_eq2 (ext : Ext) (fuel : Nat) s rest st :
    parseNonHoistingStatements ext (fuel + 1) (s :: rest) (st) =
    bindO (parseNode ext fuel (some s) none st) fun v st2 =>
      if st2.flowState.isEitherState then some (.ok v, st2)
      else
        match rest with
        | [] => some (.ok v, st2)
        | _ => parseNonHoistingStatements ext fuel rest st2 := rfl

theorem evalWhileStatement_eq (ext : Ext) (fuel : Nat) t b label st :
    evalWhileStatement ext (fuel + 1) (t) (b) (label) (st) = evalWhileAux ext fuel t b label .undef st := rfl

theorem evalWhileAux_eq (ext : Ext) (fuel : Nat) t b label acc st :
    evalWhileAux ext (fuel + 1) (t) (b) (label) (acc) (st) =
    bindO (parseNode ext fuel (some t) none st) fun tv st2 =>
      if truthy tv then
        bindO (parseNode ext fuel (some b) none st2) fun rv st3 =>
          let br := isLoopNeededToBreak st3.flowState label
          let st4 := { st3 with flowState := br.2 }
          if br.1 then some (.ok rv, st4)
          else evalWhileAux ext fuel t b label rv st4
      else some (.ok acc, st2) := rfl

theorem evalDoWhileStatement_eq (ext : Ext) (fuel : Nat) b t label st :
    evalDoWhileStatement ext (fuel + 1) (b) (t) (label) (st) =
    bindO (parseNode ext fuel (some b) none st) fun rv st2 =>
      let br := isLoopNeededToBreak st2.flowState label
      let st3 := { st2 with flowState := br.2 }
      if br.1 then some (.ok rv, st3)
      else evalWhileStatement ext fuel t b none st3 := rfl

theorem evalForStatement_eq (ext : Ext) (fuel : Nat) i t u b label st :
    evalForStatement ext (fuel + 1) (i) (t) (u) (b) (label) (st) =
    bindO (parseNode ext fuel i none st) fun _ st2 =>
      evalForAux ext fuel t u b label .undef st2 := rfl

theorem evalForAux_eq (ext : Ext) (fuel : Nat) t u b label acc st :
    evalForAux ext (fuel + 1) (t) (u) (b) (label) (acc) (st) =
    bindO (parseNode ext fuel t none st) fun tv st2 =>
      if truthy tv then
        bindO (parseNode ext fuel (some b) none st2) fun rv st3 =>
          let br := isLoopNeededToBreak st3.flowState label
          let st4 := { st3 with flowState := br.2 }
          if br.1 then some (.ok rv, st4)
          else
            bindO (parseNode ext fuel u none st4) fun _ st5 =>
              evalForAux ext fuel t u b label rv st5
      else some (.ok acc, st2) := rfl

theorem evalForInStatement_eq (ext : Ext) (fuel : Nat) l r b label st :
    evalForInStatement ext (fuel + 1) (l) (r) (b) (label) (st) =
    bindO (parseIterator ext fuel l st) fun iterName st2 =>
      bindO (parseNode ext fuel (some r) none st2) fun rv st3 =>
        evalForInAux ext fuel iterName b label (objKeys st3 rv) .undef st3 := rfl

theorem evalForInAux_eq1 (ext : Ext) (fuel : Nat) x1 x2 x3 acc st :
    evalForInAux ext (fuel + 1) (x1) (x2) (x3) ([]) (acc) (st) = some (.ok acc, st) := rfl

theorem evalForInAux_eq2 (ext : Ext) (fuel : Nat) name b label k rest _acc st :
    evalForInAux ext (fuel + 1) (name) (b) (label) (k :: rest) (_acc) (st) =
    let st2 := updateVariables st name (.str k)
    bindO (parseNode ext fuel (some b) none st2) fun rv st3 =>
      let br := isLoopNeededToBreak st3.flowState label
      let st4 := { st3 with flowState := br.2 }
      if br.1 then some (.ok rv, st4)
      else evalForInAux ext fuel name b label rest rv st4 := rfl

theorem parseIterator_eq (ext : Ext) (fuel : Nat) node st :
    parseIterator ext (fuel + 1) (node) (st) =
    match node with
    | .VariableDeclaration _ decls =>
      bindO (parseNode ext fuel (some node) none st) fun _ st2 =>
        some (.ok (List.headD (declaratorNames decls) none), st2)
    | _ => some (.ok (getNameFromPattern node), st) := rfl

theorem parseSwitchCases_eq1 (ext : Ext) (fuel : Nat) x1 st :
    parseSwitchCases ext (fuel + 1) ([]) (x1) (st) = some (.ok .undef, st) := rfl

theorem parseSwitchCases_eq2 (ext : Ext) (fuel : Nat) c rest disc st :
    parseSwitchCases ext (fuel + 1) (c :: rest) (disc) (st) =
    bindO (isCaseMatched ext fuel
            (match c with
             | .SwitchCase t _ => t
             | _ => none) disc st) fun m st2 =>
      if m then parseStatements ext fuel (c :: rest) st2
      else parseSwitchCases ext fuel rest disc st2 := rfl

theorem isCaseMatched_eq (ext : Ext) (fuel : Nat) t disc st :
    isCaseMatched ext (fuel + 1) (t) (disc) (st) =
    match t with
    | none => some (.ok true, st)
    | some te =>
      bindO (parseNode ext fuel (some te) none st) fun tv st2 =>
        some (.ok (jsStrictEq tv disc), st2) := rfl

theorem evalTryStatement_eq (ext : Ext) (fuel : Nat) b h fin st :
    evalTryStatement ext (fuel + 1) (b) (h) (fin) (st) =
    let afterBlockCatch : Option (ExcResult × St) :=
      match handleExceptionBlock ext fuel (some b) st with
      | none => none
      | some (.ok part, st1) => some (excAssign ⟨none, none⟩ part, st1)
      | some (.thr e, st1) =>
        match handleCatchClause ext fuel h e st1 with
        | none => none
        | some (part, st2) => some (excAssign ⟨none, none⟩ part, st2)
    match afterBlockCatch with
    | none => none
    | some (result, st3) =>
      match handleExceptionBlock ext fuel fin st3 with
      | none => none
      | some (.thr e2, st4) => some (.thr e2, st4)
      | some (.ok part2, st4) =>
        let fin := handleExceptionResult st4 (excAssign result part2)
        some (fin.1, fin.2) := rfl

theorem handleExceptionBlock_eq (ext : Ext) (fuel : Nat) block st :
    handleExceptionBlock ext (fuel + 1) (block) (st) =
    bindO (parseNode ext fuel block none st) fun v st2 =>
      let r := getExceptionBlockResult st2.flowState v
      some (.ok r.1, { st2 with flowState := r.2 }) := rfl

theorem handleCatchClause_eq (ext : Ext) (fuel : Nat) handler e st :
    handleCatchClause ext (fuel + 1) (handler) (e) (st) =
    match handler with
    | some h =>
      match parseCatchClause ext fuel h e st with
      | none => none
      | some (.ok part, st2) => some (part, st2)
      | some (.thr e2, st2) => some (⟨none, some e2⟩, st2)
    | none => some (⟨none, some e⟩, st) := rfl

theorem parseCatchClause_eq (ext : Ext) (fuel : Nat) h e st :
    parseCatchClause ext (fuel + 1) (h) (e) (st) =
    match h with
    | .CatchClause param body =>
      handleExceptionBlock ext fuel (some body) (setCatchError st param e)
    | _ => some (.thr (.str "TypeError"), st) := rfl

theorem parseFunctionExpression_eq (ext : Ext) (fuel : Nat) params body st :
    parseFunctionExpression ext (fuel + 1) (params) (body) (st) =
    match searchHoistings ext fuel [body] with
    | none => none
    | some hs =>
      some ({ body := body,
              params := params.map getNameFromPattern,
              hoistings := hs,
              closureStack := (getEnvironment st).closureStack,
              scriptUrl := (getEnvironment st).scriptUrl }, st) := rfl

theorem createFunctionAgent_eq (ext : Ext) (fuel : Nat) params body st :
    createFunctionAgent ext (fuel + 1) (params) (body) (st) =
    match parseFunctionExpression ext fuel params body st with
    | none => none
    | some (data, st1) => some (allocFunc st1 data) := rfl

theorem parseFunctionAgentData_eq (ext : Ext) (fuel : Nat) data builtIn calledArgs st :
    parseFunctionAgentData ext (fuel + 1) (data) (builtIn) (calledArgs) (st) =
    let envGlobal := getEnvironment st
    let st1 := setEnvironment st (getAgentEnvironment data)
    let st2 := csCreateClosure st1
    let st3 := setHoistings st2 data.hoistings
    let st4 := setBuiltInArguments st3 builtIn
    let st5 := setCalledArguments st4 data.params calledArgs
    match parseNode ext fuel (some data.body) none st5 with
    | none => none
    | some (.thr e, st6) => some (.thr e, setEnvironment st6 envGlobal)
    | some (.ok result, st6) =>
      let st7 := setEnvironment st6 envGlobal
      some (.ok result, { st7 with flowState := st7.flowState.unsetReturn }) := rfl

theorem applyFunc_eq (ext : Ext) (fuel : Nat) m receiver args st :
    applyFunc ext (fuel + 1) (m) (receiver) (args) (st) =
    match m with
    | .func r =>
      match funcGet st.funcs r with
      | some data =>
        let a := allocArgumentsObj st args
        parseFunctionAgentData ext fuel data ⟨receiver, a.1⟩ args a.2
      | none => some (.thr (.str "TypeError"), st)
    | _ => some (.thr (.str "TypeError"), st) := rfl

theorem constructFunc_eq (ext : Ext) (fuel : Nat) cv args st :
    constructFunc ext (fuel + 1) (cv) (args) (st) =
    match cv with
    | .func r =>
      match funcGet st.funcs r with
      | some data =>
        let no := allocObj st []
        let ao := allocArgumentsObj no.2 args
        bindO (parseFunctionAgentData ext fuel data ⟨no.1, ao.1⟩ args ao.2) fun rv st2 =>
          some (.ok (match rv with
                     | .obj r2 => .obj r2
                     | .func r2 => .func r2
                     | _ => no.1), st2)
      | none => some (.thr (.str "TypeError"), st)
    | _ => some (.thr (.str "TypeError"), st) := rfl

theorem evalCallExpression_eq (ext : Ext) (fuel : Nat) calleeN argNs node st :
    evalCallExpression ext (fuel + 1) (calleeN) (argNs) (node) (st) =
    bindO (parseCallee ext fuel calleeN st) fun pc st2 =>
      bindO (parseArguments ext fuel argNs st2) fun avs st3 =>
        parseCallExp ext fuel
          ⟨pc.1, .callee ⟨pc.2, avs⟩, some (getExpInfo ext st3 node)⟩ st3 := rfl

theorem parseCallee_eq (ext : Ext) (fuel : Nat) callee st :
    parseCallee ext (fuel + 1) (callee) (st) =
    match callee with
    | .MemberExpression o p c =>
      bindO (getMemberExp ext fuel o p c st) fun ref st2 =>
        some (.ok (ref.caller,
                   match ref.calleeR with
                   | .raw k => k
                   | .callee c2 => c2.method), st2)
    | _ =>
      bindO (parseNode ext fuel (some callee) none st) fun v st2 =>
        some (.ok (.undef, v), st2) := rfl

theorem parseArguments_eq1 (ext : Ext) (fuel : Nat) st :
    parseArguments ext (fuel + 1) ([]) (st) = some (.ok [], st) := rfl

theorem parseArguments_eq2 (ext : Ext) (fuel : Nat) a rest st :
    parseArguments ext (fuel + 1) (a :: rest) (st) =
    bindO (parseNode ext fuel (some a) none st) fun v st2 =>
      bindO (parseArguments ext fuel rest st2) fun vs st3 =>
        some (.ok (v :: vs), st3) := rfl

theorem parseCallExp_eq (ext : Ext) (fuel : Nat) exp st :
    parseCallExp ext (fuel + 1) (exp) (st) =
    let sres := setCheckFlag ext st exp
    match executeExp ext fuel exp sres.2 with
    | none => none
    | some (.thr e, st2) => some (.thr e, st2)
    | some (.ok v, st2) => some (.ok v, resetCheckFlag st2 sres.1) := rfl

theorem executeExp_eq (ext : Ext) (fuel : Nat) exp st :
    executeExp ext (fuel + 1) (exp) (st) =
    match exp.calleeR with
    | .callee c => executeCall ext fuel exp.caller c st
    | .raw k =>
      match getProp st exp.caller (toPropKey k) with
      | .ok v => some (.ok v, st)
      | .thr e => some (.thr e, st) := rfl

theorem executeCall_eq (ext : Ext) (fuel : Nat) caller c st :
    executeCall ext (fuel + 1) (caller) (c) (st) =
    match (if caller = .undef then .ok c.method else getProp st caller (toPropKey c.method) :
           Res Value) with
    | .thr e => some (.thr e, st)
    | .ok m => applyFunc ext fuel m caller c.args st := rfl

theorem parseMemberExp_eq (ext : Ext) (fuel : Nat) exp st :
    parseMemberExp ext (fuel + 1) (exp) (st) =
    bindO (executeExp ext fuel exp st) fun result st2 =>
      if isValidStyleOrDOMTokenList ext st2 result then
        match setProp st2 result "parent" exp.caller with
        | .ok st3 => some (.ok result, st3)
        | .thr e => some (.thr e, st2)
      else some (.ok result, st2) := rfl

theorem getMemberExp_eq (ext : Ext) (fuel : Nat) object property computed st :
    getMemberExp ext (fuel + 1) (object) (property) (computed) (st) =
    bindO (parseNode ext fuel (some object) none st) fun cv st2 =>
      bindO (getPropertyKey ext fuel property computed st2) fun kv st3 =>
        some (.ok ⟨cv, .raw kv, none⟩, st3) := rfl

theorem getPropertyKey_eq (ext : Ext) (fuel : Nat) k computed st :
    getPropertyKey ext (fuel + 1) (k) (computed) (st) =
    if computed then parseNode ext fuel (some k) none st
    else
      some (.ok (match k with
                 | .Identifier nm => .str nm
                 | .Literal v => v
                 | _ => .undef), st) := rfl

theorem getRefExp_eq (ext : Ext) (fuel : Nat) e st :
    getRefExp ext (fuel + 1) (e) (st) =
    match e with
    | .MemberExpression o p c => getMemberExp ext fuel o p c st
    | _ => some (.ok (getPatternExp e), st) := rfl

theorem evalBinaryExpression_eq (ext : Ext) (fuel : Nat) n st :
    evalBinaryExpression ext (fuel + 1) (n) (st) =
    match n with
    | .BinaryExpression op l r =>
      bindO (parseNode ext fuel (some l) none st) fun lv st2 =>
        bindO (parseNode ext fuel (some r) none st2) fun rv st3 =>
          some (.ok (binaryOperators op lv rv), st3)
    | _ => some (.thr (.str "TypeError"), st) := rfl

theorem evalAssignmentExpression_eq (ext : Ext) (fuel : Nat) n st :
    evalAssignmentExpression ext (fuel + 1) (n) (st) =
    match n with
    | .AssignmentExpression op l r =>
      bindO (getRefExp ext fuel l st) fun exp st2 =>
        bindO (getAssignValue ext fuel op l r st2) fun v st3 =>
          let exp2 := { exp with info := some (getExpInfo ext st3 n) }
          match assignmentOperatorEq ext st3 exp2 v with
          | (.thr e, st4) => some (.thr e, st4)
          | (.ok rv, st4) => some (.ok rv, st4)
    | _ => some (.thr (.str "TypeError"), st) := rfl

theorem getAssignValue_eq (ext : Ext) (fuel : Nat) op l r st :
    getAssignValue ext (fuel + 1) (op) (l) (r) (st) =
    if stripAssign op ≠ "" then
      evalBinaryExpression ext fuel (.BinaryExpression (stripAssign op) l r) st
    else parseNode ext fuel (some r) none st := rfl

theorem evalDeclarators_eq1 (ext : Ext) (fuel : Nat) x1 st :
    evalDeclarators ext (fuel + 1) (x1) ([]) (st) = some (.ok .undef, st) := rfl

theorem evalDeclarators_eq2 (ext : Ext) (fuel : Nat) kind d rest st :
    evalDeclarators ext (fuel + 1) (kind) (d :: rest) (st) =
    match d with
    | .VariableDeclarator id init =>
      if kind = "var" && init.isNone then evalDeclarators ext fuel kind rest st
      else
        bindO (parseNode ext fuel init none st) fun v st2 =>
          evalDeclarators ext fuel kind rest (setVariables st2 (getNameFromPattern id) v)
    | _ => some (.thr (.str "TypeError"), st) := rfl

theorem evalElements_eq1 (ext : Ext) (fuel : Nat) st :
    evalElements ext (fuel + 1) ([]) (st) = some (.ok [], st) := rfl

theorem evalElements_eq2 (ext : Ext) (fuel : Nat) e rest st :
    evalElements ext (fuel + 1) (e :: rest) (st) =
    match e with
    | some n =>
      bindO (parseNode ext fuel (some n) none st) fun v st2 =>
        bindO (evalElements ext fuel rest st2) fun vs st3 =>
          some (.ok (some v :: vs), st3)
    | none =>
      bindO (evalElements ext fuel rest st) fun vs st2 =>
        some (.ok (none :: vs), st2) := rfl

theorem evalProperties_eq1 (ext : Ext) (fuel : Nat) acc st :
    evalProperties ext (fuel + 1) ([]) (acc) (st) = some (.ok acc, st) := rfl

theorem evalProperties_eq2 (ext : Ext) (fuel : Nat) p rest acc st :
    evalProperties ext (fuel + 1) (p :: rest) (acc) (st) =
    bindO (parseNode ext fuel (some p) none st) fun pv st2 =>
      let kv : Value × Value :=
        match pv with
        | .obj r =>
          match heapGet st2.heap r with
          | some o => ((aget "key" o).getD .undef, (aget "value" o).getD .undef)
          | none => (.undef, .undef)
        | _ => (.undef, .undef)
      evalProperties ext fuel rest (aset (toPropKey kv.1) kv.2 acc) st2 := rfl

theorem evalSequenceExpression_eq1 (ext : Ext) (fuel : Nat) st :
    evalSequenceExpression ext (fuel + 1) ([]) (st) = some (.ok .undef, st) := rfl

theorem evalSequenceExpression_eq2 (ext : Ext) (fuel : Nat) e rest st :
    evalSequenceExpression ext (fuel + 1) (e :: rest) (st) =
    bindO (parseNode ext fuel (some e) none st) fun v st2 =>
      match rest with
      | [] => some (.ok v, st2)
      | _ => evalSequenceExpression ext fuel rest st2 := rfl

/-! ## C10 — the constructor's `this` binding -/

/-- C10: constructing the interpreter defines `this` on the shared host
context with the context itself as value (`context.this === context`),
and a top-level `ThisExpression` evaluates to the host context through
the closure-stack lookup of the name `"this"` (first conjunct: the
context object's own `this` property; second: `csGet` on the fresh
state; third: the `ThisExpression` evaluator is exactly that lookup). -/
theorem constructor_context_this_binding :
    (∀ props, (heapGet (mkInitState props).heap (mkInitState props).ctxRef).map (aget "this")
        = some (some (.obj (mkInitState props).ctxRef))) ∧
    (∀ props, csGet (mkInitState props) "this" = .obj (mkInitState props).ctxRef) ∧
    (∀ ext fuel opts st, dispatchNode ext (fuel + 1) .ThisExpression opts st
        = some (.ok (csGet st "this"), st)) := by
  refine ⟨fun props => ?_, fun props => ?_, fun ext fuel opts st => rfl⟩
  · simp [mkInitState, heapGet, aget_aset_same]
  · simp [mkInitState, csGet, csGetAux, frameGet, heapGet, aget_aset_same]

/-! ## C2 — `ForStatement` with an absent test -/

/-- C2: a `ForStatement` whose `test` child is absent performs zero
iterations: `parseNode(null)` yields `undefined`, which the host `for`
condition coerces to false — the body is never entered, contradicting
the spec's "an absent test is treated as truthy".  First conjunct: for
every absent-test loop, once `init` completes the loop completes at once
with `undefined` and an unchanged state.  Second conjunct: on
`var x = 0; for (;;) { x = 1; break }` the code leaves `x = 0`. -/
theorem forStatement_absent_test_falsy :
    (∀ ext fuel i u b lbl st,
        evalForStatement ext (fuel + 3) i none u b lbl st
          = bindO (parseNode ext (fuel + 2) i none st)
              (fun _ st2 => some (.ok .undef, st2))) ∧
    ((parseAst extNoChecker 100 progForAbsentTest "script.js" initialSt).map
        (fun p => (p.1, csGet p.2 "x")) = some (.ok .undef, .num 0)) :=
  ⟨fun ext fuel i u b lbl st => rfl, rfl⟩

/-! ## C1 — `checkFlag` on throwing call sites -/

/-- C1 (divergence witness): on
`var o = { m: function () { throw 1 } }; try { o.m() } catch (e) {}`
with a checker that reports a positive status for the `o.m()` site,
`parseAst` returns normally with `checkFlag` still `true` (and the one
collection entry recorded): `parseCallExp` has no try/finally, so the
throwing call skips `resetCheckFlag`, contradicting the spec's
"cleared on every path that set it, including when the called method
throws". -/
theorem checkFlag_not_cleared_when_call_throws :
    (parseAst extChecker 40 progCheckFlagStuck "app.js" initialSt).map
        (fun p => (p.1, p.2.checkFlag, p.2.collection.length))
      = some (.ok .undef, true, 1) := rfl

/-! ## C3 — environment restoration around function invocation -/

/-- C3: the invocation protocol restores the `{scriptUrl, closureStack}`
pair observed before the call on every completed outcome — normal or
exceptional — thanks to the `finally` in `parseFunctionAgentData`. -/
theorem call_restores_environment :
    ∀ ext fuel data bi args st r st2,
      parseFunctionAgentData ext fuel data bi args st = some (r, st2) →
      st2.scriptUrl = st.scriptUrl ∧ st2.closureStack = st.closureStack := by
  intro ext fuel data bi args st r st2 h
  match fuel with
  | 0 => exact absurd h (by simp [parseFunctionAgentData, evals, evalsZero])
  | fuel + 1 =>
    simp only [parseFunctionAgentData, evals, evalsStep] at h
    split at h
    · cases h
    · injection h with h1
      injection h1 with h2 h3
      subst h3
      simp [setEnvironment, getEnvironment]
    · injection h with h1
      injection h1 with h2 h3
      subst h3
      simp [setEnvironment, getEnvironment]

/-- Witness: a concrete invocation of a function agent whose body is
`{ return 1 }`, from the fresh initial state. -/
theorem call_restores_environment_witness :
    ∃ r st2, parseFunctionAgentData extNoChecker 20 agentReturnOne ⟨.undef, .undef⟩ [] initialSt
        = some (r, st2)
      ∧ st2.scriptUrl = initialSt.scriptUrl ∧ st2.closureStack = initialSt.closureStack := by
  have h := call_restores_environment extNoChecker 20 agentReturnOne ⟨.undef, .undef⟩ []
    initialSt _ _ rfl
  exact ⟨_, _, rfl, h.1, h.2⟩

/-! ## C9 — compound member assignment evaluates the object twice -/

/-- C9: for a compound assignment (`stripAssign op` nonempty, e.g. `+=`)
whose left side is a member expression, the evaluation is exactly: the
object evaluated once (at fuel level `fuel + 3`, while building the
`{caller, callee}` reference in `getRefExp`), then the object evaluated
a second time (at fuel level `fuel`, inside the rewritten
`BinaryExpression`'s member read), so the object's side effects occur
twice.  The second conjunct demonstrates this on
`var n = 0; var o = {x: 5}; (n = n + 1, o).x += 1`: the final state has
`n = 2` (the sequence's increment ran twice) and `o.x = 6`. -/
theorem compound_member_assignment_double_eval :
    (∀ ext fuel op o p c rhs st, stripAssign op ≠ "" →
      evalAssignmentExpression ext (fuel + 6)
          (.AssignmentExpression op (.MemberExpression o p c) rhs) st
        = bindO (parseNode ext (fuel + 3) (some o) none st) (fun cv st2 =>
            bindO (getPropertyKey ext (fuel + 3) p c st2) (fun kv st3 =>
              bindO (parseNode ext fuel (some o) none st3) (fun cv2 st4 =>
                bindO (getPropertyKey ext fuel p c st4) (fun kv2 st5 =>
                  bindO (parseMemberExp ext (fuel + 1) ⟨cv2, .raw kv2, none⟩ st5) (fun lv st6 =>
                    bindO (parseNode ext (fuel + 3) (some rhs) none st6) (fun rv st7 =>
                      some (assignmentOperatorEq ext st7
                        ⟨cv, .raw kv, some (getExpInfo ext st7
                          (.AssignmentExpression op (.MemberExpression o p c) rhs))⟩
                        (binaryOperators (stripAssign op) lv rv))))))))) ∧
    ((parseAst extNoChecker 100 progCompoundMember "u.js" initialSt).map
        (fun p => (csGet p.2 "n",
          (match csGet p.2 "o" with
           | .obj r => (heapGet p.2.heap r).map (aget "x")
           | _ => none))) = some (.num 2, some (some (.num 6)))) := by
  refine ⟨fun ext fuel op o p c rhs st hop => ?_, rfl⟩
  rw [show fuel + 6 = (fuel + 5) + 1 from rfl, evalAssignmentExpression_eq]
  simp only [getRefExp_eq ext (fuel + 4), getMemberExp_eq ext (fuel + 3),
    getAssignValue_eq ext (fuel + 4), if_pos hop,
    evalBinaryExpression_eq ext (fuel + 3),
    parseNode_eq2 ext (fuel + 2) (.MemberExpression o p c),
    dispatchNode_eq ext (fuel + 1) (.MemberExpression o p c),
    getMemberExp_eq ext fuel, bindO_assoc, bindO_posthook, bindO_ok]
  have hmatch : ∀ (x : Res Value × St),
      (match x with
       | (Res.thr e, st4) => some ((Res.thr e : Res Value), st4)
       | (Res.ok rv, st4) => some (Res.ok rv, st4)) = some x := by
    intro x
    obtain ⟨res, st4⟩ := x
    cases res <;> rfl
  simp only [hmatch]

/-- Witness for the quantified equation: the compound assignment
`(o).x += 1` at concrete fuel, with the hypothesis discharged on the
concrete operator `+=`. -/
theorem compound_member_assignment_double_eval_witness :
    evalAssignmentExpression extNoChecker 16
        (.AssignmentExpression "+=" (.MemberExpression (.Identifier "o") (.Identifier "x") false)
          (.Literal (.num 1))) framedSt
      = bindO (parseNode extNoChecker 13 (some (.Identifier "o")) none framedSt) (fun cv st2 =>
          bindO (getPropertyKey extNoChecker 13 (.Identifier "x") false st2) (fun kv st3 =>
            bindO (parseNode extNoChecker 10 (some (.Identifier "o")) none st3) (fun cv2 st4 =>
              bindO (getPropertyKey extNoChecker 10 (.Identifier "x") false st4) (fun kv2 st5 =>
                bindO (parseMemberExp extNoChecker 11 ⟨cv2, .raw kv2, none⟩ st5) (fun lv st6 =>
                  bindO (parseNode extNoChecker 13 (some (.Literal (.num 1))) none st6) (fun rv st7 =>
                    some (assignmentOperatorEq extNoChecker st7
                      ⟨cv, .raw kv, some (getExpInfo extNoChecker st7
                        (.AssignmentExpression "+=" (.MemberExpression (.Identifier "o")
                          (.Identifier "x") false) (.Literal (.num 1))))⟩
                      (binaryOperators (stripAssign "+=") lv rv)))))))) :=
  compound_member_assignment_double_eval.1 extNoChecker 10 "+=" (.Identifier "o")
    (.Identifier "x") false (.Literal (.num 1)) framedSt (by decide)



/-! ## C7 — the receiver binding of `"this"` -/

/-- C7 (counterexample): `setBuiltInArguments` with the falsy receiver
`0` binds `"this"` to the interpreter's context, not to `0` — the source
uses `builtInArguments.this || this.context`, so every falsy receiver
falls back, not only `null`/`undefined` as the claim states. -/
theorem this_binding_falsy_receiver_counterexample :
    csGet (setBuiltInArguments framedSt ⟨.num 0, .undef⟩) "this" = .obj 0
      ∧ Value.obj 0 ≠ .num 0 := ⟨rfl, by decide⟩

/-- C7 (amended): during an invocation (innermost frame freshly pushed),
`"this"` is bound to the host-provided receiver exactly when the
receiver is truthy, and to the interpreter's context for every falsy
receiver (`undefined`, `null`, `false`, `0`, the empty string). -/
theorem this_binding_truthiness :
    ∀ b rest bi st, st.closureStack = Frame.localf b :: rest →
      csGet (setBuiltInArguments st bi) "this"
        = (if truthy bi.thisV then bi.thisV else .obj st.ctxRef) := by
  intro b rest bi st h
  simp only [setBuiltInArguments, setVariables, csSet, h]
  simp [csGet, csGetAux, frameGet, aget_aset_same,
    aget_aset_other "this" "arguments" _ _ (by decide)]

/-- Witness: a truthy receiver (`"x"`) is bound as-is. -/
theorem this_binding_truthiness_witness :
    csGet (setBuiltInArguments framedSt ⟨.str "x", .undef⟩) "this" = .str "x" := by
  have h := this_binding_truthiness [] [.ctxf 0] ⟨.str "x", .undef⟩ framedSt rfl
  simpa using h


/-! ## C8 — the `TryStatement` protocol -/

theorem st_flowState_eta (st : St) : { st with flowState := st.flowState } = st := rfl

/-- C8: the `TryStatement` protocol.  (i) a return observed in the
finalizer overwrites the return value remembered from the block, RETURN
is re-set and the finalizer's value returned; (ii) a remembered return
value takes precedence over a remembered error (the error is swallowed);
(iii) with no value remembered, a remembered error is re-raised after
the finalizer ran; (iv) with nothing remembered the result is
`undefined`; (v) when a catch clause ran (binding the caught error via
`setCatchError`), the finalizer still executes after it, and a handled
error is not re-raised. -/
theorem tryStatement_finalizer_protocol :
    (∀ ext fuel b fin st bv st1 fv st2,
      parseNode ext fuel (some b) none st = some (.ok bv, st1) →
      st1.flowState.returnF = true →
      parseNode ext fuel (some fin) none { st1 with flowState := st1.flowState.unsetReturn }
        = some (.ok fv, st2) →
      st2.flowState.returnF = true →
      evalTryStatement ext (fuel + 2) b none (some fin) st
        = some (.ok fv, { st2 with flowState := st2.flowState.unsetReturn.setReturn })) ∧
    (∀ ext fuel b fin st e st1 fv st2,
      parseNode ext fuel (some b) none st = some (.thr e, st1) →
      parseNode ext fuel (some fin) none st1 = some (.ok fv, st2) →
      st2.flowState.returnF = true →
      evalTryStatement ext (fuel + 2) b none (some fin) st
        = some (.ok fv, { st2 with flowState := st2.flowState.unsetReturn.setReturn })) ∧
    (∀ ext fuel b fin st e st1 fv st2,
      parseNode ext fuel (some b) none st = some (.thr e, st1) →
      parseNode ext fuel (some fin) none st1 = some (.ok fv, st2) →
      st2.flowState.returnF = false →
      evalTryStatement ext (fuel + 2) b none (some fin) st = some (.thr e, st2)) ∧
    (∀ ext fuel b fin st bv st1 fv st2,
      parseNode ext fuel (some b) none st = some (.ok bv, st1) →
      st1.flowState.returnF = false →
      parseNode ext fuel (some fin) none st1 = some (.ok fv, st2) →
      st2.flowState.returnF = false →
      evalTryStatement ext (fuel + 2) b none (some fin) st = some (.ok .undef, st2)) ∧
    (∀ ext fuel b param hbody fin st e st1 cv stc fv st2,
      parseNode ext (fuel + 2) (some b) none st = some (.thr e, st1) →
      parseNode ext fuel (some hbody) none (setCatchError st1 param e) = some (.ok cv, stc) →
      stc.flowState.returnF = false →
      parseNode ext (fuel + 2) (some fin) none stc = some (.ok fv, st2) →
      st2.flowState.returnF = false →
      evalTryStatement ext (fuel + 4) b (some (.CatchClause param hbody)) (some fin) st
        = some (.ok .undef, st2)) := by
  refine ⟨?_, ?_, ?_, ?_, ?_⟩
  · intro ext fuel b fin st bv st1 fv st2 h1 hr1 h2 hr2
    rw [show fuel + 2 = (fuel + 1) + 1 from rfl, evalTryStatement_eq]
    rw [handleExceptionBlock_eq, h1, bindO_ok]
    simp only [getExceptionBlockResult, FlowState.isReturnState, hr1, if_true]
    rw [handleExceptionBlock_eq, h2, bindO_ok]
    simp only [getExceptionBlockResult, FlowState.isReturnState, hr2, if_true]
    simp [excAssign, handleExceptionResult]
  · intro ext fuel b fin st e st1 fv st2 h1 h2 hr2
    rw [show fuel + 2 = (fuel + 1) + 1 from rfl, evalTryStatement_eq]
    rw [handleExceptionBlock_eq, h1]
    simp only [bindO_thr, handleCatchClause_eq]
    rw [handleExceptionBlock_eq, h2, bindO_ok]
    simp only [getExceptionBlockResult, FlowState.isReturnState, hr2, if_true]
    simp [excAssign, handleExceptionResult]
  · intro ext fuel b fin st e st1 fv st2 h1 h2 hr2
    rw [show fuel + 2 = (fuel + 1) + 1 from rfl, evalTryStatement_eq]
    rw [handleExceptionBlock_eq, h1]
    simp only [bindO_thr, handleCatchClause_eq]
    rw [handleExceptionBlock_eq, h2, bindO_ok]
    simp only [getExceptionBlockResult, FlowState.isReturnState, hr2, if_false,
      Bool.false_eq_true]
    simp [excAssign, handleExceptionResult]
  · intro ext fuel b fin st bv st1 fv st2 h1 hr1 h2 hr2
    rw [show fuel + 2 = (fuel + 1) + 1 from rfl, evalTryStatement_eq]
    rw [handleExceptionBlock_eq, h1, bindO_ok]
    simp only [getExceptionBlockResult, FlowState.isReturnState, hr1, if_false, Bool.false_eq_true]
    rw [handleExceptionBlock_eq]
    simp only [h2, bindO_ok]
    simp only [getExceptionBlockResult, FlowState.isReturnState, hr2, if_false, Bool.false_eq_true]
    simp [excAssign, handleExceptionResult]
  · intro ext fuel b param hbody fin st e st1 cv stc fv st2 h1 h2 hrc h3 hr2
    rw [show fuel + 4 = (fuel + 3) + 1 from rfl, evalTryStatement_eq]
    rw [show fuel + 3 = (fuel + 2) + 1 from rfl, handleExceptionBlock_eq, h1]
    simp only [bindO_thr, handleCatchClause_eq, parseCatchClause_eq]
    rw [handleExceptionBlock_eq, h2, bindO_ok]
    simp only [getExceptionBlockResult, FlowState.isReturnState, hrc, if_false,
      Bool.false_eq_true, st_flowState_eta]
    rw [handleExceptionBlock_eq, h3, bindO_ok]
    simp only [getExceptionBlockResult, FlowState.isReturnState, hr2, if_false,
      Bool.false_eq_true, st_flowState_eta]
    simp [excAssign, handleExceptionResult]

/-- Witness: `try { return 1 } finally { return 2 }` returns `2` with
RETURN re-set — conjunct (i) at concrete inputs. -/
theorem tryStatement_finalizer_protocol_witness :
    ∃ st2, evalTryStatement extNoChecker 12 (blockReturn 1) none (some (blockReturn 2)) framedSt
        = some (.ok (.num 2), st2) ∧ st2.flowState.returnF = true := by
  have h := tryStatement_finalizer_protocol.1 extNoChecker 10 (blockReturn 1) (blockReturn 2)
    framedSt _ _ _ _ rfl rfl rfl rfl
  exact ⟨_, h, rfl⟩


/-! ## C6 — labelled `DoWhileStatement` iterations -/

/-- C6 (counterexample): in
`var i = 0; L: do { i = i + 1; if (i === 12) continue L; i = i + 10 } while (i < 20)`
the `continue L` fires in the second (delegated) iteration; the loop
terminates with the CONTINUE signal still set when `parseAst` returns
(`i` stays `12`), so the labelled continue was *not* consumed by this
loop — the delegation to `WhileStatement` passes no options, hence no
label. -/
theorem doWhile_labelled_continue_counterexample :
    (parseAst extNoChecker 100 (progDoWhileContinue 12 20) "u.js" initialSt).map
        (fun p => (csGet p.2 "i", p.2.flowState.continueF)) = some (.num 12, true) := rfl

/-- C6 (amended): only the mandatory first iteration consults
`loopShouldBreak` with the statement's label; the delegated iterations
consult it with no label.  (a) `DoWhileStatement` checks its own label
once and then delegates to `WhileStatement` with `none`; (b) on a
pending continue carrying the loop's label, the labelled consult
consumes it and continues, while the unlabelled consult of the
delegated iterations terminates the loop without consuming anything;
(c) a `continue L` raised in the first iteration is consumed and the
loop keeps iterating (`i` reaches `12` with all signals clear). -/
theorem doWhile_label_first_iteration_only :
    (∀ ext fuel b t lbl st,
      evalDoWhileStatement ext (fuel + 1) b t lbl st
        = bindO (parseNode ext fuel (some b) none st) (fun rv st2 =>
            if (isLoopNeededToBreak st2.flowState lbl).1 then
              some (.ok rv, { st2 with flowState := (isLoopNeededToBreak st2.flowState lbl).2 })
            else evalWhileStatement ext fuel t b none
              { st2 with flowState := (isLoopNeededToBreak st2.flowState lbl).2 })) ∧
    (∀ fs l, fs.returnF = false → fs.breakF = false → fs.continueF = true →
      fs.label = some l →
      isLoopNeededToBreak fs (some l) = (false, fs.unsetContinue.unsetLabel) ∧
      isLoopNeededToBreak fs none = (true, fs)) ∧
    ((parseAst extNoChecker 100 (progDoWhileContinue 1 2) "u.js" initialSt).map
        (fun p => (csGet p.2 "i", p.2.flowState)) = some (.num 12, FlowState.init)) := by
  refine ⟨fun ext fuel b t lbl st => rfl, fun fs l hr hb hc hl => ?_, rfl⟩
  constructor
  · simp [isLoopNeededToBreak, FlowState.isReturnState, FlowState.isBreakState,
      FlowState.isContinueState, hr, hb, hc, handleLoopContinueState,
      isLoopStateNeededToUnset, FlowState.isNullLabel, FlowState.isLabelMatched, hl]
  · simp [isLoopNeededToBreak, FlowState.isReturnState, FlowState.isBreakState,
      FlowState.isContinueState, hr, hb, hc, handleLoopContinueState,
      isLoopStateNeededToUnset, FlowState.isNullLabel, FlowState.isLabelMatched, hl]

/-- Witness: the state-machine conjunct at a concrete flow state with a
pending `continue L`. -/
theorem doWhile_label_first_iteration_only_witness :
    isLoopNeededToBreak ⟨false, true, false, some "L"⟩ (some "L")
        = (false, ⟨false, false, false, none⟩) ∧
      isLoopNeededToBreak ⟨false, true, false, some "L"⟩ none
        = (true, ⟨false, true, false, some "L"⟩) := by
  have h := doWhile_label_first_iteration_only.2.1 ⟨false, true, false, some "L"⟩ "L"
    rfl rfl rfl rfl
  exact ⟨h.1, h.2⟩


/-! ## C4 — the hoisting pre-pass -/

theorem heapGet_heapMod_same (h : List (Nat × List (String × Value))) (r : Nat)
    (f : List (String × Value) → List (String × Value)) :
    heapGet (heapMod h r f) r = some (f ((heapGet h r).getD [])) := by
  induction h with
  | nil => simp [heapMod, heapGet]
  | cons hd tl ih =>
    obtain ⟨r0, o⟩ := hd
    by_cases hr : r0 = r
    · simp [heapMod, heapGet, hr]
    · simp [heapMod, heapGet, hr, ih]

theorem setVariables_stack_ne (st : St) (nm : Option String) (v : Value)
    (h : st.closureStack ≠ []) : (setVariables st nm v).closureStack ≠ [] := by
  cases nm with
  | none => simpa [setVariables, csSet]
  | some n =>
    match hs : st.closureStack with
    | [] => exact absurd hs h
    | .ctxf r :: rest => simp [setVariables, csSet, hs]
    | .localf b :: rest => simp [setVariables, csSet, hs]

theorem currentFrameGet_setVariables_same (st : St) (n : String) (v : Value)
    (h : st.closureStack ≠ []) :
    currentFrameGet (setVariables st (some n) v) n = some v := by
  match hs : st.closureStack with
  | [] => exact absurd hs h
  | .ctxf r :: rest =>
    simp [setVariables, csSet, hs, currentFrameGet, frameGet, heapGet_heapMod_same,
      aget_aset_same]
  | .localf b :: rest =>
    simp [setVariables, csSet, hs, currentFrameGet, frameGet, aget_aset_same]

theorem currentFrameGet_setVariables_other (st : St) (n m : String) (v : Value)
    (h : m ≠ n) :
    currentFrameGet (setVariables st (some m) v) n = currentFrameGet st n := by
  match hs : st.closureStack with
  | [] => simp [setVariables, csSet, hs, currentFrameGet]
  | .ctxf r :: rest =>
    simp [setVariables, csSet, hs, currentFrameGet, frameGet, heapGet_heapMod_same,
      aget_aset_other _ _ _ _ h]
    cases hg : heapGet st.heap r <;> simp [aget_aset_other _ _ _ _ h, hg, aget]
  | .localf b :: rest =>
    simp [setVariables, csSet, hs, currentFrameGet, frameGet, aget_aset_other _ _ _ _ h]


theorem currentFrameGet_setVariables_none (st : St) (n : String) (v : Value) :
    currentFrameGet (setVariables st none v) n = currentFrameGet st n := rfl

theorem setHoistings_stack_ne (names : List (Option String)) :
    ∀ st, st.closureStack ≠ [] → (setHoistings st names).closureStack ≠ [] := by
  induction names with
  | nil => intro st h; simpa [setHoistings]
  | cons hd tl ih =>
    intro st h
    simpa [setHoistings] using ih _ (setVariables_stack_ne st hd .undef h)

theorem setHoistings_preserve (names : List (Option String)) :
    ∀ st n, (some n) ∉ names →
      currentFrameGet (setHoistings st names) n = currentFrameGet st n := by
  induction names with
  | nil => intro st n _; simp [setHoistings]
  | cons hd tl ih =>
    intro st n hmem
    have h1 : (some n) ∉ tl := fun hh => hmem (List.mem_cons_of_mem _ hh)
    have h2 : hd ≠ some n := fun hh => hmem (hh ▸ List.mem_cons_self _ _)
    rw [setHoistings, ih _ n h1]
    cases hd with
    | none => exact currentFrameGet_setVariables_none st n .undef
    | some m =>
      exact currentFrameGet_setVariables_other st n m .undef
        (fun hh => h2 (by rw [hh]))

theorem setHoistings_binds (names : List (Option String)) :
    ∀ st n, (some n) ∈ names → st.closureStack ≠ [] →
      currentFrameGet (setHoistings st names) n = some .undef := by
  induction names with
  | nil => intro st n h _; cases h
  | cons hd tl ih =>
    intro st n hmem hne
    by_cases htl : (some n) ∈ tl
    · rw [setHoistings]
      exact ih _ n htl (setVariables_stack_ne st hd .undef hne)
    · have hhd : hd = some n := by
        rcases List.mem_cons.mp hmem with h | h
        · exact h.symm
        · exact absurd h htl
      subst hhd
      rw [setHoistings, setHoistings_preserve tl _ n htl]
      exact currentFrameGet_setVariables_same st n .undef hne


theorem currentFrameGet_congr (st st2 : St) (n : String)
    (h1 : st2.closureStack = st.closureStack) (h2 : st2.heap = st.heap) :
    currentFrameGet st2 n = currentFrameGet st n := by
  simp only [currentFrameGet, h1]
  cases st.closureStack with
  | nil => rfl
  | cons fr rest =>
    cases fr with
    | localf b => rfl
    | ctxf r => simp [frameGet, h2]

theorem createFunctionAgent_state (ext : Ext) (fuel : Nat) (params : List Node) (body : Node)
    (st : St) (v : Value) (st2 : St)
    (h : createFunctionAgent ext fuel params body st = some (v, st2)) :
    v = .func st.nextRef ∧ st2.closureStack = st.closureStack ∧ st2.heap = st.heap
      ∧ st2.flowState = st.flowState ∧ st2.nextRef = st.nextRef + 1 := by
  match fuel with
  | 0 => exact absurd h (by simp [createFunctionAgent, evals, evalsZero])
  | 1 =>
    rw [createFunctionAgent_eq] at h
    exact absurd h (by simp [parseFunctionExpression, evals, evalsZero])
  | fuel + 2 =>
    rw [createFunctionAgent_eq, parseFunctionExpression_eq] at h
    cases hs : searchHoistings ext fuel [body] with
    | none => rw [hs] at h; cases h
    | some hls =>
      rw [hs] at h
      simp only [allocFunc] at h
      injection h with h1
      injection h1 with h2 h3
      subst h3
      simp [h2.symm]

theorem parseNode_functionDeclaration_effect (ext : Ext) (fuel : Nat) (idn : Node)
    (params : List Node) (fbody : Node) (st : St) (r : Res Value) (st2 : St)
    (h : parseNode ext fuel (some (.FunctionDeclaration idn params fbody)) none st
          = some (r, st2))
    (hne : st.closureStack ≠ []) :
    st2.closureStack ≠ [] ∧ r = .ok .undef ∧
      (∀ nm, getNameFromPattern idn = some nm →
        ∃ fr, currentFrameGet st2 nm = some (.func fr)) ∧
      (∀ n fr, currentFrameGet st n = some (.func fr) →
        ∃ fr2, currentFrameGet st2 n = some (.func fr2)) := by
  match fuel with
  | 0 => exact absurd h (by simp [parseNode, evals, evalsZero])
  | 1 =>
    rw [parseNode_eq2] at h
    exact absurd h (by simp [dispatchNode, evals, evalsZero, bindO])
  | fuel + 2 =>
    rw [parseNode_eq2] at h
    simp only [dispatchNode_eq] at h
    cases hc : createFunctionAgent ext fuel params fbody st with
    | none => rw [hc] at h; cases h
    | some p =>
      obtain ⟨fv, stc⟩ := p
      rw [hc] at h
      simp only [bindO_ok] at h
      injection h with h1
      injection h1 with h2 h3
      obtain ⟨hfv, hcs, hheap, hflow, hnext⟩ :=
        createFunctionAgent_state ext fuel params fbody st fv stc hc
      subst h2
      -- st2 is the post-hook update of (setVariables stc name fv)
      have hstack2 : (setVariables stc (getNameFromPattern idn) fv).closureStack ≠ [] := by
        apply setVariables_stack_ne
        rw [hcs]; exact hne
      have hcfg : ∀ n, currentFrameGet st2 n
          = currentFrameGet (setVariables stc (getNameFromPattern idn) fv) n := by
        intro n
        apply currentFrameGet_congr
        · rw [← h3]
        · rw [← h3]
      refine ⟨?_, rfl, ?_, ?_⟩
      · rw [← h3]; exact hstack2
      · intro nm hnm
        rw [hcfg nm, hnm]
        refine ⟨st.nextRef, ?_⟩
        rw [hfv] at *
        apply currentFrameGet_setVariables_same
        rw [hcs]; exact hne
      · intro n fr hfr
        have hfr2 : currentFrameGet stc n = some (.func fr) := by
          rw [currentFrameGet_congr st stc n hcs hheap]
          exact hfr
        rw [hcfg n]
        cases hnm : getNameFromPattern idn with
        | none =>
          rw [currentFrameGet_setVariables_none]
          exact ⟨fr, hfr2⟩
        | some m =>
          by_cases hmn : m = n
          · subst hmn
            refine ⟨st.nextRef, ?_⟩
            rw [hfv]
            apply currentFrameGet_setVariables_same
            rw [hcs]; exact hne
          · rw [currentFrameGet_setVariables_other _ _ _ _ hmn]
            exact ⟨fr, hfr2⟩


theorem isHoistingNode_shape (s : Node) (h : isHoistingNode s = true) :
    ∃ idn params fbody, s = .FunctionDeclaration idn params fbody := by
  cases s <;> simp_all [isHoistingNode]

theorem parseHoistingStatements_cons_fn (ext : Ext) (fuel : Nat) (idn : Node)
    (params : List Node) (fbody : Node) (rest : List Node) (st : St) :
    parseHoistingStatements ext (fuel + 1) (.FunctionDeclaration idn params fbody :: rest) st
      = bindO (parseNode ext fuel (some (.FunctionDeclaration idn params fbody)) none st)
          (fun _ st2 => parseHoistingStatements ext fuel rest st2) := rfl

theorem parseHoistingStatements_cons_nonfn {s : Node} (h : isHoistingNode s = false)
    (ext : Ext) (fuel : Nat) (rest : List Node) (st : St) :
    parseHoistingStatements ext (fuel + 1) (s :: rest) st
      = bindO (parseHoistingStatements ext fuel rest st)
          (fun l st2 => some (.ok (s :: l), st2)) := by
  cases s <;> first
    | rfl
    | simp [isHoistingNode] at h

theorem nonHoistingOf_cons_fn (idn : Node) (params : List Node) (fbody : Node)
    (rest : List Node) :
    nonHoistingOf (.FunctionDeclaration idn params fbody :: rest) = nonHoistingOf rest := by
  simp [nonHoistingOf, isHoistingNode]

theorem nonHoistingOf_cons_nonfn {s : Node} (h : isHoistingNode s = false)
    (rest : List Node) : nonHoistingOf (s :: rest) = s :: nonHoistingOf rest := by
  simp [nonHoistingOf, h]

theorem parseHoistingStatements_effect :
    ∀ (stmts : List Node) (ext : Ext) (fuel : Nat) (st : St) (nonH : List Node) (st1 : St),
      parseHoistingStatements ext fuel stmts st = some (.ok nonH, st1) →
      st.closureStack ≠ [] →
      nonH = nonHoistingOf stmts ∧ st1.closureStack ≠ [] ∧
      (∀ idn params fbody nm, (Node.FunctionDeclaration idn params fbody) ∈ stmts →
        getNameFromPattern idn = some nm → ∃ fr, currentFrameGet st1 nm = some (.func fr)) ∧
      (∀ n fr, currentFrameGet st n = some (.func fr) →
        ∃ fr2, currentFrameGet st1 n = some (.func fr2)) := by
  intro stmts
  induction stmts with
  | nil =>
    intro ext fuel st nonH st1 h hne
    match fuel with
    | 0 => exact absurd h (by simp [parseHoistingStatements, evals, evalsZero])
    | fuel + 1 =>
      rw [parseHoistingStatements_eq1] at h
      injection h with h1
      injection h1 with h2 h3
      injection h2 with h4
      subst h3 h4
      exact ⟨rfl, hne, fun _ _ _ _ hmem => absurd hmem (List.not_mem_nil _),
        fun n fr hfr => ⟨fr, hfr⟩⟩
  | cons s rest ih =>
    intro ext fuel st nonH st1 h hne
    match fuel with
    | 0 => exact absurd h (by simp [parseHoistingStatements, evals, evalsZero])
    | fuel + 1 =>
      by_cases hfn : isHoistingNode s = true
      · obtain ⟨idn, params, fbody, rfl⟩ := isHoistingNode_shape s hfn
        rw [parseHoistingStatements_cons_fn] at h
        cases hp : parseNode ext fuel (some (.FunctionDeclaration idn params fbody)) none st with
        | none => rw [hp] at h; cases h
        | some q =>
          obtain ⟨r0, stp⟩ := q
          rw [hp] at h
          cases r0 with
          | thr e => simp [bindO] at h
          | ok v =>
            rw [bindO_ok] at h
            obtain ⟨hnefx, _, hbind, hpres⟩ :=
              parseNode_functionDeclaration_effect ext fuel idn params fbody st (.ok v) stp
                hp hne
            have hrest := ih ext fuel stp nonH st1 h hnefx
            refine ⟨by rw [hrest.1, nonHoistingOf_cons_fn], hrest.2.1, ?_, ?_⟩
            · intro idn2 params2 fbody2 nm hmem hnm
              rcases List.mem_cons.mp hmem with heq | hmem2
              · injection heq with e1 e2 e3
                subst e1
                obtain ⟨fr, hfr⟩ := hbind nm hnm
                exact hrest.2.2.2 nm fr hfr
              · exact hrest.2.2.1 idn2 params2 fbody2 nm hmem2 hnm
            · intro n fr hfr
              obtain ⟨fr2, h2⟩ := hpres n fr hfr
              exact hrest.2.2.2 n fr2 h2
      · have hfn2 : isHoistingNode s = false := by simpa using hfn
        rw [parseHoistingStatements_cons_nonfn hfn2] at h
        cases hp : parseHoistingStatements ext fuel rest st with
        | none => rw [hp] at h; cases h
        | some q =>
          obtain ⟨r0, stp⟩ := q
          rw [hp] at h
          cases r0 with
          | thr e => simp [bindO] at h
          | ok l =>
            rw [bindO_ok] at h
            injection h with h1
            injection h1 with h2 h3
            injection h2 with h4
            subst h3
            have hrest := ih ext fuel st l stp hp hne
            refine ⟨?_, hrest.2.1, ?_, hrest.2.2.2⟩
            · rw [← h4, nonHoistingOf_cons_nonfn hfn2, hrest.1]
            · intro idn2 params2 fbody2 nm hmem hnm
              rcases List.mem_cons.mp hmem with heq | hmem2
              · rw [← heq] at hfn2
                simp [isHoistingNode] at hfn2
              · exact hrest.2.2.1 idn2 params2 fbody2 nm hmem2 hnm

/-- C4: (1) `Program` runs the hoisting pre-pass before any statement
(the dispatch order); (2) `handleHoisting` installs exactly the searched
hoistings; (3) after `setHoistings`, every hoisted name is bound to
`undefined` in the current frame; (4) `parseStatements` runs the
function-declaration pass to completion before the ordinary statement
loop starts; (5) when that first pass completes, the remaining
statements are precisely the non-`FunctionDeclaration` ones in order,
and every `FunctionDeclaration` name appearing directly in the list is
bound to a function value in the current frame. -/
theorem hoisting_prepass_bindings :
    (∀ ext fuel body opts st,
      dispatchNode ext (fuel + 1) (.Program body) opts st
        = (match handleHoisting ext fuel body st with
           | none => none
           | some st2 =>
             bindO (parseStatements ext fuel body st2)
               (fun _ st3 => some (.ok .undef, st3)))) ∧
    (∀ ext fuel stmts names st, searchHoistings ext fuel stmts = some names →
      handleHoisting ext (fuel + 1) stmts st = some (setHoistings st names)) ∧
    (∀ names st n, (some n) ∈ names → st.closureStack ≠ [] →
      currentFrameGet (setHoistings st names) n = some .undef) ∧
    (∀ ext fuel stmts st,
      parseStatements ext (fuel + 1) stmts st
        = bindO (parseHoistingStatements ext fuel stmts st)
            (parseNonHoistingStatements ext fuel)) ∧
    (∀ stmts ext fuel st nonH st1,
      parseHoistingStatements ext fuel stmts st = some (.ok nonH, st1) →
      st.closureStack ≠ [] →
      nonH = nonHoistingOf stmts ∧ st1.closureStack ≠ [] ∧
      (∀ idn params fbody nm, (Node.FunctionDeclaration idn params fbody) ∈ stmts →
        getNameFromPattern idn = some nm →
        ∃ fr, currentFrameGet st1 nm = some (.func fr)) ∧
      (∀ n fr, currentFrameGet st n = some (.func fr) →
        ∃ fr2, currentFrameGet st1 n = some (.func fr2))) := by
  refine ⟨fun ext fuel body opts st => rfl, fun ext fuel stmts names st h => ?_,
    setHoistings_binds, fun ext fuel stmts st => rfl, parseHoistingStatements_effect⟩
  rw [handleHoisting_eq, h]

/-- Witness: hoisted names (`a`, `b`) read back as `undefined`, and
after the first pass over `function f() {}; 0;` the name `f` is bound
to a function value with only the non-declaration statement left. -/
theorem hoisting_prepass_bindings_witness :
    (currentFrameGet (setHoistings initialSt [some "a", none, some "b"]) "a"
        = some .undef) ∧
    ∃ nonH st1, parseHoistingStatements extNoChecker 10 hoistWitnessStmts initialSt
        = some (.ok nonH, st1)
      ∧ nonH = nonHoistingOf hoistWitnessStmts
      ∧ ∃ fr, currentFrameGet st1 "f" = some (.func fr) := by
  constructor
  · exact hoisting_prepass_bindings.2.2.1 [some "a", none, some "b"] initialSt "a"
      (List.mem_cons_self _ _) (by simp [initialSt, mkInitState])
  · have h := hoisting_prepass_bindings.2.2.2.2 hoistWitnessStmts extNoChecker 10 initialSt
      _ _ rfl (by simp [initialSt, mkInitState])
    exact ⟨_, _, rfl, h.1,
      h.2.2.1 (.Identifier "f") [] (.BlockStatement []) "f" (List.mem_cons_self _ _) rfl⟩

/-! ## RETURN containment (claim C5)

Preservation lemmas: the pure state operations of the interpreter never
touch the flow state or the function-agent table. -/

theorem csSet_pres (st : St) (nm : Option String) (v : Value) :
    (csSet st nm v).flowState = st.flowState ∧ (csSet st nm v).funcs = st.funcs := by
  obtain ⟨hp, fn, nr, cr, su, cs, fs, cf, co⟩ := st
  cases nm with
  | none => exact ⟨rfl, rfl⟩
  | some n =>
    cases cs with
    | nil => exact ⟨rfl, rfl⟩
    | cons fr rest => cases fr <;> exact ⟨rfl, rfl⟩

theorem setVariables_pres (st : St) (nm : Option String) (v : Value) :
    (setVariables st nm v).flowState = st.flowState ∧
      (setVariables st nm v).funcs = st.funcs :=
  csSet_pres st nm v

theorem csUpdateFrames_pres (st : St) (n : String) (v : Value) :
    ∀ l, (csUpdateFrames st n v l).2.2.flowState = st.flowState ∧
      (csUpdateFrames st n v l).2.2.funcs = st.funcs := by
  intro l
  induction l with
  | nil => exact ⟨rfl, rfl⟩
  | cons fr rest ih =>
    simp only [csUpdateFrames]
    cases hfg : frameGet st fr n with
    | none => exact ih
    | some w => cases fr <;> exact ⟨rfl, rfl⟩

theorem csSetOutermost_pres (st : St) (n : String) (v : Value) :
    ∀ l, (csSetOutermost st n v l).2.flowState = st.flowState ∧
      (csSetOutermost st n v l).2.funcs = st.funcs := by
  intro l
  induction l with
  | nil => exact ⟨rfl, rfl⟩
  | cons fr rest ih =>
    cases rest with
    | nil => cases fr <;> exact ⟨rfl, rfl⟩
    | cons g s => exact ih

theorem csUpdate_pres (st : St) (nm : Option String) (v : Value) :
    (csUpdate st nm v).flowState = st.flowState ∧ (csUpdate st nm v).funcs = st.funcs := by
  cases nm with
  | none => exact ⟨rfl, rfl⟩
  | some n =>
    have h1 := csUpdateFrames_pres st n v st.closureStack
    have h2 := csSetOutermost_pres st n v st.closureStack
    refine ⟨?_, ?_⟩ <;> simp only [csUpdate] <;> split
    · exact h1.1
    · exact h2.1
    · exact h1.2
    · exact h2.2

theorem updateVariables_pres (st : St) (nm : Option String) (v : Value) :
    (updateVariables st nm v).flowState = st.flowState ∧
      (updateVariables st nm v).funcs = st.funcs :=
  csUpdate_pres st nm v

theorem setHoistings_pres (names : List (Option String)) :
    ∀ st : St, (setHoistings st names).flowState = st.flowState ∧
      (setHoistings st names).funcs = st.funcs := by
  induction names with
  | nil => intro st; exact ⟨rfl, rfl⟩
  | cons h t ih =>
    intro st
    have h1 := csSet_pres st h .undef
    have h2 := ih (setVariables st h .undef)
    exact ⟨h2.1.trans h1.1, h2.2.trans h1.2⟩

theorem setCalledArguments_pres (params : List (Option String)) :
    ∀ (vals : List Value) (st : St),
      (setCalledArguments st params vals).flowState = st.flowState ∧
      (setCalledArguments st params vals).funcs = st.funcs := by
  induction params with
  | nil => intro vals st; exact ⟨rfl, rfl⟩
  | cons p ps ih =>
    intro vals st
    cases vals with
    | nil =>
      have h1 := csSet_pres st p .undef
      have h2 := ih [] (setVariables st p .undef)
      exact ⟨h2.1.trans h1.1, h2.2.trans h1.2⟩
    | cons v vs =>
      have h1 := csSet_pres st p v
      have h2 := ih vs (setVariables st p v)
      exact ⟨h2.1.trans h1.1, h2.2.trans h1.2⟩

theorem setBuiltInArguments_pres (st : St) (b : BuiltInArgs) :
    (setBuiltInArguments st b).flowState = st.flowState ∧
    (setBuiltInArguments st b).funcs = st.funcs := by
  have h1 := csSet_pres st (some "this")
    (if truthy b.thisV then b.thisV else .obj st.ctxRef)
  have h2 := csSet_pres
    (setVariables st (some "this") (if truthy b.thisV then b.thisV else .obj st.ctxRef))
    (some "arguments") b.argumentsV
  exact ⟨h2.1.trans h1.1, h2.2.trans h1.2⟩

theorem setEnvironment_pres (st : St) (env : Environment) :
    (setEnvironment st env).flowState = st.flowState ∧
    (setEnvironment st env).funcs = st.funcs := ⟨rfl, rfl⟩

theorem csCreateClosure_pres (st : St) :
    (csCreateClosure st).flowState = st.flowState ∧
    (csCreateClosure st).funcs = st.funcs := ⟨rfl, rfl⟩

theorem setCheckFlag_pres (ext : Ext) (st : St) (exp : Ref) :
    (setCheckFlag ext st exp).2.flowState = st.flowState ∧
    (setCheckFlag ext st exp).2.funcs = st.funcs := by
  refine ⟨?_, ?_⟩ <;> simp only [setCheckFlag] <;> split
  · split <;> rfl
  · rfl
  · split <;> rfl
  · rfl

theorem resetCheckFlag_pres (st : St) (s : Bool) :
    (resetCheckFlag st s).flowState = st.flowState ∧
    (resetCheckFlag st s).funcs = st.funcs := by
  cases s <;> exact ⟨rfl, rfl⟩

theorem setProp_ok_pres (st : St) (t : Value) (k : String) (v : Value) (st2 : St)
    (h : setProp st t k v = .ok st2) :
    st2.flowState = st.flowState ∧ st2.funcs = st.funcs := by
  cases t with
  | undef => exact nomatch h
  | null => exact nomatch h
  | bool b => injection h with h1; subst h1; exact ⟨rfl, rfl⟩
  | num n => injection h with h1; subst h1; exact ⟨rfl, rfl⟩
  | str s => injection h with h1; subst h1; exact ⟨rfl, rfl⟩
  | obj r => injection h with h1; subst h1; exact ⟨rfl, rfl⟩
  | func r => injection h with h1; subst h1; exact ⟨rfl, rfl⟩

theorem handleAssign_ok_pres (st : St) (exp : Ref) (v : Value) (st2 : St)
    (h : handleAssign st exp v = .ok st2) :
    st2.flowState = st.flowState ∧ st2.funcs = st.funcs := by
  unfold handleAssign at h
  split at h
  · split at h <;>
      (injection h with h1; subst h1;
       first
       | exact updateVariables_pres st (some _) v
       | exact ⟨rfl, rfl⟩)
  · split at h <;> exact setProp_ok_pres _ _ _ _ _ h

theorem assignmentOperatorEq_pres (ext : Ext) (st : St) (exp : Ref) (v : Value) :
    (assignmentOperatorEq ext st exp v).2.flowState = st.flowState ∧
    (assignmentOperatorEq ext st exp v).2.funcs = st.funcs := by
  have hs := setCheckFlag_pres ext st exp
  simp only [assignmentOperatorEq]
  cases hh : handleAssign (setCheckFlag ext st exp).2 exp v with
  | thr e => exact hs
  | ok st3 =>
    have h3 := handleAssign_ok_pres _ exp v st3 hh
    have h4 := resetCheckFlag_pres st3 (setCheckFlag ext st exp).1
    exact ⟨h4.1.trans (h3.1.trans hs.1), h4.2.trans (h3.2.trans hs.2)⟩

theorem delProp_ok_pres (st : St) (t : Value) (k : String) (p : Value × St)
    (h : delProp st t k = .ok p) : p.2.flowState = st.flowState ∧ p.2.funcs = st.funcs := by
  cases t <;> (injection h with h1; subst h1; exact ⟨rfl, rfl⟩)

theorem deleteOperator_ok_pres (st : St) (exp : Ref) (p : Value × St)
    (h : deleteOperator st exp = .ok p) :
    p.2.flowState = st.flowState ∧ p.2.funcs = st.funcs := by
  simp only [deleteOperator] at h
  split at h <;> exact delProp_ok_pres _ _ _ _ h

theorem allocObj_pres (st : St) (props : List (String × Value)) :
    (allocObj st props).2.flowState = st.flowState ∧
    (allocObj st props).2.funcs = st.funcs := ⟨rfl, rfl⟩

theorem allocFunc_flowState (st : St) (d : FunctionAgentData) :
    (allocFunc st d).2.flowState = st.flowState := rfl

theorem allocArgumentsObj_pres (st : St) (args : List Value) :
    (allocArgumentsObj st args).2.flowState = st.flowState ∧
    (allocArgumentsObj st args).2.funcs = st.funcs := ⟨rfl, rfl⟩

/-- The state invariant only looks at the agent table. -/
theorem WfSt_of_funcs_eq {st st2 : St} (h : st2.funcs = st.funcs) (hw : WfSt st) :
    WfSt st2 :=
  fun r d hh => hw r d (h ▸ hh)

/-- Allocating an agent with a well-placed-returns body keeps the state
invariant. -/
theorem WfSt_allocFunc {st : St} {d : FunctionAgentData} (hw : WfSt st)
    (hb : wf d.body = true) : WfSt ((allocFunc st d).2) := by
  intro r d2 hh
  simp only [allocFunc, funcGet] at hh
  split at hh
  · injection hh with h1
    exact h1 ▸ hb
  · exact hw r d2 hh

/-- The block post-processing of `try` always leaves RETURN clear: a set
flag is consumed into the remembered value, a clear flag stays clear. -/
theorem getExceptionBlockResult_returnF (fs : FlowState) (v : Value) :
    (getExceptionBlockResult fs v).2.returnF = false := by
  simp only [getExceptionBlockResult]
  split
  · rfl
  · next h => simpa [FlowState.isReturnState] using h

theorem getExceptionBlockResult_of_clear (fs : FlowState) (v : Value)
    (h : fs.returnF = false) : getExceptionBlockResult fs v = (⟨none, none⟩, fs) := by
  simp [getExceptionBlockResult, FlowState.isReturnState, h]

theorem setFlowStateLabel_returnF (fs : FlowState) (l : Option Node) :
    (setFlowStateLabel fs l).returnF = fs.returnF := by
  cases l <;> rfl

/-- A pending RETURN always terminates a loop. -/
theorem isLoopNeededToBreak_of_return (fs : FlowState) (l : Option String)
    (h : fs.returnF = true) : (isLoopNeededToBreak fs l).1 = true := by
  simp [isLoopNeededToBreak, FlowState.isReturnState, h]

theorem returnF_of_not_either (fs : FlowState) (h : fs.isEitherState = false) :
    fs.returnF = false := by
  cases hc : fs.returnF with
  | false => rfl
  | true =>
    simp only [FlowState.isEitherState, hc, Bool.or_true] at h
    cases h

/-- `parseFunctionExpression` never touches the state and stores the body
it was given. -/
theorem parseFunctionExpression_shape (ext : Ext) (fuel : Nat) (params : List Node)
    (body : Node) (st : St) (data : FunctionAgentData) (st1 : St)
    (h : parseFunctionExpression ext fuel params body st = some (data, st1)) :
    st1 = st ∧ data.body = body := by
  match fuel with
  | 0 => exact absurd h (by simp [parseFunctionExpression, evals, evalsZero])
  | fuel + 1 =>
    rw [parseFunctionExpression_eq] at h
    cases hs : searchHoistings ext fuel [body] with
    | none => rw [hs] at h; cases h
    | some hls =>
      rw [hs] at h
      injection h with h1
      injection h1 with h2 h3
      exact ⟨h3.symm, by rw [← h2]⟩

/-- `createFunctionAgent` allocates an agent carrying the body it was
given, on the unchanged state. -/
theorem createFunctionAgent_shape (ext : Ext) (fuel : Nat) (params : List Node)
    (body : Node) (st : St) (v : Value) (st2 : St)
    (h : createFunctionAgent ext fuel params body st = some (v, st2)) :
    ∃ data : FunctionAgentData, data.body = body ∧ st2 = (allocFunc st data).2 := by
  match fuel with
  | 0 => exact absurd h (by simp [createFunctionAgent, evals, evalsZero])
  | fuel + 1 =>
    rw [createFunctionAgent_eq] at h
    cases hp : parseFunctionExpression ext fuel params body st with
    | none => rw [hp] at h; cases h
    | some p =>
      obtain ⟨data, st1⟩ := p
      obtain ⟨hst, hbody⟩ := parseFunctionExpression_shape ext fuel params body st data st1 hp
      rw [hp] at h
      injection h with h1
      refine ⟨data, hbody, ?_⟩
      have h2 : (allocFunc st1 data).2 = st2 := congrArg Prod.snd h1
      rw [← h2, hst]

/-! PInv plumbing. -/

theorem PInv_none {α : Type} (st : St) (wfP nbrP : Prop) :
    PInv (none : Out α) st wfP nbrP := by
  intro _ _ r st2 h
  cases h

theorem PInv_pure_ok {α : Type} (a : α) (st : St) (wfP nbrP : Prop) :
    PInv (some (.ok a, st) : Out α) st wfP nbrP := by
  intro hret hw r st2 hout _
  cases hout
  refine ⟨hw, ?_, fun _ _ => hret⟩
  rintro ⟨e, he⟩
  cases he

theorem PInv_pure_thr {α : Type} (e : Value) (st : St) (wfP nbrP : Prop) :
    PInv (some (.thr e, st) : Out α) st wfP nbrP := by
  intro hret hw r st2 hout _
  cases hout
  refine ⟨hw, fun _ => hret, ?_⟩
  rintro _ ⟨a, ha⟩
  cases ha

theorem PInv_pure_ok_mod {α : Type} (a : α) (st stm : St) (wfP nbrP : Prop)
    (hfs : stm.flowState.returnF = st.flowState.returnF) (hfuncs : stm.funcs = st.funcs) :
    PInv (some (.ok a, stm) : Out α) st wfP nbrP := by
  intro hret hw r st2 hout _
  cases hout
  refine ⟨WfSt_of_funcs_eq hfuncs hw, ?_, fun _ _ => hfs.trans hret⟩
  rintro ⟨e, he⟩
  cases he

theorem PInv_ok_clear {α : Type} {out : Out α} {st : St} {wfP nbrP : Prop}
    (hp : PInv out st wfP nbrP) (hret : st.flowState.returnF = false) (hw : WfSt st)
    (hwfP : wfP) (hnbrP : nbrP) :
    ∀ a st2, out = some (.ok a, st2) → WfSt st2 ∧ st2.flowState.returnF = false :=
  fun a st2 h =>
    ⟨(hp hret hw _ _ h hwfP).1, (hp hret hw _ _ h hwfP).2.2 hnbrP ⟨a, rfl⟩⟩

theorem PInv_thr_clear {α : Type} {out : Out α} {st : St} {wfP nbrP : Prop}
    (hp : PInv out st wfP nbrP) (hret : st.flowState.returnF = false) (hw : WfSt st)
    (hwfP : wfP) :
    ∀ e st2, out = some (.thr e, st2) → WfSt st2 ∧ st2.flowState.returnF = false :=
  fun e st2 h =>
    ⟨(hp hret hw _ _ h hwfP).1, (hp hret hw _ _ h hwfP).2.1 ⟨e, rfl⟩⟩

/-- Sequencing invariant: when the first component's normal completion
always leaves RETURN clear, `PInv` of a `bindO` follows from `PInv` of
the continuation at each possible intermediate state. -/
theorem PInv_bindO {α β : Type} {m : Out α} {f : α → St → Out β} {st : St}
    {wfP nbrP : Prop}
    (hm : st.flowState.returnF = false → WfSt st →
      (∀ e st1, m = some (.thr e, st1) → wfP →
        WfSt st1 ∧ st1.flowState.returnF = false) ∧
      (∀ a st1, m = some (.ok a, st1) → wfP →
        WfSt st1 ∧ st1.flowState.returnF = false))
    (hf : ∀ a st1, m = some (.ok a, st1) → WfSt st1 → st1.flowState.returnF = false →
      PInv (f a st1) st1 wfP nbrP) :
    PInv (bindO m f) st wfP nbrP := by
  intro hret hw r st2 hout hwfP
  cases hm2 : m with
  | none => rw [hm2] at hout; cases hout
  | some p =>
    obtain ⟨res, st1⟩ := p
    cases res with
    | thr e =>
      rw [hm2, bindO_thr] at hout
      obtain ⟨h1, h2⟩ := (hm hret hw).1 e st1 hm2 hwfP
      cases hout
      exact ⟨h1, fun _ => h2, fun _ _ => h2⟩
    | ok a =>
      rw [hm2, bindO_ok] at hout
      obtain ⟨h1, h2⟩ := (hm hret hw).2 a st1 hm2 hwfP
      exact hf a st1 hm2 h1 h2 h2 h1 r st2 hout hwfP

/-! Decomposition of the syntactic side conditions. -/

theorem wfList_cons {a : Node} {rest : List Node} (h : wfList (a :: rest) = true) :
    wf a = true ∧ wfList rest = true := by
  simpa [wfList, Bool.and_eq_true] using h

theorem nbrList_cons {a : Node} {rest : List Node} (h : nbrList (a :: rest) = true) :
    nbr a = true ∧ nbrList rest = true := by
  simpa [nbrList, Bool.and_eq_true] using h

theorem wfArgs_cons {a : Node} {rest : List Node} (h : wfArgs (a :: rest) = true) :
    nbr a = true ∧ wf a = true ∧ wfArgs rest = true := by
  simpa [wfArgs, Bool.and_eq_true, and_assoc] using h

theorem wfElems_cons {o : Option Node} {os : List (Option Node)}
    (h : wfElems (o :: os) = true) : wfEO o = true ∧ wfElems os = true := by
  simpa [wfElems, Bool.and_eq_true] using h

theorem wfEO_some {n : Node} (h : wfEO (some n) = true) : nbr n = true ∧ wf n = true := by
  simpa [wfEO, Bool.and_eq_true] using h

theorem wfEO_imp_wfO {o : Option Node} (h : wfEO o = true) : wfO o = true := by
  cases o with
  | none => rfl
  | some n => exact (wfEO_some h).2

theorem wfEO_imp_nbrO {o : Option Node} (h : wfEO o = true) : nbrO o = true := by
  cases o with
  | none => rfl
  | some n => exact (wfEO_some h).1

theorem PInv_mono {α : Type} {out : Out α} {st : St} {wfP nbrP wfP2 nbrP2 : Prop}
    (hp : PInv out st wfP nbrP) (h1 : wfP2 → wfP) (h2 : nbrP2 → nbrP) :
    PInv out st wfP2 nbrP2 := by
  intro hret hw r st2 hout hwfP2
  obtain ⟨a1, a2, a3⟩ := hp hret hw r st2 hout (h1 hwfP2)
  exact ⟨a1, a2, fun hn hok => a3 (h2 hn) hok⟩

/-- Weakening towards a trivial normal-completion side condition, when the
target's well-formedness condition already implies the source's no-bare-return
condition. -/
theorem PInv_of_wf_nbr {α : Type} {out : Out α} {st : St} {wfP nbrP wfP2 : Prop}
    (hp : PInv out st wfP nbrP) (h1 : wfP2 → wfP) (h2 : wfP2 → nbrP) :
    PInv out st wfP2 True := by
  intro hret hw r st2 hout hwfP2
  obtain ⟨a1, a2, a3⟩ := hp hret hw r st2 hout (h1 hwfP2)
  exact ⟨a1, a2, fun _ hok => a3 (h2 hwfP2) hok⟩

/-- `PInv` only reads the RETURN flag and the agent table of the start
state. -/
theorem PInv_state_congr {α : Type} {out : Out α} {st stM : St} {wfP nbrP : Prop}
    (hp : PInv out stM wfP nbrP) (hfs : stM.flowState.returnF = st.flowState.returnF)
    (hfn : stM.funcs = st.funcs) : PInv out st wfP nbrP := by
  intro hret hw r st2 hout hwfP
  exact hp (hfs.trans hret) (WfSt_of_funcs_eq hfn hw) r st2 hout hwfP

/-! One-step invariant lemmas: each evaluator at fuel `fuel + 1`
satisfies its `MasterInv` clause, assuming the whole bundle at `fuel`. -/

theorem stepPargs (ext : Ext) (fuel : Nat) (ih : MasterInv ext fuel) :
    ∀ l st, PInv (parseArguments ext (fuel + 1) l st) st (wfArgs l = true) True := by
  intro l st
  cases l with
  | nil => rw [parseArguments_eq1]; exact PInv_pure_ok _ _ _ _
  | cons a rest =>
    rw [parseArguments_eq2]
    refine PInv_bindO (fun hret hw => ⟨?_, ?_⟩) ?_
    · intro e st1 hm hwfP
      exact PInv_thr_clear (ih.pn (some a) none st) hret hw (wfArgs_cons hwfP).2.1 e st1 hm
    · intro v st1 hm hwfP
      exact PInv_ok_clear (ih.pn (some a) none st) hret hw (wfArgs_cons hwfP).2.1
        (wfArgs_cons hwfP).1 v st1 hm
    · intro v st1 _ hw1 hret1
      refine PInv_bindO (fun hret2 hw2 => ⟨?_, ?_⟩) ?_
      · intro e st3 hm hwfP
        exact PInv_thr_clear (ih.pargs rest st1) hret2 hw2 (wfArgs_cons hwfP).2.2 e st3 hm
      · intro vs st3 hm hwfP
        exact PInv_ok_clear (ih.pargs rest st1) hret2 hw2 (wfArgs_cons hwfP).2.2
          trivial vs st3 hm
      · exact fun vs st3 _ _ _ => PInv_pure_ok _ _ _ _

theorem stepSeqE (ext : Ext) (fuel : Nat) (ih : MasterInv ext fuel) :
    ∀ es st, PInv (evalSequenceExpression ext (fuel + 1) es st) st (wfArgs es = true) True := by
  intro es st
  cases es with
  | nil => rw [evalSequenceExpression_eq1]; exact PInv_pure_ok _ _ _ _
  | cons e rest =>
    rw [evalSequenceExpression_eq2]
    refine PInv_bindO (fun hret hw => ⟨?_, ?_⟩) ?_
    · intro e2 st1 hm hwfP
      exact PInv_thr_clear (ih.pn (some e) none st) hret hw (wfArgs_cons hwfP).2.1 e2 st1 hm
    · intro v st1 hm hwfP
      exact PInv_ok_clear (ih.pn (some e) none st) hret hw (wfArgs_cons hwfP).2.1
        (wfArgs_cons hwfP).1 v st1 hm
    · intro v st1 _ hw1 hret1
      cases rest with
      | nil => exact PInv_pure_ok _ _ _ _
      | cons e2 rest2 =>
        exact PInv_of_wf_nbr (ih.seqE (e2 :: rest2) st1) (fun h => (wfArgs_cons h).2.2)
          (fun _ => trivial)

theorem stepElems (ext : Ext) (fuel : Nat) (ih : MasterInv ext fuel) :
    ∀ es st, PInv (evalElements ext (fuel + 1) es st) st (wfElems es = true) True := by
  intro es st
  cases es with
  | nil => rw [evalElements_eq1]; exact PInv_pure_ok _ _ _ _
  | cons o rest =>
    rw [evalElements_eq2]
    cases o with
    | some n =>
      refine PInv_bindO (fun hret hw => ⟨?_, ?_⟩) ?_
      · intro e st1 hm hwfP
        exact PInv_thr_clear (ih.pn (some n) none st) hret hw
          (wfEO_some (wfElems_cons hwfP).1).2 e st1 hm
      · intro v st1 hm hwfP
        exact PInv_ok_clear (ih.pn (some n) none st) hret hw
          (wfEO_some (wfElems_cons hwfP).1).2 (wfEO_some (wfElems_cons hwfP).1).1 v st1 hm
      · intro v st1 _ hw1 hret1
        refine PInv_bindO (fun hret2 hw2 => ⟨?_, ?_⟩) ?_
        · intro e st3 hm hwfP
          exact PInv_thr_clear (ih.elemsI rest st1) hret2 hw2 (wfElems_cons hwfP).2 e st3 hm
        · intro vs st3 hm hwfP
          exact PInv_ok_clear (ih.elemsI rest st1) hret2 hw2 (wfElems_cons hwfP).2
            trivial vs st3 hm
        · exact fun vs st3 _ _ _ => PInv_pure_ok _ _ _ _
    | none =>
      refine PInv_bindO (fun hret hw => ⟨?_, ?_⟩) ?_
      · intro e st1 hm hwfP
        exact PInv_thr_clear (ih.elemsI rest st) hret hw (wfElems_cons hwfP).2 e st1 hm
      · intro vs st1 hm hwfP
        exact PInv_ok_clear (ih.elemsI rest st) hret hw (wfElems_cons hwfP).2 trivial vs st1 hm
      · exact fun vs st1 _ _ _ => PInv_pure_ok _ _ _ _

theorem stepProps (ext : Ext) (fuel : Nat) (ih : MasterInv ext fuel) :
    ∀ ps acc st, PInv (evalProperties ext (fuel + 1) ps acc st) st (wfArgs ps = true) True := by
  intro ps acc st
  cases ps with
  | nil => rw [evalProperties_eq1]; exact PInv_pure_ok _ _ _ _
  | cons p rest =>
    rw [evalProperties_eq2]
    refine PInv_bindO (fun hret hw => ⟨?_, ?_⟩) ?_
    · intro e st1 hm hwfP
      exact PInv_thr_clear (ih.pn (some p) none st) hret hw (wfArgs_cons hwfP).2.1 e st1 hm
    · intro v st1 hm hwfP
      exact PInv_ok_clear (ih.pn (some p) none st) hret hw (wfArgs_cons hwfP).2.1
        (wfArgs_cons hwfP).1 v st1 hm
    · intro pv st1 _ hw1 hret1
      exact PInv_of_wf_nbr (ih.propsI rest _ st1) (fun h => (wfArgs_cons h).2.2)
        (fun _ => trivial)

theorem stepGpk (ext : Ext) (fuel : Nat) (ih : MasterInv ext fuel) :
    ∀ k c st, PInv (getPropertyKey ext (fuel + 1) k c st) st
      (nbr k = true ∧ wf k = true) True := by
  intro k c st
  rw [getPropertyKey_eq]
  cases c with
  | true => exact PInv_of_wf_nbr (ih.pn (some k) none st) (fun h => h.2) (fun h => h.1)
  | false => exact PInv_pure_ok _ _ _ _

theorem stepGre (ext : Ext) (fuel : Nat) (ih : MasterInv ext fuel) :
    ∀ e st, PInv (getRefExp ext (fuel + 1) e st) st (wf e = true) True := by
  intro e st
  rw [getRefExp_eq]
  cases e
  case MemberExpression o p c =>
    refine PInv_of_wf_nbr (ih.gme o p c st) ?_ (fun _ => trivial)
    intro h
    obtain ⟨⟨hno, hwo⟩, hnp, hwp⟩ :
        (nbr o = true ∧ wf o = true) ∧ nbr p = true ∧ wf p = true := by
      simpa [wf] using h
    exact ⟨hno, hwo, hnp, hwp⟩
  all_goals exact PInv_pure_ok _ _ _ _

theorem stepIcm (ext : Ext) (fuel : Nat) (ih : MasterInv ext fuel) :
    ∀ t disc st, PInv (isCaseMatched ext (fuel + 1) t disc st) st (wfEO t = true) True := by
  intro t disc st
  rw [isCaseMatched_eq]
  cases t with
  | none => exact PInv_pure_ok _ _ _ _
  | some te =>
    refine PInv_bindO (fun hret hw => ⟨?_, ?_⟩) ?_
    · intro e st1 hm hwfP
      exact PInv_thr_clear (ih.pn (some te) none st) hret hw (wfEO_some hwfP).2 e st1 hm
    · intro v st1 hm hwfP
      exact PInv_ok_clear (ih.pn (some te) none st) hret hw (wfEO_some hwfP).2
        (wfEO_some hwfP).1 v st1 hm
    · exact fun v st1 _ _ _ => PInv_pure_ok _ _ _ _

theorem stepIter (ext : Ext) (fuel : Nat) (ih : MasterInv ext fuel) :
    ∀ nd st, PInv (parseIterator ext (fuel + 1) nd st) st
      (nbr nd = true ∧ wf nd = true) True := by
  intro nd st
  rw [parseIterator_eq]
  cases nd
  case VariableDeclaration kind decls =>
    refine PInv_bindO (fun hret hw => ⟨?_, ?_⟩) ?_
    · intro e st1 hm hwfP
      exact PInv_thr_clear (ih.pn (some (.VariableDeclaration kind decls)) none st)
        hret hw hwfP.2 e st1 hm
    · intro v st1 hm hwfP
      exact PInv_ok_clear (ih.pn (some (.VariableDeclaration kind decls)) none st)
        hret hw hwfP.2 hwfP.1 v st1 hm
    · exact fun v st1 _ _ _ => PInv_pure_ok _ _ _ _
  all_goals exact PInv_pure_ok _ _ _ _

theorem stepBine (ext : Ext) (fuel : Nat) (ih : MasterInv ext fuel) :
    ∀ n st, PInv (evalBinaryExpression ext (fuel + 1) n st) st (wf n = true) True := by
  intro n st
  rw [evalBinaryExpression_eq]
  cases n
  case BinaryExpression op l r =>
    refine PInv_bindO (fun hret hw => ⟨?_, ?_⟩) ?_
    · intro e st1 hm hwfP
      obtain ⟨⟨hnl, hwl⟩, hnr, hwr⟩ :
          (nbr l = true ∧ wf l = true) ∧ nbr r = true ∧ wf r = true := by
        simpa [wf] using hwfP
      exact PInv_thr_clear (ih.pn (some l) none st) hret hw hwl e st1 hm
    · intro v st1 hm hwfP
      obtain ⟨⟨hnl, hwl⟩, hnr, hwr⟩ :
          (nbr l = true ∧ wf l = true) ∧ nbr r = true ∧ wf r = true := by
        simpa [wf] using hwfP
      exact PInv_ok_clear (ih.pn (some l) none st) hret hw hwl hnl v st1 hm
    · intro lv st1 _ hw1 hret1
      refine PInv_bindO (fun hret2 hw2 => ⟨?_, ?_⟩) ?_
      · intro e st3 hm hwfP
        obtain ⟨⟨hnl, hwl⟩, hnr, hwr⟩ :
            (nbr l = true ∧ wf l = true) ∧ nbr r = true ∧ wf r = true := by
          simpa [wf] using hwfP
        exact PInv_thr_clear (ih.pn (some r) none st1) hret2 hw2 hwr e st3 hm
      · intro v st3 hm hwfP
        obtain ⟨⟨hnl, hwl⟩, hnr, hwr⟩ :
            (nbr l = true ∧ wf l = true) ∧ nbr r = true ∧ wf r = true := by
          simpa [wf] using hwfP
        exact PInv_ok_clear (ih.pn (some r) none st1) hret2 hw2 hwr hnr v st3 hm
      · exact fun rv st3 _ _ _ => PInv_pure_ok _ _ _ _
  all_goals exact PInv_pure_thr _ _ _ _

theorem stepGav (ext : Ext) (fuel : Nat) (ih : MasterInv ext fuel) :
    ∀ op l r st, PInv (getAssignValue ext (fuel + 1) op l r st) st
      (nbr l = true ∧ wf l = true ∧ nbr r = true ∧ wf r = true) True := by
  intro op l r st
  rw [getAssignValue_eq]
  split
  · refine PInv_of_wf_nbr (ih.bine (.BinaryExpression (stripAssign op) l r) st) ?_
      (fun _ => trivial)
    intro h
    simp only [wf, Bool.and_eq_true]
    exact ⟨⟨h.1, h.2.1⟩, h.2.2.1, h.2.2.2⟩
  · exact PInv_of_wf_nbr (ih.pn (some r) none st) (fun h => h.2.2.2) (fun h => h.2.2.1)

theorem stepGme (ext : Ext) (fuel : Nat) (ih : MasterInv ext fuel) :
    ∀ o p c st, PInv (getMemberExp ext (fuel + 1) o p c st) st
      (nbr o = true ∧ wf o = true ∧ nbr p = true ∧ wf p = true) True := by
  intro o p c st
  rw [getMemberExp_eq]
  refine PInv_bindO (fun hret hw => ⟨?_, ?_⟩) ?_
  · intro e st1 hm hwfP
    exact PInv_thr_clear (ih.pn (some o) none st) hret hw hwfP.2.1 e st1 hm
  · intro v st1 hm hwfP
    exact PInv_ok_clear (ih.pn (some o) none st) hret hw hwfP.2.1 hwfP.1 v st1 hm
  · intro cv st1 _ hw1 hret1
    refine PInv_bindO (fun hret2 hw2 => ⟨?_, ?_⟩) ?_
    · intro e st3 hm hwfP
      exact PInv_thr_clear (ih.gpk p c st1) hret2 hw2 ⟨hwfP.2.2.1, hwfP.2.2.2⟩ e st3 hm
    · intro kv st3 hm hwfP
      exact PInv_ok_clear (ih.gpk p c st1) hret2 hw2 ⟨hwfP.2.2.1, hwfP.2.2.2⟩
        trivial kv st3 hm
    · exact fun kv st3 _ _ _ => PInv_pure_ok _ _ _ _

theorem stepDecl (ext : Ext) (fuel : Nat) (ih : MasterInv ext fuel) :
    ∀ kind ds st, PInv (evalDeclarators ext (fuel + 1) kind ds st) st
      (wfList ds = true) True := by
  intro kind ds st
  cases ds with
  | nil => rw [evalDeclarators_eq1]; exact PInv_pure_ok _ _ _ _
  | cons d rest =>
    rw [evalDeclarators_eq2]
    split
    · rename_i id init
      by_cases hc : (kind = "var" && init.isNone : Bool) = true
      · rw [if_pos hc]
        exact PInv_of_wf_nbr (ih.decl kind rest st) (fun h => (wfList_cons h).2)
          (fun _ => trivial)
      · rw [if_neg hc]
        refine PInv_bindO (fun hret hw => ⟨?_, ?_⟩) ?_
        · intro e st1 hm hwfP
          have hEO : wfEO init = true := by simpa [wf] using (wfList_cons hwfP).1
          exact PInv_thr_clear (ih.pn init none st) hret hw (wfEO_imp_wfO hEO) e st1 hm
        · intro v st1 hm hwfP
          have hEO : wfEO init = true := by simpa [wf] using (wfList_cons hwfP).1
          exact PInv_ok_clear (ih.pn init none st) hret hw (wfEO_imp_wfO hEO)
            (wfEO_imp_nbrO hEO) v st1 hm
        · intro v st1 _ hw1 hret1
          refine PInv_state_congr (PInv_of_wf_nbr
            (ih.decl kind rest (setVariables st1 (getNameFromPattern id) v))
            (fun h => (wfList_cons h).2) (fun _ => trivial)) ?_ ?_
          · exact congrArg FlowState.returnF (setVariables_pres st1 _ v).1
          · exact (setVariables_pres st1 _ v).2
    · exact PInv_pure_thr _ _ _ _

theorem stepPfad (ext : Ext) (fuel : Nat) (ih : MasterInv ext fuel) :
    ∀ d bi args st, PInv (parseFunctionAgentData ext (fuel + 1) d bi args st) st
      (wf d.body = true) True := by
  intro d bi args st
  rw [parseFunctionAgentData_eq]
  dsimp only
  have p1 := setEnvironment_pres st (getAgentEnvironment d)
  have p2 := csCreateClosure_pres (setEnvironment st (getAgentEnvironment d))
  have p3 := setHoistings_pres d.hoistings
    (csCreateClosure (setEnvironment st (getAgentEnvironment d)))
  have p4 := setBuiltInArguments_pres (setHoistings
    (csCreateClosure (setEnvironment st (getAgentEnvironment d))) d.hoistings) bi
  have p5 := setCalledArguments_pres d.params args (setBuiltInArguments (setHoistings
    (csCreateClosure (setEnvironment st (getAgentEnvironment d))) d.hoistings) bi)
  have hfs : (setCalledArguments (setBuiltInArguments (setHoistings
      (csCreateClosure (setEnvironment st (getAgentEnvironment d))) d.hoistings) bi)
      d.params args).flowState = st.flowState :=
    (((p5.1.trans p4.1).trans p3.1).trans p2.1).trans p1.1
  have hfn : (setCalledArguments (setBuiltInArguments (setHoistings
      (csCreateClosure (setEnvironment st (getAgentEnvironment d))) d.hoistings) bi)
      d.params args).funcs = st.funcs :=
    (((p5.2.trans p4.2).trans p3.2).trans p2.2).trans p1.2
  intro hret hw r st2 hout hwfP
  cases hp : parseNode ext fuel (some d.body) none (setCalledArguments (setBuiltInArguments
      (setHoistings (csCreateClosure (setEnvironment st (getAgentEnvironment d)))
        d.hoistings) bi) d.params args) with
  | none => rw [hp] at hout; cases hout
  | some p =>
    obtain ⟨res, st6⟩ := p
    have hb := ih.pn (some d.body) none _ ((congrArg FlowState.returnF hfs).trans hret)
      (WfSt_of_funcs_eq hfn hw) res st6 hp hwfP
    cases res with
    | thr e =>
      rw [hp] at hout
      cases hout
      have h6 : st6.flowState.returnF = false := hb.2.1 ⟨e, rfl⟩
      refine ⟨WfSt_of_funcs_eq (setEnvironment_pres st6 (getEnvironment st)).2 hb.1,
        fun _ => ?_, fun _ _ => ?_⟩ <;>
        exact (congrArg FlowState.returnF
          (setEnvironment_pres st6 (getEnvironment st)).1).trans h6
    | ok v =>
      rw [hp] at hout
      cases hout
      refine ⟨WfSt_of_funcs_eq (setEnvironment_pres st6 (getEnvironment st)).2 hb.1,
        ?_, fun _ _ => rfl⟩
      rintro ⟨e, he⟩
      cases he

theorem stepApplyF (ext : Ext) (fuel : Nat) (ih : MasterInv ext fuel) :
    ∀ m recv args st, PInv (applyFunc ext (fuel + 1) m recv args st) st True True := by
  intro m recv args st
  rw [applyFunc_eq]
  cases m
  case func fr =>
    dsimp only
    cases hf : funcGet st.funcs fr with
    | some data =>
      dsimp only
      intro hret hw r2 st2 hout _
      have hwb : wf data.body = true := hw fr data hf
      have q := allocArgumentsObj_pres st args
      exact ih.pfad data ⟨recv, (allocArgumentsObj st args).1⟩ args
        (allocArgumentsObj st args).2 ((congrArg FlowState.returnF q.1).trans hret)
        (WfSt_of_funcs_eq q.2 hw) r2 st2 hout hwb
    | none => exact PInv_pure_thr _ _ _ _
  all_goals exact PInv_pure_thr _ _ _ _

theorem stepConF (ext : Ext) (fuel : Nat) (ih : MasterInv ext fuel) :
    ∀ cv args st, PInv (constructFunc ext (fuel + 1) cv args st) st True True := by
  intro cv args st
  rw [constructFunc_eq]
  cases cv
  case func fr =>
    dsimp only
    cases hf : funcGet st.funcs fr with
    | some data =>
      dsimp only
      intro hret hw r2 st2 hout _
      have hwb : wf data.body = true := hw fr data hf
      have q1 := allocObj_pres st []
      have q2 := allocArgumentsObj_pres (allocObj st []).2 args
      cases hm : parseFunctionAgentData ext fuel data
          ⟨(allocObj st []).1, (allocArgumentsObj (allocObj st []).2 args).1⟩ args
          (allocArgumentsObj (allocObj st []).2 args).2 with
      | none => rw [hm] at hout; cases hout
      | some p =>
        obtain ⟨res, st6⟩ := p
        have hb := ih.pfad data
          ⟨(allocObj st []).1, (allocArgumentsObj (allocObj st []).2 args).1⟩ args
          (allocArgumentsObj (allocObj st []).2 args).2
          ((congrArg FlowState.returnF (q2.1.trans q1.1)).trans hret)
          (WfSt_of_funcs_eq (q2.2.trans q1.2) hw) res st6 hm hwb
        cases res with
        | thr e =>
          rw [hm, bindO_thr] at hout
          cases hout
          exact ⟨hb.1, fun _ => hb.2.1 ⟨e, rfl⟩, fun _ _ => hb.2.1 ⟨e, rfl⟩⟩
        | ok v =>
          rw [hm, bindO_ok] at hout
          cases hout
          refine ⟨hb.1, ?_, fun _ _ => hb.2.2 trivial ⟨v, rfl⟩⟩
          rintro ⟨e, he⟩
          cases he
    | none => exact PInv_pure_thr _ _ _ _
  all_goals exact PInv_pure_thr _ _ _ _

theorem stepPce (ext : Ext) (fuel : Nat) (ih : MasterInv ext fuel) :
    ∀ exp st, PInv (parseCallExp ext (fuel + 1) exp st) st True True := by
  intro exp st
  rw [parseCallExp_eq]
  dsimp only
  intro hret hw r st2 hout _
  have q := setCheckFlag_pres ext st exp
  cases hm : executeExp ext fuel exp (setCheckFlag ext st exp).2 with
  | none => rw [hm] at hout; cases hout
  | some p =>
    obtain ⟨res, st1⟩ := p
    have hb := ih.exe exp (setCheckFlag ext st exp).2
      ((congrArg FlowState.returnF q.1).trans hret) (WfSt_of_funcs_eq q.2 hw)
      res st1 hm trivial
    cases res with
    | thr e =>
      rw [hm] at hout
      cases hout
      exact ⟨hb.1, fun _ => hb.2.1 ⟨e, rfl⟩, fun _ _ => hb.2.1 ⟨e, rfl⟩⟩
    | ok v =>
      rw [hm] at hout
      cases hout
      have q2 := resetCheckFlag_pres st1 (setCheckFlag ext st exp).1
      refine ⟨WfSt_of_funcs_eq q2.2 hb.1, ?_,
        fun _ _ => (congrArg FlowState.returnF q2.1).trans (hb.2.2 trivial ⟨v, rfl⟩)⟩
      rintro ⟨e, he⟩
      cases he

theorem stepExe (ext : Ext) (fuel : Nat) (ih : MasterInv ext fuel) :
    ∀ exp st, PInv (executeExp ext (fuel + 1) exp st) st True True := by
  intro exp st
  rw [executeExp_eq]
  cases exp.calleeR with
  | callee c => exact ih.exc exp.caller c st
  | raw k =>
    dsimp only
    cases getProp st exp.caller (toPropKey k) with
    | ok v => exact PInv_pure_ok _ _ _ _
    | thr e => exact PInv_pure_thr _ _ _ _

theorem stepExc (ext : Ext) (fuel : Nat) (ih : MasterInv ext fuel) :
    ∀ cal c st, PInv (executeCall ext (fuel + 1) cal c st) st True True := by
  intro cal c st
  rw [executeCall_eq]
  cases (if cal = Value.undef then Res.ok c.method
         else getProp st cal (toPropKey c.method) : Res Value) with
  | thr e => exact PInv_pure_thr _ _ _ _
  | ok m => exact ih.applyF m cal c.args st

theorem stepPme (ext : Ext) (fuel : Nat) (ih : MasterInv ext fuel) :
    ∀ exp st, PInv (parseMemberExp ext (fuel + 1) exp st) st True True := by
  intro exp st
  rw [parseMemberExp_eq]
  refine PInv_bindO (fun hret hw => ⟨?_, ?_⟩) ?_
  · intro e st1 hm _
    exact PInv_thr_clear (ih.exe exp st) hret hw trivial e st1 hm
  · intro v st1 hm _
    exact PInv_ok_clear (ih.exe exp st) hret hw trivial trivial v st1 hm
  · intro result st1 _ hw1 hret1
    by_cases hv : isValidStyleOrDOMTokenList ext st1 result = true
    · rw [if_pos hv]
      cases hsp : setProp st1 result "parent" exp.caller with
      | ok st3 =>
        have hq := setProp_ok_pres st1 result "parent" exp.caller st3 hsp
        exact PInv_pure_ok_mod result st1 st3 _ _ (congrArg FlowState.returnF hq.1) hq.2
      | thr e => exact PInv_pure_thr _ _ _ _
    · rw [if_neg hv]
      exact PInv_pure_ok _ _ _ _

theorem stepPcalleeAux (ext : Ext) (fuel : Nat) (ih : MasterInv ext fuel)
    (callee : Node) (st : St) :
    PInv (bindO (parseNode ext fuel (some callee) none st) fun v st2 =>
        some (.ok (Value.undef, v), st2)) st
      (nbr callee = true ∧ wf callee = true) True := by
  refine PInv_bindO (fun hret hw => ⟨?_, ?_⟩) ?_
  · intro e st1 hm hwfP
    exact PInv_thr_clear (ih.pn (some callee) none st) hret hw hwfP.2 e st1 hm
  · intro v st1 hm hwfP
    exact PInv_ok_clear (ih.pn (some callee) none st) hret hw hwfP.2 hwfP.1 v st1 hm
  · exact fun v st1 _ _ _ => PInv_pure_ok _ _ _ _

theorem stepPcallee (ext : Ext) (fuel : Nat) (ih : MasterInv ext fuel) :
    ∀ c st, PInv (parseCallee ext (fuel + 1) c st) st
      (nbr c = true ∧ wf c = true) True := by
  intro c st
  rw [parseCallee_eq]
  cases c
  case MemberExpression o p cm =>
    refine PInv_bindO (fun hret hw => ⟨?_, ?_⟩) ?_
    · intro e st1 hm hwfP
      refine PInv_thr_clear (ih.gme o p cm st) hret hw ?_ e st1 hm
      obtain ⟨⟨hno, hwo⟩, hnp, hwp⟩ :
          (nbr o = true ∧ wf o = true) ∧ nbr p = true ∧ wf p = true := by
        simpa [wf] using hwfP.2
      exact ⟨hno, hwo, hnp, hwp⟩
    · intro v st1 hm hwfP
      refine PInv_ok_clear (ih.gme o p cm st) hret hw ?_ trivial v st1 hm
      obtain ⟨⟨hno, hwo⟩, hnp, hwp⟩ :
          (nbr o = true ∧ wf o = true) ∧ nbr p = true ∧ wf p = true := by
        simpa [wf] using hwfP.2
      exact ⟨hno, hwo, hnp, hwp⟩
    · exact fun ref st1 _ _ _ => PInv_pure_ok _ _ _ _
  all_goals exact stepPcalleeAux ext fuel ih _ st

theorem stepCallE (ext : Ext) (fuel : Nat) (ih : MasterInv ext fuel) :
    ∀ c args nd st, PInv (evalCallExpression ext (fuel + 1) c args nd st) st
      (nbr c = true ∧ wf c = true ∧ wfArgs args = true) True := by
  intro c args nd st
  rw [evalCallExpression_eq]
  refine PInv_bindO (fun hret hw => ⟨?_, ?_⟩) ?_
  · intro e st1 hm hwfP
    exact PInv_thr_clear (ih.pcallee c st) hret hw ⟨hwfP.1, hwfP.2.1⟩ e st1 hm
  · intro v st1 hm hwfP
    exact PInv_ok_clear (ih.pcallee c st) hret hw ⟨hwfP.1, hwfP.2.1⟩ trivial v st1 hm
  · intro pc st1 _ hw1 hret1
    refine PInv_bindO (fun hret2 hw2 => ⟨?_, ?_⟩) ?_
    · intro e st3 hm hwfP
      exact PInv_thr_clear (ih.pargs args st1) hret2 hw2 hwfP.2.2 e st3 hm
    · intro avs st3 hm hwfP
      exact PInv_ok_clear (ih.pargs args st1) hret2 hw2 hwfP.2.2 trivial avs st3 hm
    · intro avs st3 _ hw3 hret3
      exact PInv_mono (ih.pce _ st3) (fun _ => trivial) (fun _ => trivial)

theorem stepAsge (ext : Ext) (fuel : Nat) (ih : MasterInv ext fuel) :
    ∀ n st, PInv (evalAssignmentExpression ext (fuel + 1) n st) st (wf n = true) True := by
  intro n st
  rw [evalAssignmentExpression_eq]
  cases n
  case AssignmentExpression op l r =>
    refine PInv_bindO (fun hret hw => ⟨?_, ?_⟩) ?_
    · intro e st1 hm hwfP
      obtain ⟨⟨hnl, hwl⟩, hnr, hwr⟩ :
          (nbr l = true ∧ wf l = true) ∧ nbr r = true ∧ wf r = true := by
        simpa [wf] using hwfP
      exact PInv_thr_clear (ih.gre l st) hret hw hwl e st1 hm
    · intro v st1 hm hwfP
      obtain ⟨⟨hnl, hwl⟩, hnr, hwr⟩ :
          (nbr l = true ∧ wf l = true) ∧ nbr r = true ∧ wf r = true := by
        simpa [wf] using hwfP
      exact PInv_ok_clear (ih.gre l st) hret hw hwl trivial v st1 hm
    · intro exp st1 _ hw1 hret1
      refine PInv_bindO (fun hret2 hw2 => ⟨?_, ?_⟩) ?_
      · intro e st3 hm hwfP
        obtain ⟨⟨hnl, hwl⟩, hnr, hwr⟩ :
            (nbr l = true ∧ wf l = true) ∧ nbr r = true ∧ wf r = true := by
          simpa [wf] using hwfP
        exact PInv_thr_clear (ih.gav op l r st1) hret2 hw2 ⟨hnl, hwl, hnr, hwr⟩ e st3 hm
      · intro v st3 hm hwfP
        obtain ⟨⟨hnl, hwl⟩, hnr, hwr⟩ :
            (nbr l = true ∧ wf l = true) ∧ nbr r = true ∧ wf r = true := by
          simpa [wf] using hwfP
        exact PInv_ok_clear (ih.gav op l r st1) hret2 hw2 ⟨hnl, hwl, hnr, hwr⟩
          trivial v st3 hm
      · intro v st3 _ hw3 hret3
        dsimp only
        intro hret4 hw4 r2 st5 hout _
        have q := assignmentOperatorEq_pres ext st3
          { exp with info := some (getExpInfo ext st3 (.AssignmentExpression op l r)) } v
        cases haoe : assignmentOperatorEq ext st3
            { exp with info := some (getExpInfo ext st3 (.AssignmentExpression op l r)) } v
          with
        | mk res st4 =>
          rw [haoe] at q hout
          cases res with
          | thr e =>
            cases hout
            exact ⟨WfSt_of_funcs_eq q.2 hw4,
              fun _ => (congrArg FlowState.returnF q.1).trans hret4,
              fun _ _ => (congrArg FlowState.returnF q.1).trans hret4⟩
          | ok v2 =>
            cases hout
            refine ⟨WfSt_of_funcs_eq q.2 hw4, ?_,
              fun _ _ => (congrArg FlowState.returnF q.1).trans hret4⟩
            rintro ⟨e, he⟩
            cases he
  all_goals exact PInv_pure_thr _ _ _ _

theorem handleHoisting_pres (ext : Ext) (fuel : Nat) (body : List Node) (st st1 : St)
    (h : handleHoisting ext fuel body st = some st1) :
    st1.flowState = st.flowState ∧ st1.funcs = st.funcs := by
  match fuel with
  | 0 => exact absurd h (by simp [handleHoisting, evals, evalsZero])
  | fuel + 1 =>
    rw [handleHoisting_eq] at h
    cases hs : searchHoistings ext fuel body with
    | none => rw [hs] at h; cases h
    | some hl =>
      rw [hs] at h
      injection h with h1
      exact h1 ▸ setHoistings_pres hl st

theorem stepStmts (ext : Ext) (fuel : Nat) (ih : MasterInv ext fuel) :
    ∀ l st, PInv (parseStatements ext (fuel + 1) l st) st
      (wfList l = true) (nbrList l = true) := by
  intro l st
  rw [parseStatements_eq]
  intro hret hw r st9 hout hwfP
  cases hm : parseHoistingStatements ext fuel l st with
  | none => rw [hm] at hout; cases hout
  | some p =>
    obtain ⟨res, st2⟩ := p
    have hh := ih.hstmts l st hret hw res st2 hm hwfP
    cases res with
    | thr e =>
      rw [hm, bindO_thr] at hout
      cases hout
      exact ⟨hh.1, fun _ => hh.2.1 ⟨e, rfl⟩, fun _ _ => hh.2.1 ⟨e, rfl⟩⟩
    | ok nonH =>
      rw [hm, bindO_ok] at hout
      have hW := ih.hstmtsW l st nonH st2 hm
      have h2 := hh.2.2 trivial ⟨nonH, rfl⟩
      have hres := ih.nhstmts nonH st2 h2 hh.1 r st9 hout (hW.1 hwfP)
      exact ⟨hres.1, hres.2.1, fun hnbr hok => hres.2.2 (hW.2 hnbr) hok⟩

theorem stepHStmts (ext : Ext) (fuel : Nat) (ih : MasterInv ext fuel) :
    ∀ l st, PInv (parseHoistingStatements ext (fuel + 1) l st) st (wfList l = true) True := by
  intro l st
  cases l with
  | nil => rw [parseHoistingStatements_eq1]; exact PInv_pure_ok _ _ _ _
  | cons s rest =>
    rw [parseHoistingStatements_eq2]
    split
    · rename_i id params fbody
      refine PInv_bindO (fun hret hw => ⟨?_, ?_⟩) ?_
      · intro e st1 hm hwfP
        exact PInv_thr_clear (ih.pn (some (.FunctionDeclaration id params fbody)) none st)
          hret hw (wfList_cons hwfP).1 e st1 hm
      · intro v st1 hm hwfP
        exact PInv_ok_clear (ih.pn (some (.FunctionDeclaration id params fbody)) none st)
          hret hw (wfList_cons hwfP).1 rfl v st1 hm
      · intro v st1 _ hw1 hret1
        exact PInv_of_wf_nbr (ih.hstmts rest st1) (fun h => (wfList_cons h).2)
          (fun _ => trivial)
    · refine PInv_bindO (fun hret hw => ⟨?_, ?_⟩) ?_
      · intro e st1 hm hwfP
        exact PInv_thr_clear (ih.hstmts rest st) hret hw (wfList_cons hwfP).2 e st1 hm
      · intro lres st1 hm hwfP
        exact PInv_ok_clear (ih.hstmts rest st) hret hw (wfList_cons hwfP).2 trivial
          lres st1 hm
      · exact fun lres st1 _ _ _ => PInv_pure_ok _ _ _ _

theorem stepHStmtsW (ext : Ext) (fuel : Nat) (ih : MasterInv ext fuel) :
    ∀ l st nonH st2, parseHoistingStatements ext (fuel + 1) l st = some (.ok nonH, st2) →
      (wfList l = true → wfList nonH = true) ∧
      (nbrList l = true → nbrList nonH = true) := by
  intro l st nonH st2 h
  cases l with
  | nil =>
    rw [parseHoistingStatements_eq1] at h
    cases h
    exact ⟨fun _ => rfl, fun _ => rfl⟩
  | cons s rest =>
    rw [parseHoistingStatements_eq2] at h
    split at h
    · rename_i id params fbody
      cases hm : parseNode ext fuel (some (.FunctionDeclaration id params fbody)) none st with
      | none => rw [hm] at h; cases h
      | some p =>
        obtain ⟨res, stx⟩ := p
        cases res with
        | thr e => rw [hm, bindO_thr] at h; cases h
        | ok v =>
          rw [hm, bindO_ok] at h
          have h2 := ih.hstmtsW rest stx nonH st2 h
          exact ⟨fun hw => h2.1 (wfList_cons hw).2, fun hn => h2.2 (nbrList_cons hn).2⟩
    · cases hm : parseHoistingStatements ext fuel rest st with
      | none => rw [hm] at h; cases h
      | some p =>
        obtain ⟨res, stx⟩ := p
        cases res with
        | thr e => rw [hm, bindO_thr] at h; cases h
        | ok lr =>
          rw [hm, bindO_ok] at h
          have h2 := ih.hstmtsW rest st lr stx hm
          cases h
          constructor
          · intro hwl
            have h1 := wfList_cons hwl
            simp only [wfList, Bool.and_eq_true]
            exact ⟨h1.1, h2.1 h1.2⟩
          · intro hnl
            have h1 := nbrList_cons hnl
            simp only [nbrList, Bool.and_eq_true]
            exact ⟨h1.1, h2.2 h1.2⟩

theorem stepNHStmts (ext : Ext) (fuel : Nat) (ih : MasterInv ext fuel) :
    ∀ l st, PInv (parseNonHoistingStatements ext (fuel + 1) l st) st
      (wfList l = true) (nbrList l = true) := by
  intro l st
  cases l with
  | nil => rw [parseNonHoistingStatements_eq1]; exact PInv_pure_ok _ _ _ _
  | cons s rest =>
    rw [parseNonHoistingStatements_eq2]
    intro hret hw r st9 hout hwfP
    cases hm : parseNode ext fuel (some s) none st with
    | none => rw [hm] at hout; cases hout
    | some p =>
      obtain ⟨res, st2⟩ := p
      have hb := ih.pn (some s) none st hret hw res st2 hm (wfList_cons hwfP).1
      cases res with
      | thr e =>
        rw [hm, bindO_thr] at hout
        cases hout
        exact ⟨hb.1, fun _ => hb.2.1 ⟨e, rfl⟩, fun _ _ => hb.2.1 ⟨e, rfl⟩⟩
      | ok v =>
        rw [hm, bindO_ok] at hout
        try dsimp only at hout
        by_cases he : st2.flowState.isEitherState = true
        · rw [if_pos he] at hout
          cases hout
          refine ⟨hb.1, ?_, fun hnbr _ => hb.2.2 (nbrList_cons hnbr).1 ⟨v, rfl⟩⟩
          rintro ⟨e2, h2⟩
          cases h2
        · rw [if_neg he] at hout
          have hef : st2.flowState.isEitherState = false := by
            revert he
            cases st2.flowState.isEitherState <;> simp
          have h2 := returnF_of_not_either st2.flowState hef
          cases rest with
          | nil =>
            cases hout
            refine ⟨hb.1, ?_, fun _ _ => h2⟩
            rintro ⟨e2, h3⟩
            cases h3
          | cons s2 rest2 =>
            have hres := ih.nhstmts (s2 :: rest2) st2 h2 hb.1 r st9 hout
              (wfList_cons hwfP).2
            exact ⟨hres.1, hres.2.1, fun hnbr hok => hres.2.2 (nbrList_cons hnbr).2 hok⟩

theorem stepWhileA (ext : Ext) (fuel : Nat) (ih : MasterInv ext fuel) :
    ∀ t b lbl acc st, PInv (evalWhileAux ext (fuel + 1) t b lbl acc st) st
      (nbr t = true ∧ wf t = true ∧ wf b = true) (nbr b = true) := by
  intro t b lbl acc st
  rw [evalWhileAux_eq]
  refine PInv_bindO (fun hret hw => ⟨?_, ?_⟩) ?_
  · intro e st1 hm hwfP
    exact PInv_thr_clear (ih.pn (some t) none st) hret hw hwfP.2.1 e st1 hm
  · intro tv st1 hm hwfP
    exact PInv_ok_clear (ih.pn (some t) none st) hret hw hwfP.2.1 hwfP.1 tv st1 hm
  · intro tv st1 _ hw1 hret1
    by_cases htv : truthy tv = true
    · rw [if_pos htv]
      intro hret2 hw2 r st9 hout hwfP
      cases hm : parseNode ext fuel (some b) none st1 with
      | none => rw [hm] at hout; cases hout
      | some p =>
        obtain ⟨res, st3⟩ := p
        have hb := ih.pn (some b) none st1 hret2 hw2 res st3 hm hwfP.2.2
        cases res with
        | thr e =>
          rw [hm, bindO_thr] at hout
          cases hout
          exact ⟨hb.1, fun _ => hb.2.1 ⟨e, rfl⟩, fun _ _ => hb.2.1 ⟨e, rfl⟩⟩
        | ok rv =>
          rw [hm, bindO_ok] at hout
          try dsimp only at hout
          cases hr3 : st3.flowState.returnF with
          | true =>
            rw [if_pos (isLoopNeededToBreak_of_return st3.flowState lbl hr3)] at hout
            cases hout
            refine ⟨hb.1, ?_,
              fun hnbr _ => absurd (hb.2.2 hnbr ⟨rv, rfl⟩) (by simp [hr3])⟩
            rintro ⟨e, he⟩
            cases he
          | false =>
            have h4 : (isLoopNeededToBreak st3.flowState lbl).2.returnF = false :=
              (isLoopNeededToBreak_returnF st3.flowState lbl).trans hr3
            by_cases hb1 : (isLoopNeededToBreak st3.flowState lbl).1 = true
            · rw [if_pos hb1] at hout
              cases hout
              exact ⟨hb.1, fun _ => h4, fun _ _ => h4⟩
            · rw [if_neg hb1] at hout
              exact ih.whileA t b lbl rv
                { st3 with flowState := (isLoopNeededToBreak st3.flowState lbl).2 }
                h4 hb.1 r st9 hout hwfP
    · rw [if_neg htv]
      exact PInv_pure_ok _ _ _ _

theorem stepWhileS (ext : Ext) (fuel : Nat) (ih : MasterInv ext fuel) :
    ∀ t b lbl st, PInv (evalWhileStatement ext (fuel + 1) t b lbl st) st
      (nbr t = true ∧ wf t = true ∧ wf b = true) (nbr b = true) := by
  intro t b lbl st
  rw [evalWhileStatement_eq]
  exact ih.whileA t b lbl .undef st

theorem stepDoWhile (ext : Ext) (fuel : Nat) (ih : MasterInv ext fuel) :
    ∀ b t lbl st, PInv (evalDoWhileStatement ext (fuel + 1) b t lbl st) st
      (wf b = true ∧ nbr t = true ∧ wf t = true) (nbr b = true) := by
  intro b t lbl st
  rw [evalDoWhileStatement_eq]
  intro hret hw r st9 hout hwfP
  cases hm : parseNode ext fuel (some b) none st with
  | none => rw [hm] at hout; cases hout
  | some p =>
    obtain ⟨res, st2⟩ := p
    have hb := ih.pn (some b) none st hret hw res st2 hm hwfP.1
    cases res with
    | thr e =>
      rw [hm, bindO_thr] at hout
      cases hout
      exact ⟨hb.1, fun _ => hb.2.1 ⟨e, rfl⟩, fun _ _ => hb.2.1 ⟨e, rfl⟩⟩
    | ok rv =>
      rw [hm, bindO_ok] at hout
      try dsimp only at hout
      cases hr2 : st2.flowState.returnF with
      | true =>
        rw [if_pos (isLoopNeededToBreak_of_return st2.flowState lbl hr2)] at hout
        cases hout
        refine ⟨hb.1, ?_, fun hnbr _ => absurd (hb.2.2 hnbr ⟨rv, rfl⟩) (by simp [hr2])⟩
        rintro ⟨e, he⟩
        cases he
      | false =>
        have h3 : (isLoopNeededToBreak st2.flowState lbl).2.returnF = false :=
          (isLoopNeededToBreak_returnF st2.flowState lbl).trans hr2
        by_cases hb1 : (isLoopNeededToBreak st2.flowState lbl).1 = true
        · rw [if_pos hb1] at hout
          cases hout
          exact ⟨hb.1, fun _ => h3, fun _ _ => h3⟩
        · rw [if_neg hb1] at hout
          exact ih.whileS t b none
            { st2 with flowState := (isLoopNeededToBreak st2.flowState lbl).2 }
            h3 hb.1 r st9 hout ⟨hwfP.2.1, hwfP.2.2, hwfP.1⟩

theorem stepForA (ext : Ext) (fuel : Nat) (ih : MasterInv ext fuel) :
    ∀ t u b lbl acc st, PInv (evalForAux ext (fuel + 1) t u b lbl acc st) st
      (wfEO t = true ∧ wfEO u = true ∧ wf b = true) (nbr b = true) := by
  intro t u b lbl acc st
  rw [evalForAux_eq]
  refine PInv_bindO (fun hret hw => ⟨?_, ?_⟩) ?_
  · intro e st1 hm hwfP
    exact PInv_thr_clear (ih.pn t none st) hret hw (wfEO_imp_wfO hwfP.1) e st1 hm
  · intro tv st1 hm hwfP
    exact PInv_ok_clear (ih.pn t none st) hret hw (wfEO_imp_wfO hwfP.1)
      (wfEO_imp_nbrO hwfP.1) tv st1 hm
  · intro tv st1 _ hw1 hret1
    by_cases htv : truthy tv = true
    · rw [if_pos htv]
      intro hret2 hw2 r st9 hout hwfP
      cases hm : parseNode ext fuel (some b) none st1 with
      | none => rw [hm] at hout; cases hout
      | some p =>
        obtain ⟨res, st3⟩ := p
        have hb := ih.pn (some b) none st1 hret2 hw2 res st3 hm hwfP.2.2
        cases res with
        | thr e =>
          rw [hm, bindO_thr] at hout
          cases hout
          exact ⟨hb.1, fun _ => hb.2.1 ⟨e, rfl⟩, fun _ _ => hb.2.1 ⟨e, rfl⟩⟩
        | ok rv =>
          rw [hm, bindO_ok] at hout
          try dsimp only at hout
          cases hr3 : st3.flowState.returnF with
          | true =>
            rw [if_pos (isLoopNeededToBreak_of_return st3.flowState lbl hr3)] at hout
            cases hout
            refine ⟨hb.1, ?_,
              fun hnbr _ => absurd (hb.2.2 hnbr ⟨rv, rfl⟩) (by simp [hr3])⟩
            rintro ⟨e, he⟩
            cases he
          | false =>
            have h4 : (isLoopNeededToBreak st3.flowState lbl).2.returnF = false :=
              (isLoopNeededToBreak_returnF st3.flowState lbl).trans hr3
            by_cases hb1 : (isLoopNeededToBreak st3.flowState lbl).1 = true
            · rw [if_pos hb1] at hout
              cases hout
              exact ⟨hb.1, fun _ => h4, fun _ _ => h4⟩
            · rw [if_neg hb1] at hout
              cases hmu : parseNode ext fuel u none
                  ({ st3 with flowState := (isLoopNeededToBreak st3.flowState lbl).2 }) with
              | none => rw [hmu] at hout; cases hout
              | some pu =>
                obtain ⟨resu, st5⟩ := pu
                have hu := ih.pn u none
                  { st3 with flowState := (isLoopNeededToBreak st3.flowState lbl).2 }
                  h4 hb.1 resu st5 hmu (wfEO_imp_wfO hwfP.2.1)
                cases resu with
                | thr e =>
                  rw [hmu, bindO_thr] at hout
                  cases hout
                  exact ⟨hu.1, fun _ => hu.2.1 ⟨e, rfl⟩, fun _ _ => hu.2.1 ⟨e, rfl⟩⟩
                | ok uv =>
                  rw [hmu, bindO_ok] at hout
                  have h5 := hu.2.2 (wfEO_imp_nbrO hwfP.2.1) ⟨uv, rfl⟩
                  exact ih.forA t u b lbl rv st5 h5 hu.1 r st9 hout hwfP
    · rw [if_neg htv]
      exact PInv_pure_ok _ _ _ _

theorem stepForS (ext : Ext) (fuel : Nat) (ih : MasterInv ext fuel) :
    ∀ i t u b lbl st, PInv (evalForStatement ext (fuel + 1) i t u b lbl st) st
      (wfEO i = true ∧ wfEO t = true ∧ wfEO u = true ∧ wf b = true) (nbr b = true) := by
  intro i t u b lbl st
  rw [evalForStatement_eq]
  refine PInv_bindO (fun hret hw => ⟨?_, ?_⟩) ?_
  · intro e st1 hm hwfP
    exact PInv_thr_clear (ih.pn i none st) hret hw (wfEO_imp_wfO hwfP.1) e st1 hm
  · intro v st1 hm hwfP
    exact PInv_ok_clear (ih.pn i none st) hret hw (wfEO_imp_wfO hwfP.1)
      (wfEO_imp_nbrO hwfP.1) v st1 hm
  · intro v st1 _ hw1 hret1
    exact PInv_mono (ih.forA t u b lbl .undef st1)
      (fun h => ⟨h.2.1, h.2.2.1, h.2.2.2⟩) (fun h => h)

theorem stepForIn (ext : Ext) (fuel : Nat) (ih : MasterInv ext fuel) :
    ∀ l r b lbl st, PInv (evalForInStatement ext (fuel + 1) l r b lbl st) st
      (nbr l = true ∧ wf l = true ∧ nbr r = true ∧ wf r = true ∧ wf b = true)
      (nbr b = true) := by
  intro l r b lbl st
  rw [evalForInStatement_eq]
  refine PInv_bindO (fun hret hw => ⟨?_, ?_⟩) ?_
  · intro e st1 hm hwfP
    exact PInv_thr_clear (ih.iter l st) hret hw ⟨hwfP.1, hwfP.2.1⟩ e st1 hm
  · intro nm st1 hm hwfP
    exact PInv_ok_clear (ih.iter l st) hret hw ⟨hwfP.1, hwfP.2.1⟩ trivial nm st1 hm
  · intro nm st1 _ hw1 hret1
    refine PInv_bindO (fun hret2 hw2 => ⟨?_, ?_⟩) ?_
    · intro e st3 hm hwfP
      exact PInv_thr_clear (ih.pn (some r) none st1) hret2 hw2 hwfP.2.2.2.1 e st3 hm
    · intro rv st3 hm hwfP
      exact PInv_ok_clear (ih.pn (some r) none st1) hret2 hw2 hwfP.2.2.2.1
        hwfP.2.2.1 rv st3 hm
    · intro rv st3 _ hw3 hret3
      exact PInv_mono (ih.forInA nm b lbl (objKeys st3 rv) .undef st3)
        (fun h => h.2.2.2.2) (fun h => h)

theorem stepForInA (ext : Ext) (fuel : Nat) (ih : MasterInv ext fuel) :
    ∀ nm b lbl keys acc st, PInv (evalForInAux ext (fuel + 1) nm b lbl keys acc st) st
      (wf b = true) (nbr b = true) := by
  intro nm b lbl keys acc st
  cases keys with
  | nil => rw [evalForInAux_eq1]; exact PInv_pure_ok _ _ _ _
  | cons k rest =>
    rw [evalForInAux_eq2]
    dsimp only
    intro hret hw r st9 hout hwfP
    have qv := updateVariables_pres st nm (.str k)
    cases hm : parseNode ext fuel (some b) none (updateVariables st nm (.str k)) with
    | none => rw [hm] at hout; cases hout
    | some p =>
      obtain ⟨res, st3⟩ := p
      have hb := ih.pn (some b) none _ ((congrArg FlowState.returnF qv.1).trans hret)
        (WfSt_of_funcs_eq qv.2 hw) res st3 hm hwfP
      cases res with
      | thr e =>
        rw [hm, bindO_thr] at hout
        cases hout
        exact ⟨hb.1, fun _ => hb.2.1 ⟨e, rfl⟩, fun _ _ => hb.2.1 ⟨e, rfl⟩⟩
      | ok rv =>
        rw [hm, bindO_ok] at hout
        try dsimp only at hout
        cases hr3 : st3.flowState.returnF with
        | true =>
          rw [if_pos (isLoopNeededToBreak_of_return st3.flowState lbl hr3)] at hout
          cases hout
          refine ⟨hb.1, ?_, fun hnbr _ => absurd (hb.2.2 hnbr ⟨rv, rfl⟩) (by simp [hr3])⟩
          rintro ⟨e, he⟩
          cases he
        | false =>
          have h4 : (isLoopNeededToBreak st3.flowState lbl).2.returnF = false :=
            (isLoopNeededToBreak_returnF st3.flowState lbl).trans hr3
          by_cases hb1 : (isLoopNeededToBreak st3.flowState lbl).1 = true
          · rw [if_pos hb1] at hout
            cases hout
            exact ⟨hb.1, fun _ => h4, fun _ _ => h4⟩
          · rw [if_neg hb1] at hout
            exact ih.forInA nm b lbl rest rv
              { st3 with flowState := (isLoopNeededToBreak st3.flowState lbl).2 }
              h4 hb.1 r st9 hout hwfP

theorem stepSwcAux (ext : Ext) (fuel : Nat) (ih : MasterInv ext fuel)
    (tOpt : Option Node) (c : Node) (rest : List Node) (disc : Value) (st : St)
    (hwtImp : wfList (c :: rest) = true → wfEO tOpt = true) :
    PInv (bindO (isCaseMatched ext fuel tOpt disc st) fun m st2 =>
        if m then parseStatements ext fuel (c :: rest) st2
        else parseSwitchCases ext fuel rest disc st2)
      st (wfList (c :: rest) = true) (nbrList (c :: rest) = true) := by
  intro hret hw r st9 hout hwfP
  cases hm : isCaseMatched ext fuel tOpt disc st with
  | none => rw [hm] at hout; cases hout
  | some p =>
    obtain ⟨res, st2⟩ := p
    have hb := ih.icm tOpt disc st hret hw res st2 hm (hwtImp hwfP)
    cases res with
    | thr e =>
      rw [hm, bindO_thr] at hout
      cases hout
      exact ⟨hb.1, fun _ => hb.2.1 ⟨e, rfl⟩, fun _ _ => hb.2.1 ⟨e, rfl⟩⟩
    | ok m =>
      rw [hm, bindO_ok] at hout
      try dsimp only at hout
      have h2 := hb.2.2 trivial ⟨m, rfl⟩
      by_cases hmB : m = true
      · rw [if_pos hmB] at hout
        exact ih.stmts (c :: rest) st2 h2 hb.1 r st9 hout hwfP
      · rw [if_neg hmB] at hout
        have hres := ih.swc rest disc st2 h2 hb.1 r st9 hout (wfList_cons hwfP).2
        exact ⟨hres.1, hres.2.1, fun hnbr hok => hres.2.2 (nbrList_cons hnbr).2 hok⟩

theorem stepSwc (ext : Ext) (fuel : Nat) (ih : MasterInv ext fuel) :
    ∀ cs disc st, PInv (parseSwitchCases ext (fuel + 1) cs disc st) st
      (wfList cs = true) (nbrList cs = true) := by
  intro cs disc st
  cases cs with
  | nil => rw [parseSwitchCases_eq1]; exact PInv_pure_ok _ _ _ _
  | cons c rest =>
    rw [parseSwitchCases_eq2]
    cases c
    case SwitchCase t cons =>
      refine stepSwcAux ext fuel ih t (.SwitchCase t cons) rest disc st ?_
      intro hwl
      have h1 : wfEO t = true ∧ wfList cons = true := by
        simpa [wf] using (wfList_cons hwl).1
      exact h1.1
    all_goals exact stepSwcAux ext fuel ih none _ rest disc st (fun _ => rfl)

theorem stepHeb (ext : Ext) (fuel : Nat) (ih : MasterInv ext fuel) :
    ∀ blk st, PInv (handleExceptionBlock ext (fuel + 1) blk st) st (wfO blk = true) True := by
  intro blk st
  rw [handleExceptionBlock_eq]
  intro hret hw r st9 hout hwfP
  cases hm : parseNode ext fuel blk none st with
  | none => rw [hm] at hout; cases hout
  | some p =>
    obtain ⟨res, st2⟩ := p
    have hb := ih.pn blk none st hret hw res st2 hm hwfP
    cases res with
    | thr e =>
      rw [hm, bindO_thr] at hout
      cases hout
      exact ⟨hb.1, fun _ => hb.2.1 ⟨e, rfl⟩, fun _ _ => hb.2.1 ⟨e, rfl⟩⟩
    | ok v =>
      rw [hm, bindO_ok] at hout
      try dsimp only at hout
      cases hout
      refine ⟨hb.1, ?_, fun _ _ => getExceptionBlockResult_returnF st2.flowState v⟩
      rintro ⟨e, he⟩
      cases he

theorem stepHebV (ext : Ext) (fuel : Nat) (ih : MasterInv ext fuel) :
    ∀ blk st, st.flowState.returnF = false → WfSt st →
      ∀ part st2, handleExceptionBlock ext (fuel + 1) blk st = some (.ok part, st2) →
        wfO blk = true → nbrO blk = true → part.value = none := by
  intro blk st hret hw part st9 hout hwfP hnbr
  rw [handleExceptionBlock_eq] at hout
  cases hm : parseNode ext fuel blk none st with
  | none => rw [hm] at hout; cases hout
  | some p =>
    obtain ⟨res, st2⟩ := p
    cases res with
    | thr e =>
      rw [hm, bindO_thr] at hout
      cases hout
    | ok v =>
      have hb := ih.pn blk none st hret hw (.ok v) st2 hm hwfP
      have h2 : st2.flowState.returnF = false := hb.2.2 hnbr ⟨v, rfl⟩
      rw [hm, bindO_ok] at hout
      try dsimp only at hout
      rw [getExceptionBlockResult_of_clear st2.flowState v h2] at hout
      cases hout
      rfl

theorem stepPcc (ext : Ext) (fuel : Nat) (ih : MasterInv ext fuel) :
    ∀ h e st, PInv (parseCatchClause ext (fuel + 1) h e st) st (wf h = true) True := by
  intro h e st
  rw [parseCatchClause_eq]
  split
  · rename_i param body
    refine PInv_state_congr (PInv_mono (ih.heb (some body) (setCatchError st param e))
      ?_ (fun _ => trivial)) ?_ ?_
    · intro hwf
      simpa [wf] using hwf
    · exact congrArg FlowState.returnF (csSet_pres st (getNameFromPattern param) e).1
    · exact (csSet_pres st (getNameFromPattern param) e).2
  · exact PInv_pure_thr _ _ _ _

theorem stepPccV (ext : Ext) (fuel : Nat) (ih : MasterInv ext fuel) :
    ∀ h e st, st.flowState.returnF = false → WfSt st →
      ∀ part st2, parseCatchClause ext (fuel + 1) h e st = some (.ok part, st2) →
        wf h = true → nbr h = true → part.value = none := by
  intro h e st hret hw part st9 hout hwf hnbr
  rw [parseCatchClause_eq] at hout
  split at hout
  · rename_i param body
    have q := csSet_pres st (getNameFromPattern param) e
    exact ih.hebV (some body) (setCatchError st param e)
      ((congrArg FlowState.returnF q.1).trans hret) (WfSt_of_funcs_eq q.2 hw) part st9 hout
      (by simpa [wf] using hwf) (by simpa [nbr] using hnbr)
  · cases hout

theorem stepHcc (ext : Ext) (fuel : Nat) (ih : MasterInv ext fuel) :
    ∀ h e st, st.flowState.returnF = false → WfSt st →
      ∀ part st2, handleCatchClause ext (fuel + 1) h e st = some (part, st2) →
        wfO h = true →
        WfSt st2 ∧ st2.flowState.returnF = false ∧
          (nbrO h = true → part.value = none) := by
  intro h e st hret hw part st9 hout hwf
  rw [handleCatchClause_eq] at hout
  cases h with
  | none =>
    cases hout
    exact ⟨hw, hret, fun _ => rfl⟩
  | some hc =>
    dsimp only at hout
    cases hm : parseCatchClause ext fuel hc e st with
    | none => rw [hm] at hout; cases hout
    | some p =>
      obtain ⟨res, st2⟩ := p
      have hb := ih.pcc hc e st hret hw res st2 hm hwf
      cases res with
      | ok pt =>
        rw [hm] at hout
        have hb2 := hb.2.2 trivial ⟨pt, rfl⟩
        have hval := ih.pccV hc e st hret hw pt st2 hm hwf
        cases hout
        exact ⟨hb.1, hb2, fun hnbr => hval hnbr⟩
      | thr e2 =>
        rw [hm] at hout
        cases hout
        exact ⟨hb.1, hb.2.1 ⟨e2, rfl⟩, fun _ => rfl⟩

theorem excAssign_none_value (p : ExcResult) : (excAssign ⟨none, none⟩ p).value = p.value := by
  cases hp : p.value <;> simp [excAssign, hp]

theorem handleExceptionResult_eq (st : St) (result : ExcResult) :
    handleExceptionResult st result =
    match result.value with
    | some v => (.ok v, { st with flowState := st.flowState.setReturn })
    | none =>
      match result.error with
      | some e => (.thr e, st)
      | none => (.ok .undef, st) := rfl

/-- The finalizer half of `TryStatement`, shared by the block-completed and
catch-completed paths. -/
theorem tryFinAux (ext : Ext) (fuel : Nat) (ih : MasterInv ext fuel)
    (fin : Option Node) (result : ExcResult) (st3 : St) (hw3 : WfSt st3)
    (h3 : st3.flowState.returnF = false) (hwfin : wfO fin = true) :
    ∀ (r : Res Value) (st9 : St),
      (match handleExceptionBlock ext fuel fin st3 with
       | none => none
       | some (.thr e2, st4) => some ((.thr e2 : Res Value), st4)
       | some (.ok part2, st4) =>
         some ((handleExceptionResult st4 (excAssign result part2)).1,
               (handleExceptionResult st4 (excAssign result part2)).2)) = some (r, st9) →
      WfSt st9 ∧ ((∃ e, r = Res.thr e) → st9.flowState.returnF = false) ∧
      (result.value = none → nbrO fin = true → (∃ a, r = Res.ok a) →
        st9.flowState.returnF = false) := by
  intro r st9 hout
  cases hm : handleExceptionBlock ext fuel fin st3 with
  | none => rw [hm] at hout; cases hout
  | some p =>
    obtain ⟨res2, st4⟩ := p
    have hf := ih.heb fin st3 h3 hw3 res2 st4 hm hwfin
    cases res2 with
    | thr e2 =>
      rw [hm] at hout
      cases hout
      exact ⟨hf.1, fun _ => hf.2.1 ⟨e2, rfl⟩, fun _ _ _ => hf.2.1 ⟨e2, rfl⟩⟩
    | ok part2 =>
      rw [hm] at hout
      try dsimp only at hout
      have h4 : st4.flowState.returnF = false := hf.2.2 trivial ⟨part2, rfl⟩
      cases hv : (excAssign result part2).value with
      | some v =>
        rw [handleExceptionResult_eq, hv] at hout
        cases hout
        refine ⟨hf.1, ?_, ?_⟩
        · rintro ⟨e, he⟩
          cases he
        · intro hrv hnf _
          have hp2 : part2.value = none :=
            ih.hebV fin st3 h3 hw3 part2 st4 hm hwfin hnf
          have hcontra : (excAssign result part2).value = none := by
            simp [excAssign, hp2, hrv]
          rw [hcontra] at hv
          cases hv
      | none =>
        cases he2 : (excAssign result part2).error with
        | some e =>
          rw [handleExceptionResult_eq, hv, he2] at hout
          cases hout
          exact ⟨hf.1, fun _ => h4, fun _ _ _ => h4⟩
        | none =>
          rw [handleExceptionResult_eq, hv, he2] at hout
          cases hout
          exact ⟨hf.1, fun _ => h4, fun _ _ _ => h4⟩

theorem stepTryS (ext : Ext) (fuel : Nat) (ih : MasterInv ext fuel) :
    ∀ b h fin st, PInv (evalTryStatement ext (fuel + 1) b h fin st) st
      (wf b = true ∧ wfO h = true ∧ wfO fin = true)
      (nbr b = true ∧ nbrO h = true ∧ nbrO fin = true) := by
  intro b h fin st
  rw [evalTryStatement_eq]
  dsimp only
  intro hret hw r st9 hout hwfP
  obtain ⟨hwb, hwh, hwfin⟩ := hwfP
  cases hm : handleExceptionBlock ext fuel (some b) st with
  | none => rw [hm] at hout; cases hout
  | some p =>
    obtain ⟨res, st1⟩ := p
    have hb := ih.heb (some b) st hret hw res st1 hm hwb
    cases res with
    | ok part =>
      rw [hm] at hout
      try dsimp only at hout
      have h1 : st1.flowState.returnF = false := hb.2.2 trivial ⟨part, rfl⟩
      have haux := tryFinAux ext fuel ih fin (excAssign ⟨none, none⟩ part) st1 hb.1 h1
        hwfin r st9 hout
      refine ⟨haux.1, haux.2.1, fun hnbr hok => ?_⟩
      obtain ⟨hnb, hnh, hnf⟩ := hnbr
      refine haux.2.2 ?_ hnf hok
      have hpv : part.value = none := ih.hebV (some b) st hret hw part st1 hm hwb hnb
      rw [excAssign_none_value, hpv]
    | thr e =>
      rw [hm] at hout
      try dsimp only at hout
      have h1 : st1.flowState.returnF = false := hb.2.1 ⟨e, rfl⟩
      cases hcc2 : handleCatchClause ext fuel h e st1 with
      | none => rw [hcc2] at hout; cases hout
      | some pc =>
        obtain ⟨part, st2⟩ := pc
        have hc := ih.hcc h e st1 h1 hb.1 part st2 hcc2 hwh
        rw [hcc2] at hout
        try dsimp only at hout
        have haux := tryFinAux ext fuel ih fin (excAssign ⟨none, none⟩ part) st2 hc.1
          hc.2.1 hwfin r st9 hout
        refine ⟨haux.1, haux.2.1, fun hnbr hok => ?_⟩
        obtain ⟨hnb, hnh, hnf⟩ := hnbr
        refine haux.2.2 ?_ hnf hok
        have hpv : part.value = none := hc.2.2 hnh
        rw [excAssign_none_value, hpv]

theorem stepPN (ext : Ext) (fuel : Nat) (ih : MasterInv ext fuel) :
    ∀ n opts st, PInv (parseNode ext (fuel + 1) n opts st) st
      (wfO n = true) (nbrO n = true) := by
  intro n opts st
  cases n with
  | none => rw [parseNode_eq1]; exact PInv_pure_ok _ _ _ _
  | some nd =>
    rw [parseNode_eq2]
    intro hret hw r st9 hout hwfP
    cases hm : dispatchNode ext fuel nd opts st with
    | none => rw [hm] at hout; cases hout
    | some p =>
      obtain ⟨res, st1⟩ := p
      have hd := ih.dn nd opts st hret hw res st1 hm hwfP
      cases res with
      | thr e =>
        rw [hm, bindO_thr] at hout
        cases hout
        exact ⟨hd.1, fun _ => hd.2.1 ⟨e, rfl⟩, fun _ _ => hd.2.1 ⟨e, rfl⟩⟩
      | ok v =>
        rw [hm, bindO_ok] at hout
        cases hout
        refine ⟨hd.1, ?_, ?_⟩
        · rintro ⟨e, he⟩
          cases he
        · intro hnbr _
          exact (handleStatementLabelState_returnF st1.flowState opts).trans
            (hd.2.2 hnbr ⟨v, rfl⟩)

theorem stepDN (ext : Ext) (fuel : Nat) (ih : MasterInv ext fuel) :
    ∀ n opts st, PInv (dispatchNode ext (fuel + 1) n opts st) st
      (wf n = true) (nbr n = true) := by
  intro n opts st
  rw [dispatchNode_eq]
  cases n with
  | Program body =>
    dsimp only
    intro hret hw r st9 hout hwfP
    cases hh : handleHoisting ext fuel body st with
    | none => rw [hh] at hout; cases hout
    | some st1 =>
      rw [hh] at hout
      try dsimp only at hout
      have hq := handleHoisting_pres ext fuel body st st1 hh
      cases hm : parseStatements ext fuel body st1 with
      | none => rw [hm] at hout; cases hout
      | some p =>
        obtain ⟨res, st2⟩ := p
        have hs := ih.stmts body st1 ((congrArg FlowState.returnF hq.1).trans hret)
          (WfSt_of_funcs_eq hq.2 hw) res st2 hm (by simpa [wf] using hwfP)
        cases res with
        | thr e =>
          rw [hm, bindO_thr] at hout
          cases hout
          exact ⟨hs.1, fun _ => hs.2.1 ⟨e, rfl⟩, fun _ _ => hs.2.1 ⟨e, rfl⟩⟩
        | ok v =>
          rw [hm, bindO_ok] at hout
          cases hout
          refine ⟨hs.1, ?_, fun hnbr _ => hs.2.2 (by simpa [nbr] using hnbr) ⟨v, rfl⟩⟩
          rintro ⟨e, he⟩
          cases he
  | ExpressionStatement e =>
    refine PInv_bindO (fun hret hw => ⟨?_, ?_⟩) ?_
    · intro e2 st1 hm hwfP
      obtain ⟨hne, hwe⟩ : nbr e = true ∧ wf e = true := by simpa [wf] using hwfP
      exact PInv_thr_clear (ih.pn (some e) none st) hret hw hwe e2 st1 hm
    · intro v st1 hm hwfP
      obtain ⟨hne, hwe⟩ : nbr e = true ∧ wf e = true := by simpa [wf] using hwfP
      exact PInv_ok_clear (ih.pn (some e) none st) hret hw hwe hne v st1 hm
    · exact fun v st1 _ _ _ => PInv_pure_ok _ _ _ _
  | BlockStatement body =>
    exact PInv_mono (ih.stmts body st) (fun h => by simpa [wf] using h)
      (fun h => by simpa [nbr] using h)
  | EmptyStatement => exact PInv_pure_ok _ _ _ _
  | ReturnStatement arg =>
    dsimp only
    intro hret hw r st9 hout hwfP
    have hEO : wfEO arg = true := by simpa [wf] using hwfP
    cases hm : parseNode ext fuel arg none st with
    | none => rw [hm] at hout; cases hout
    | some p =>
      obtain ⟨res, st2⟩ := p
      have hb := ih.pn arg none st hret hw res st2 hm (wfEO_imp_wfO hEO)
      cases res with
      | thr e =>
        rw [hm, bindO_thr] at hout
        cases hout
        exact ⟨hb.1, fun _ => hb.2.1 ⟨e, rfl⟩, fun _ _ => hb.2.1 ⟨e, rfl⟩⟩
      | ok v =>
        rw [hm, bindO_ok] at hout
        cases hout
        refine ⟨hb.1, ?_, fun hnbr _ => absurd hnbr (by simp [nbr])⟩
        rintro ⟨e, he⟩
        cases he
  | LabeledStatement lbl body =>
    exact PInv_mono (ih.pn (some body) (getNameFromPattern lbl) st)
      (fun h => by simpa [wf] using h) (fun h => by simpa [nbr] using h)
  | BreakStatement lbl =>
    dsimp only
    intro hret hw r st9 hout hwfP
    cases hout
    refine ⟨hw, ?_, fun _ _ =>
      (setFlowStateLabel_returnF st.flowState.setBreak lbl).trans hret⟩
    rintro ⟨e, he⟩
    cases he
  | ContinueStatement lbl =>
    dsimp only
    intro hret hw r st9 hout hwfP
    cases hout
    refine ⟨hw, ?_, fun _ _ =>
      (setFlowStateLabel_returnF st.flowState.setContinue lbl).trans hret⟩
    rintro ⟨e, he⟩
    cases he
  | IfStatement t c a =>
    refine PInv_bindO (fun hret hw => ⟨?_, ?_⟩) ?_
    · intro e st1 hm hwfP
      obtain ⟨hnt, hwt, hwc, hwa⟩ :
          nbr t = true ∧ wf t = true ∧ wf c = true ∧ wfO a = true := by
        simpa [wf, and_assoc] using hwfP
      exact PInv_thr_clear (ih.pn (some t) none st) hret hw hwt e st1 hm
    · intro tv st1 hm hwfP
      obtain ⟨hnt, hwt, hwc, hwa⟩ :
          nbr t = true ∧ wf t = true ∧ wf c = true ∧ wfO a = true := by
        simpa [wf, and_assoc] using hwfP
      exact PInv_ok_clear (ih.pn (some t) none st) hret hw hwt hnt tv st1 hm
    · intro tv st1 _ hw1 hret1
      by_cases htv : truthy tv = true
      · rw [if_pos htv]
        refine PInv_mono (ih.pn (some c) none st1) ?_ ?_
        · intro h
          obtain ⟨hnt, hwt, hwc, hwa⟩ :
              nbr t = true ∧ wf t = true ∧ wf c = true ∧ wfO a = true := by
            simpa [wf, and_assoc] using h
          exact hwc
        · intro h
          obtain ⟨hn1, hn2, hn3⟩ : nbr t = true ∧ nbr c = true ∧ nbrO a = true := by
            simpa [nbr, and_assoc] using h
          exact hn2
      · rw [if_neg htv]
        refine PInv_mono (ih.pn a none st1) ?_ ?_
        · intro h
          obtain ⟨hnt, hwt, hwc, hwa⟩ :
              nbr t = true ∧ wf t = true ∧ wf c = true ∧ wfO a = true := by
            simpa [wf, and_assoc] using h
          exact hwa
        · intro h
          obtain ⟨hn1, hn2, hn3⟩ : nbr t = true ∧ nbr c = true ∧ nbrO a = true := by
            simpa [nbr, and_assoc] using h
          exact hn3
  | SwitchStatement disc cs =>
    refine PInv_bindO (fun hret hw => ⟨?_, ?_⟩) ?_
    · intro e st1 hm hwfP
      obtain ⟨hnd, hwd, hwcs⟩ : nbr disc = true ∧ wf disc = true ∧ wfList cs = true := by
        simpa [wf, and_assoc] using hwfP
      exact PInv_thr_clear (ih.pn (some disc) none st) hret hw hwd e st1 hm
    · intro dv st1 hm hwfP
      obtain ⟨hnd, hwd, hwcs⟩ : nbr disc = true ∧ wf disc = true ∧ wfList cs = true := by
        simpa [wf, and_assoc] using hwfP
      exact PInv_ok_clear (ih.pn (some disc) none st) hret hw hwd hnd dv st1 hm
    · intro dv st1 _ hw1 hret1
      intro hret2 hw2 r st9 hout hwfP
      obtain ⟨hnd, hwd, hwcs⟩ : nbr disc = true ∧ wf disc = true ∧ wfList cs = true := by
        simpa [wf, and_assoc] using hwfP
      cases hm : parseSwitchCases ext fuel cs dv st1 with
      | none => rw [hm] at hout; cases hout
      | some p =>
        obtain ⟨res, st3⟩ := p
        have hs := ih.swc cs dv st1 hret2 hw2 res st3 hm hwcs
        cases res with
        | thr e =>
          rw [hm, bindO_thr] at hout
          cases hout
          exact ⟨hs.1, fun _ => hs.2.1 ⟨e, rfl⟩, fun _ _ => hs.2.1 ⟨e, rfl⟩⟩
        | ok rv =>
          rw [hm, bindO_ok] at hout
          cases hout
          refine ⟨hs.1, ?_, fun hnbr _ => ?_⟩
          · rintro ⟨e, he⟩
            cases he
          · obtain ⟨hn1, hn2⟩ : nbr disc = true ∧ nbrList cs = true := by
              simpa [nbr] using hnbr
            exact (unsetBreak_returnF st3.flowState).trans (hs.2.2 hn2 ⟨rv, rfl⟩)
  | SwitchCase t cons =>
    refine PInv_mono (ih.stmts cons st) ?_ ?_
    · intro h
      have h2 : wfEO t = true ∧ wfList cons = true := by simpa [wf] using h
      exact h2.2
    · intro h
      have h2 : nbrO t = true ∧ nbrList cons = true := by simpa [nbr] using h
      exact h2.2
  | ThrowStatement argN =>
    dsimp only
    intro hret hw r st9 hout hwfP
    obtain ⟨hne, hwe⟩ : nbr argN = true ∧ wf argN = true := by simpa [wf] using hwfP
    cases hm : parseNode ext fuel (some argN) none st with
    | none => rw [hm] at hout; cases hout
    | some p =>
      obtain ⟨res, st2⟩ := p
      have hb := ih.pn (some argN) none st hret hw res st2 hm hwe
      cases res with
      | thr e =>
        rw [hm, bindO_thr] at hout
        cases hout
        exact ⟨hb.1, fun _ => hb.2.1 ⟨e, rfl⟩, fun _ _ => hb.2.1 ⟨e, rfl⟩⟩
      | ok ev =>
        rw [hm, bindO_ok] at hout
        cases hout
        have h2 := hb.2.2 hne ⟨ev, rfl⟩
        exact ⟨hb.1, fun _ => h2, fun _ _ => h2⟩
  | TryStatement b h fin =>
    refine PInv_mono (ih.tryS b h fin st) ?_ ?_
    · intro hh
      obtain ⟨h1, h2, h3⟩ : wf b = true ∧ wfO h = true ∧ wfO fin = true := by
        simpa [wf, and_assoc] using hh
      exact ⟨h1, h2, h3⟩
    · intro hh
      obtain ⟨h1, h2, h3⟩ : nbr b = true ∧ nbrO h = true ∧ nbrO fin = true := by
        simpa [nbr, and_assoc] using hh
      exact ⟨h1, h2, h3⟩
  | CatchClause param b => exact PInv_pure_thr _ _ _ _
  | WhileStatement t b =>
    refine PInv_mono (ih.whileS t b opts st) ?_ ?_
    · intro h
      obtain ⟨h1, h2, h3⟩ : nbr t = true ∧ wf t = true ∧ wf b = true := by
        simpa [wf, and_assoc] using h
      exact ⟨h1, h2, h3⟩
    · intro h
      obtain ⟨h1, h2⟩ : nbr t = true ∧ nbr b = true := by simpa [nbr] using h
      exact h2
  | DoWhileStatement b t =>
    refine PInv_mono (ih.doWhile b t opts st) ?_ ?_
    · intro h
      obtain ⟨h1, h2, h3⟩ : wf b = true ∧ nbr t = true ∧ wf t = true := by
        simpa [wf, and_assoc] using h
      exact ⟨h1, h2, h3⟩
    · intro h
      obtain ⟨h1, h2⟩ : nbr b = true ∧ nbr t = true := by simpa [nbr] using h
      exact h1
  | ForStatement i t u b =>
    refine PInv_mono (ih.forS i t u b opts st) ?_ ?_
    · intro h
      obtain ⟨h1, h2, h3, h4⟩ :
          wfEO i = true ∧ wfEO t = true ∧ wfEO u = true ∧ wf b = true := by
        simpa [wf, and_assoc] using h
      exact ⟨h1, h2, h3, h4⟩
    · intro h
      obtain ⟨h1, h2, h3, h4⟩ :
          nbrO i = true ∧ nbrO t = true ∧ nbrO u = true ∧ nbr b = true := by
        simpa [nbr, and_assoc] using h
      exact h4
  | ForInStatement l r b =>
    refine PInv_mono (ih.forIn l r b opts st) ?_ ?_
    · intro h
      obtain ⟨hnl, hwl, hnr, hwr, hwb⟩ :
          nbr l = true ∧ wf l = true ∧ nbr r = true ∧ wf r = true ∧ wf b = true := by
        simpa [wf, and_assoc] using h
      exact ⟨hnl, hwl, hnr, hwr, hwb⟩
    · intro h
      obtain ⟨h1, h2, h3⟩ : nbr l = true ∧ nbr r = true ∧ nbr b = true := by
        simpa [nbr, and_assoc] using h
      exact h3
  | FunctionDeclaration id params fbody =>
    dsimp only
    intro hret hw r st9 hout hwfP
    cases hcfa : createFunctionAgent ext fuel params fbody st with
    | none => rw [hcfa] at hout; cases hout
    | some p =>
      obtain ⟨fv, st2⟩ := p
      rw [hcfa] at hout
      cases hout
      obtain ⟨data, hdb, hst2⟩ := createFunctionAgent_shape ext fuel params fbody st fv st2 hcfa
      have hwb : wf fbody = true := by simpa [wf] using hwfP
      have hw2 : WfSt st2 := hst2.symm ▸ WfSt_allocFunc hw (hdb.symm ▸ hwb)
      have hr2 : st2.flowState.returnF = false := by
        rw [hst2]
        exact (congrArg FlowState.returnF (allocFunc_flowState st data)).trans hret
      have q := setVariables_pres st2 (getNameFromPattern id) fv
      refine ⟨WfSt_of_funcs_eq q.2 hw2, ?_,
        fun _ _ => (congrArg FlowState.returnF q.1).trans hr2⟩
      rintro ⟨e, he⟩
      cases he
  | FunctionExpression idOpt params fbody =>
    dsimp only
    intro hret hw r st9 hout hwfP
    have hwb : wf fbody = true := by simpa [wf] using hwfP
    cases hpfe : parseFunctionExpression ext fuel params fbody st with
    | none => rw [hpfe] at hout; cases hout
    | some p =>
      obtain ⟨data, st1⟩ := p
      obtain ⟨hst1, hdb⟩ := parseFunctionExpression_shape ext fuel params fbody st data st1 hpfe
      subst hst1
      rw [hpfe] at hout
      cases idOpt with
      | none =>
        try dsimp only at hout
        cases hout
        refine ⟨WfSt_allocFunc hw (hdb.symm ▸ hwb), ?_, fun _ _ =>
          (congrArg FlowState.returnF (allocFunc_flowState st1 data)).trans hret⟩
        rintro ⟨e, he⟩
        cases he
      | some idn =>
        try dsimp only at hout
        cases hout
        refine ⟨WfSt_allocFunc hw ?_, ?_, fun _ _ =>
          (congrArg FlowState.returnF (allocFunc_flowState st1 _)).trans hret⟩
        · exact hdb.symm ▸ hwb
        · rintro ⟨e, he⟩
          cases he
  | VariableDeclaration kind decls =>
    exact PInv_mono (ih.decl kind decls st) (fun h => by simpa [wf] using h)
      (fun _ => trivial)
  | VariableDeclarator id init =>
    refine PInv_bindO (fun hret hw => ⟨?_, ?_⟩) ?_
    · intro e st1 hm hwfP
      have hEO : wfEO init = true := by simpa [wf] using hwfP
      exact PInv_thr_clear (ih.pn init none st) hret hw (wfEO_imp_wfO hEO) e st1 hm
    · intro v st1 hm hwfP
      have hEO : wfEO init = true := by simpa [wf] using hwfP
      exact PInv_ok_clear (ih.pn init none st) hret hw (wfEO_imp_wfO hEO)
        (wfEO_imp_nbrO hEO) v st1 hm
    · intro v st1 _ hw1 hret1
      have q := setVariables_pres st1 (getNameFromPattern id) v
      exact PInv_pure_ok_mod Value.undef st1 _ _ _ (congrArg FlowState.returnF q.1) q.2
  | ThisExpression => exact PInv_pure_ok _ _ _ _
  | ArrayExpression elems =>
    refine PInv_bindO (fun hret hw => ⟨?_, ?_⟩) ?_
    · intro e st1 hm hwfP
      exact PInv_thr_clear (ih.elemsI elems st) hret hw (by simpa [wf] using hwfP) e st1 hm
    · intro vs st1 hm hwfP
      exact PInv_ok_clear (ih.elemsI elems st) hret hw (by simpa [wf] using hwfP)
        trivial vs st1 hm
    · intro vs st1 _ hw1 hret1
      exact PInv_pure_ok_mod _ st1 _ _ _
        (congrArg FlowState.returnF (allocObj_pres st1 _).1) (allocObj_pres st1 _).2
  | ObjectExpression props =>
    refine PInv_bindO (fun hret hw => ⟨?_, ?_⟩) ?_
    · intro e st1 hm hwfP
      exact PInv_thr_clear (ih.propsI props [] st) hret hw (by simpa [wf] using hwfP)
        e st1 hm
    · intro ps st1 hm hwfP
      exact PInv_ok_clear (ih.propsI props [] st) hret hw (by simpa [wf] using hwfP)
        trivial ps st1 hm
    · intro ps st1 _ hw1 hret1
      exact PInv_pure_ok_mod _ st1 _ _ _
        (congrArg FlowState.returnF (allocObj_pres st1 _).1) (allocObj_pres st1 _).2
  | Property k v computed =>
    refine PInv_bindO (fun hret hw => ⟨?_, ?_⟩) ?_
    · intro e st1 hm hwfP
      obtain ⟨⟨hnk, hwk⟩, hnv, hwv⟩ :
          (nbr k = true ∧ wf k = true) ∧ nbr v = true ∧ wf v = true := by
        simpa [wf] using hwfP
      exact PInv_thr_clear (ih.gpk k computed st) hret hw ⟨hnk, hwk⟩ e st1 hm
    · intro kv st1 hm hwfP
      obtain ⟨⟨hnk, hwk⟩, hnv, hwv⟩ :
          (nbr k = true ∧ wf k = true) ∧ nbr v = true ∧ wf v = true := by
        simpa [wf] using hwfP
      exact PInv_ok_clear (ih.gpk k computed st) hret hw ⟨hnk, hwk⟩ trivial kv st1 hm
    · intro kv st1 _ hw1 hret1
      refine PInv_bindO (fun hret2 hw2 => ⟨?_, ?_⟩) ?_
      · intro e st3 hm hwfP
        obtain ⟨⟨hnk, hwk⟩, hnv, hwv⟩ :
            (nbr k = true ∧ wf k = true) ∧ nbr v = true ∧ wf v = true := by
          simpa [wf] using hwfP
        exact PInv_thr_clear (ih.pn (some v) none st1) hret2 hw2 hwv e st3 hm
      · intro vv st3 hm hwfP
        obtain ⟨⟨hnk, hwk⟩, hnv, hwv⟩ :
            (nbr k = true ∧ wf k = true) ∧ nbr v = true ∧ wf v = true := by
          simpa [wf] using hwfP
        exact PInv_ok_clear (ih.pn (some v) none st1) hret2 hw2 hwv hnv vv st3 hm
      · intro vv st3 _ hw3 hret3
        exact PInv_pure_ok_mod _ st3 _ _ _
          (congrArg FlowState.returnF (allocObj_pres st3 _).1) (allocObj_pres st3 _).2
  | UnaryExpression op a =>
    dsimp only
    by_cases hop : op = "delete"
    · rw [if_pos hop]
      refine PInv_bindO (fun hret hw => ⟨?_, ?_⟩) ?_
      · intro e st1 hm hwfP
        obtain ⟨hna, hwa⟩ : nbr a = true ∧ wf a = true := by simpa [wf] using hwfP
        exact PInv_thr_clear (ih.gre a st) hret hw hwa e st1 hm
      · intro ref st1 hm hwfP
        obtain ⟨hna, hwa⟩ : nbr a = true ∧ wf a = true := by simpa [wf] using hwfP
        exact PInv_ok_clear (ih.gre a st) hret hw hwa trivial ref st1 hm
      · intro ref st1 _ hw1 hret1
        cases hdel : deleteOperator st1 ref with
        | ok p2 =>
          have hq := deleteOperator_ok_pres st1 ref p2 hdel
          exact PInv_pure_ok_mod p2.1 st1 p2.2 _ _ (congrArg FlowState.returnF hq.1) hq.2
        | thr e => exact PInv_pure_thr _ _ _ _
    · rw [if_neg hop]
      refine PInv_bindO (fun hret hw => ⟨?_, ?_⟩) ?_
      · intro e st1 hm hwfP
        obtain ⟨hna, hwa⟩ : nbr a = true ∧ wf a = true := by simpa [wf] using hwfP
        exact PInv_thr_clear (ih.pn (some a) none st) hret hw hwa e st1 hm
      · intro v st1 hm hwfP
        obtain ⟨hna, hwa⟩ : nbr a = true ∧ wf a = true := by simpa [wf] using hwfP
        exact PInv_ok_clear (ih.pn (some a) none st) hret hw hwa hna v st1 hm
      · exact fun v st1 _ _ _ => PInv_pure_ok _ _ _ _
  | UpdateExpression op a pre =>
    refine PInv_bindO (fun hret hw => ⟨?_, ?_⟩) ?_
    · intro e st1 hm hwfP
      obtain ⟨hna, hwa⟩ : nbr a = true ∧ wf a = true := by simpa [wf] using hwfP
      exact PInv_thr_clear (ih.pn (some a) none st) hret hw hwa e st1 hm
    · intro origin st1 hm hwfP
      obtain ⟨hna, hwa⟩ : nbr a = true ∧ wf a = true := by simpa [wf] using hwfP
      exact PInv_ok_clear (ih.pn (some a) none st) hret hw hwa hna origin st1 hm
    · intro origin st1 _ hw1 hret1
      dsimp only
      refine PInv_bindO (fun hret2 hw2 => ⟨?_, ?_⟩) ?_
      · intro e st3 hm hwfP
        obtain ⟨hna, hwa⟩ : nbr a = true ∧ wf a = true := by simpa [wf] using hwfP
        exact PInv_thr_clear (ih.gre a st1) hret2 hw2 hwa e st3 hm
      · intro ref st3 hm hwfP
        obtain ⟨hna, hwa⟩ : nbr a = true ∧ wf a = true := by simpa [wf] using hwfP
        exact PInv_ok_clear (ih.gre a st1) hret2 hw2 hwa trivial ref st3 hm
      · intro ref st3 _ hw3 hret3
        intro hret4 hw4 r st9 hout hwfP
        have q := assignmentOperatorEq_pres ext st3 ref (updateOperators op origin)
        cases haoe : assignmentOperatorEq ext st3 ref (updateOperators op origin) with
        | mk res st4 =>
          rw [haoe] at q hout
          cases res with
          | thr e2 =>
            cases hout
            exact ⟨WfSt_of_funcs_eq q.2 hw4,
              fun _ => (congrArg FlowState.returnF q.1).trans hret4,
              fun _ _ => (congrArg FlowState.returnF q.1).trans hret4⟩
          | ok v2 =>
            cases hout
            refine ⟨WfSt_of_funcs_eq q.2 hw4, ?_,
              fun _ _ => (congrArg FlowState.returnF q.1).trans hret4⟩
            rintro ⟨e2, he⟩
            cases he
  | BinaryExpression op l r =>
    exact PInv_mono (ih.bine (.BinaryExpression op l r) st) (fun h => h) (fun _ => trivial)
  | AssignmentExpression op l r =>
    exact PInv_mono (ih.asge (.AssignmentExpression op l r) st) (fun h => h)
      (fun _ => trivial)
  | LogicalExpression op l r =>
    dsimp only
    by_cases h1 : op = "||"
    · rw [if_pos h1]
      refine PInv_bindO (fun hret hw => ⟨?_, ?_⟩) ?_
      · intro e st1 hm hwfP
        obtain ⟨⟨hnl, hwl⟩, hnr, hwr⟩ :
            (nbr l = true ∧ wf l = true) ∧ nbr r = true ∧ wf r = true := by
          simpa [wf] using hwfP
        exact PInv_thr_clear (ih.pn (some l) none st) hret hw hwl e st1 hm
      · intro lv st1 hm hwfP
        obtain ⟨⟨hnl, hwl⟩, hnr, hwr⟩ :
            (nbr l = true ∧ wf l = true) ∧ nbr r = true ∧ wf r = true := by
          simpa [wf] using hwfP
        exact PInv_ok_clear (ih.pn (some l) none st) hret hw hwl hnl lv st1 hm
      · intro lv st1 _ hw1 hret1
        by_cases htv : truthy lv = true
        · rw [if_pos htv]
          exact PInv_pure_ok _ _ _ _
        · rw [if_neg htv]
          refine PInv_mono (ih.pn (some r) none st1) ?_ ?_
          · intro h
            obtain ⟨⟨hnl, hwl⟩, hnr, hwr⟩ :
                (nbr l = true ∧ wf l = true) ∧ nbr r = true ∧ wf r = true := by
              simpa [wf] using h
            exact hwr
          · intro h
            obtain ⟨hn1, hn2⟩ : nbr l = true ∧ nbr r = true := by simpa [nbr] using h
            exact hn2
    · rw [if_neg h1]
      by_cases h2 : op = "&&"
      · rw [if_pos h2]
        refine PInv_bindO (fun hret hw => ⟨?_, ?_⟩) ?_
        · intro e st1 hm hwfP
          obtain ⟨⟨hnl, hwl⟩, hnr, hwr⟩ :
              (nbr l = true ∧ wf l = true) ∧ nbr r = true ∧ wf r = true := by
            simpa [wf] using hwfP
          exact PInv_thr_clear (ih.pn (some l) none st) hret hw hwl e st1 hm
        · intro lv st1 hm hwfP
          obtain ⟨⟨hnl, hwl⟩, hnr, hwr⟩ :
              (nbr l = true ∧ wf l = true) ∧ nbr r = true ∧ wf r = true := by
            simpa [wf] using hwfP
          exact PInv_ok_clear (ih.pn (some l) none st) hret hw hwl hnl lv st1 hm
        · intro lv st1 _ hw1 hret1
          by_cases htv : truthy lv = true
          · rw [if_pos htv]
            refine PInv_mono (ih.pn (some r) none st1) ?_ ?_
            · intro h
              obtain ⟨⟨hnl, hwl⟩, hnr, hwr⟩ :
                  (nbr l = true ∧ wf l = true) ∧ nbr r = true ∧ wf r = true := by
                simpa [wf] using h
              exact hwr
            · intro h
              obtain ⟨hn1, hn2⟩ : nbr l = true ∧ nbr r = true := by simpa [nbr] using h
              exact hn2
          · rw [if_neg htv]
            exact PInv_pure_ok _ _ _ _
      · rw [if_neg h2]
        exact PInv_pure_thr _ _ _ _
  | MemberExpression o p c =>
    refine PInv_bindO (fun hret hw => ⟨?_, ?_⟩) ?_
    · intro e st1 hm hwfP
      obtain ⟨⟨hno, hwo⟩, hnp, hwp⟩ :
          (nbr o = true ∧ wf o = true) ∧ nbr p = true ∧ wf p = true := by
        simpa [wf] using hwfP
      exact PInv_thr_clear (ih.gme o p c st) hret hw ⟨hno, hwo, hnp, hwp⟩ e st1 hm
    · intro exp st1 hm hwfP
      obtain ⟨⟨hno, hwo⟩, hnp, hwp⟩ :
          (nbr o = true ∧ wf o = true) ∧ nbr p = true ∧ wf p = true := by
        simpa [wf] using hwfP
      exact PInv_ok_clear (ih.gme o p c st) hret hw ⟨hno, hwo, hnp, hwp⟩ trivial
        exp st1 hm
    · intro exp st1 _ hw1 hret1
      exact PInv_mono (ih.pme exp st1) (fun _ => trivial) (fun _ => trivial)
  | ConditionalExpression t c a =>
    refine PInv_bindO (fun hret hw => ⟨?_, ?_⟩) ?_
    · intro e st1 hm hwfP
      obtain ⟨⟨hnt, hwt⟩, ⟨hnc, hwc⟩, hna, hwa⟩ :
          (nbr t = true ∧ wf t = true) ∧ (nbr c = true ∧ wf c = true) ∧
            nbr a = true ∧ wf a = true := by
        simpa [wf, and_assoc] using hwfP
      exact PInv_thr_clear (ih.pn (some t) none st) hret hw hwt e st1 hm
    · intro tv st1 hm hwfP
      obtain ⟨⟨hnt, hwt⟩, ⟨hnc, hwc⟩, hna, hwa⟩ :
          (nbr t = true ∧ wf t = true) ∧ (nbr c = true ∧ wf c = true) ∧
            nbr a = true ∧ wf a = true := by
        simpa [wf, and_assoc] using hwfP
      exact PInv_ok_clear (ih.pn (some t) none st) hret hw hwt hnt tv st1 hm
    · intro tv st1 _ hw1 hret1
      by_cases htv : truthy tv = true
      · rw [if_pos htv]
        refine PInv_mono (ih.pn (some c) none st1) ?_ ?_
        · intro h
          obtain ⟨⟨hnt, hwt⟩, ⟨hnc, hwc⟩, hna, hwa⟩ :
              (nbr t = true ∧ wf t = true) ∧ (nbr c = true ∧ wf c = true) ∧
                nbr a = true ∧ wf a = true := by
            simpa [wf, and_assoc] using h
          exact hwc
        · intro h
          obtain ⟨hn1, hn2, hn3⟩ : nbr t = true ∧ nbr c = true ∧ nbr a = true := by
            simpa [nbr, and_assoc] using h
          exact hn2
      · rw [if_neg htv]
        refine PInv_mono (ih.pn (some a) none st1) ?_ ?_
        · intro h
          obtain ⟨⟨hnt, hwt⟩, ⟨hnc, hwc⟩, hna, hwa⟩ :
              (nbr t = true ∧ wf t = true) ∧ (nbr c = true ∧ wf c = true) ∧
                nbr a = true ∧ wf a = true := by
            simpa [wf, and_assoc] using h
          exact hwa
        · intro h
          obtain ⟨hn1, hn2, hn3⟩ : nbr t = true ∧ nbr c = true ∧ nbr a = true := by
            simpa [nbr, and_assoc] using h
          exact hn3
  | CallExpression callee args =>
    refine PInv_mono (ih.callE callee args (.CallExpression callee args) st) ?_
      (fun _ => trivial)
    intro h
    obtain ⟨hnc, hwc, hargs⟩ : nbr callee = true ∧ wf callee = true ∧ wfArgs args = true := by
      simpa [wf, and_assoc] using h
    exact ⟨hnc, hwc, hargs⟩
  | NewExpression callee args =>
    refine PInv_bindO (fun hret hw => ⟨?_, ?_⟩) ?_
    · intro e st1 hm hwfP
      obtain ⟨hnc, hwc, hargs⟩ :
          nbr callee = true ∧ wf callee = true ∧ wfArgs args = true := by
        simpa [wf, and_assoc] using hwfP
      exact PInv_thr_clear (ih.pn (some callee) none st) hret hw hwc e st1 hm
    · intro cv st1 hm hwfP
      obtain ⟨hnc, hwc, hargs⟩ :
          nbr callee = true ∧ wf callee = true ∧ wfArgs args = true := by
        simpa [wf, and_assoc] using hwfP
      exact PInv_ok_clear (ih.pn (some callee) none st) hret hw hwc hnc cv st1 hm
    · intro cv st1 _ hw1 hret1
      refine PInv_bindO (fun hret2 hw2 => ⟨?_, ?_⟩) ?_
      · intro e st3 hm hwfP
        obtain ⟨hnc, hwc, hargs⟩ :
            nbr callee = true ∧ wf callee = true ∧ wfArgs args = true := by
          simpa [wf, and_assoc] using hwfP
        exact PInv_thr_clear (ih.pargs args st1) hret2 hw2 hargs e st3 hm
      · intro avs st3 hm hwfP
        obtain ⟨hnc, hwc, hargs⟩ :
            nbr callee = true ∧ wf callee = true ∧ wfArgs args = true := by
          simpa [wf, and_assoc] using hwfP
        exact PInv_ok_clear (ih.pargs args st1) hret2 hw2 hargs trivial avs st3 hm
      · intro avs st3 _ hw3 hret3
        exact PInv_mono (ih.conF cv avs st3) (fun _ => trivial) (fun _ => trivial)
  | SequenceExpression exprs =>
    exact PInv_mono (ih.seqE exprs st) (fun h => by simpa [wf] using h) (fun _ => trivial)
  | Identifier name =>
    dsimp only
    by_cases h1 : name = "null"
    · rw [if_pos h1]
      exact PInv_pure_ok _ _ _ _
    · rw [if_neg h1]
      by_cases h2 : name = "undefined"
      · rw [if_pos h2]
        exact PInv_pure_ok _ _ _ _
      · rw [if_neg h2]
        exact PInv_pure_ok _ _ _ _
  | Literal v => exact PInv_pure_ok _ _ _ _

/-- At fuel `0` every evaluator answers `none`, so every invariant holds
vacuously. -/
theorem masterInv_zero (ext : Ext) : MasterInv ext 0 where
  pn := fun n opts st => PInv_none st _ _
  dn := fun n opts st => PInv_none st _ _
  stmts := fun l st => PInv_none st _ _
  hstmts := fun l st => PInv_none st _ _
  hstmtsW := fun l st nonH st2 h => nomatch h
  nhstmts := fun l st => PInv_none st _ _
  whileS := fun t b lbl st => PInv_none st _ _
  whileA := fun t b lbl acc st => PInv_none st _ _
  doWhile := fun b t lbl st => PInv_none st _ _
  forS := fun i t u b lbl st => PInv_none st _ _
  forA := fun t u b lbl acc st => PInv_none st _ _
  forIn := fun l r b lbl st => PInv_none st _ _
  forInA := fun nm b lbl keys acc st => PInv_none st _ _
  iter := fun nd st => PInv_none st _ _
  swc := fun cs disc st => PInv_none st _ _
  icm := fun t disc st => PInv_none st _ _
  tryS := fun b h fin st => PInv_none st _ _
  heb := fun blk st => PInv_none st _ _
  hcc := fun h e st _ _ part st2 hh => nomatch hh
  hebV := fun blk st _ _ part st2 hh => nomatch hh
  pccV := fun h e st _ _ part st2 hh => nomatch hh
  pcc := fun h e st => PInv_none st _ _
  pfad := fun d bi args st => PInv_none st _ _
  applyF := fun m recv args st => PInv_none st _ _
  conF := fun cv args st => PInv_none st _ _
  callE := fun c args nd st => PInv_none st _ _
  pcallee := fun c st => PInv_none st _ _
  pargs := fun l st => PInv_none st _ _
  pce := fun exp st => PInv_none st _ _
  exe := fun exp st => PInv_none st _ _
  exc := fun cal c st => PInv_none st _ _
  pme := fun exp st => PInv_none st _ _
  gme := fun o p c st => PInv_none st _ _
  gpk := fun k c st => PInv_none st _ _
  gre := fun e st => PInv_none st _ _
  bine := fun n st => PInv_none st _ _
  asge := fun n st => PInv_none st _ _
  gav := fun op l r st => PInv_none st _ _
  decl := fun kind ds st => PInv_none st _ _
  elemsI := fun es st => PInv_none st _ _
  propsI := fun ps acc st => PInv_none st _ _
  seqE := fun es st => PInv_none st _ _

/-- The RETURN-containment invariant bundle holds at every fuel level. -/
theorem masterInv (ext : Ext) : ∀ fuel, MasterInv ext fuel := by
  intro fuel
  induction fuel with
  | zero => exact masterInv_zero ext
  | succ n ihn =>
    exact {
      pn := stepPN ext n ihn
      dn := stepDN ext n ihn
      stmts := stepStmts ext n ihn
      hstmts := stepHStmts ext n ihn
      hstmtsW := stepHStmtsW ext n ihn
      nhstmts := stepNHStmts ext n ihn
      whileS := stepWhileS ext n ihn
      whileA := stepWhileA ext n ihn
      doWhile := stepDoWhile ext n ihn
      forS := stepForS ext n ihn
      forA := stepForA ext n ihn
      forIn := stepForIn ext n ihn
      forInA := stepForInA ext n ihn
      iter := stepIter ext n ihn
      swc := stepSwc ext n ihn
      icm := stepIcm ext n ihn
      tryS := stepTryS ext n ihn
      heb := stepHeb ext n ihn
      hcc := stepHcc ext n ihn
      hebV := stepHebV ext n ihn
      pccV := stepPccV ext n ihn
      pcc := stepPcc ext n ihn
      pfad := stepPfad ext n ihn
      applyF := stepApplyF ext n ihn
      conF := stepConF ext n ihn
      callE := stepCallE ext n ihn
      pcallee := stepPcallee ext n ihn
      pargs := stepPargs ext n ihn
      pce := stepPce ext n ihn
      exe := stepExe ext n ihn
      exc := stepExc ext n ihn
      pme := stepPme ext n ihn
      gme := stepGme ext n ihn
      gpk := stepGpk ext n ihn
      gre := stepGre ext n ihn
      bine := stepBine ext n ihn
      asge := stepAsge ext n ihn
      gav := stepGav ext n ihn
      decl := stepDecl ext n ihn
      elemsI := stepElems ext n ihn
      propsI := stepProps ext n ihn
      seqE := stepSeqE ext n ihn }

/-- C5 (counterexample to the unconditional reading): the one-statement
program `return 1;` completes `parseAst` normally with the RETURN flag
still set — a bare top-level `ReturnStatement` sets RETURN and nothing on
the top-level path clears it, so "the RETURN flag is clear whenever
parseAst returns" is false for arbitrary ASTs. -/
theorem parseAst_top_level_return_sets_flag :
    (parseAst extNoChecker 100 progTopLevelReturn "u.js" initialSt).map
      (fun p => (p.1, p.2.flowState.returnF)) = some (.ok .undef, true) := rfl

/-- C5 (corrected): (i) for every AST whose `ReturnStatement`s all sit in
statement position inside function bodies (`wf`) and that has no bare
top-level return (`nbr`), whenever `parseAst` terminates — normally or
with a thrown value — the RETURN flag is clear at the moment it returns;
and the mechanism claims hold unconditionally: (ii) the loop state machine
(`isLoopNeededToBreak`) never changes RETURN, (iii) the labelled-statement
post-hook never changes RETURN, and (iv) `SwitchStatement`'s final
`unset(BREAK)` never changes RETURN — RETURN is cleared only by function
exit (`parseFunctionAgentData`) and by try-related blocks that observed a
return (`getExceptionBlockResult`). -/
theorem returnFlag_clear_at_parseAst_return :
    (∀ (ext : Ext) (fuel : Nat) (root : Node) (url : String) (st : St)
        (r : Res Value) (st2 : St),
        st.flowState.returnF = false → WfSt st →
        nbr root = true → wf root = true →
        parseAst ext fuel root url st = some (r, st2) →
        st2.flowState.returnF = false) ∧
    (∀ (fs : FlowState) (l : Option String),
        (isLoopNeededToBreak fs l).2.returnF = fs.returnF) ∧
    (∀ (fs : FlowState) (l : Option String),
        (handleStatementLabelState fs l).returnF = fs.returnF) ∧
    (∀ fs : FlowState, fs.unsetBreak.returnF = fs.returnF) := by
  refine ⟨?_, isLoopNeededToBreak_returnF, handleStatementLabelState_returnF,
    unsetBreak_returnF⟩
  intro ext fuel root url st r st2 hret hw hnbr hwf hout
  unfold parseAst at hout
  cases hm : parseNode ext fuel (some root) none { st with scriptUrl := some url } with
  | none => rw [hm] at hout; cases hout
  | some p =>
    obtain ⟨res, st1⟩ := p
    have hb := (masterInv ext fuel).pn (some root) none { st with scriptUrl := some url }
      hret hw res st1 hm hwf
    cases res with
    | thr e =>
      rw [hm, bindO_thr] at hout
      cases hout
      exact hb.2.1 ⟨e, rfl⟩
    | ok v =>
      rw [hm, bindO_ok] at hout
      cases hout
      exact hb.2.2 hnbr ⟨v, rfl⟩

/-- Witness: the nested-function program (whose returns all live inside
function bodies) runs to completion and the theorem yields a clear RETURN
flag at the final state. -/
theorem returnFlag_clear_at_parseAst_return_witness :
    ∃ p, parseAst extNoChecker 40 progNestedFunctions "u.js" initialSt = some p ∧
      p.2.flowState.returnF = false := by
  obtain ⟨r, st2, hE⟩ : ∃ r st2,
      parseAst extNoChecker 40 progNestedFunctions "u.js" initialSt = some (r, st2) :=
    ⟨_, _, rfl⟩
  exact ⟨(r, st2), hE, returnFlag_clear_at_parseAst_return.1 extNoChecker 40
    progNestedFunctions "u.js" initialSt r st2 rfl
    (fun fr d hh => absurd hh (by simp [initialSt, mkInitState, funcGet]))
    (by decide) (by decide) hE⟩

end JsTracker
